import Mathlib

/-!
# Wagerr betting ledger store (`src/betting/bet.h`)

A shallow embedding of the betting database layer: the fixed-width key
serializers, the disk serializers of the undo records, the typed table
wrapper `CBettingDB` over a flushable key-value store, and the undo-log
operations of `CBettingsView`.

Machine integers are natural numbers (or integers) with the reduction modulo
the width written out; byte strings are lists of naturals below 256.
-/

namespace Wagerr

/-! ## Bytes and the stream primitives -/

/-- A byte string (`std::vector<unsigned char>`); every element is meant to be below 256. -/
abbrev ByteVector := List Nat

/-- Byte-lexicographic "less than" on byte strings, the order of the ordered store
and of `std::map<std::vector<unsigned char>, _>`: the first differing byte decides,
and a proper prefix is smaller. -/
def lexLess : ByteVector → ByteVector → Bool
  | [], [] => false
  | [], _ :: _ => true
  | _ :: _, [] => false
  | a :: as, b :: bs => decide (a < b) || (decide (a = b) && lexLess as bs)

/-- The byte order of the machine the code runs on. -/
inductive Endian where
  | little
  | big
  deriving DecidableEq, Repr

/-- The `n` low bytes of `x`, least significant byte first. -/
def leBytes : Nat → Nat → ByteVector
  | 0, _ => []
  | n + 1, x => (x % 256) :: leBytes n (x / 256)

/-- The number whose little-endian digits are the given bytes. -/
def leValue : ByteVector → Nat
  | [] => 0
  | b :: bs => b + 256 * leValue bs

/-- The in-memory bytes of an `n`-byte unsigned integer on the given host, lowest address first. -/
def memBytes (host : Endian) (n : Nat) (x : Nat) : ByteVector :=
  match host with
  | Endian.little => leBytes n x
  | Endian.big => (leBytes n x).reverse

/-- The unsigned integer a host reads from the given in-memory bytes. -/
def memValue (host : Endian) (bs : ByteVector) : Nat :=
  match host with
  | Endian.little => leValue bs
  | Endian.big => leValue bs.reverse

/-- The libc `htonl`: the 32-bit value whose in-memory bytes on the host are the
big-endian (network order) bytes of `x`. A byte swap on a little-endian host, the
identity on a big-endian host. -/
def htonl (host : Endian) (x : Nat) : Nat :=
  match host with
  | Endian.little => leValue (leBytes 4 x).reverse
  | Endian.big => x % 4294967296

/-- The libc `ntohl`, the same byte swap as `htonl`. -/
def ntohl (host : Endian) (x : Nat) : Nat :=
  htonl host x

/-- Modelled from the spec: the stream's write of a fixed-width unsigned integer
(`READWRITE` on an integer when serializing; `serialize.h` is not among the
sources). The stream appends the value's `n` in-memory bytes as the host holds
them, so a value prepared with `htonl` reaches the stream big-endian. -/
def writeData (host : Endian) (n : Nat) (x : Nat) : ByteVector :=
  memBytes host n x

/-- Modelled from the spec: the stream's read of a fixed-width unsigned integer
(`READWRITE` on an integer when deserializing; `serialize.h` is not among the
sources). It takes `n` bytes off the front into the integer's memory and fails
(the stream throws) when fewer are left. -/
def readData (host : Endian) (n : Nat) (s : ByteVector) : Option (Nat × ByteVector) :=
  if s.length < n then none else some (memValue host (s.take n), s.drop n)

/-! ## Database keys -/

/-- The key of the events table (`EventKey`); `ResultKey` is the same type. -/
structure EventKey where
  eventId : Nat
  deriving DecidableEq, Repr

/-- Alias `using ResultKey = EventKey`. -/
abbrev ResultKey := EventKey

/-- Source `EventKey::SerializationOp`, writing: `be_val = htonl(eventId); READWRITE(be_val)`. -/
def EventKey.Serialize (host : Endian) (k : EventKey) : ByteVector :=
  writeData host 4 (htonl host k.eventId)

/-- Source `EventKey::SerializationOp`, reading: `READWRITE(be_val); eventId = ntohl(be_val)`. -/
def EventKey.Unserialize (host : Endian) (s : ByteVector) : Option (EventKey × ByteVector) :=
  match readData host 4 s with
  | none => none
  | some (be_val, rest) => some ({ eventId := ntohl host be_val }, rest)

/-- The key of the mappings table (`MappingKey`). -/
structure MappingKey where
  nMType : Nat
  nId : Nat
  deriving DecidableEq, Repr

/-- Source `MappingKey::SerializationOp`, writing: the kind, then the id, each through `htonl`. -/
def MappingKey.Serialize (host : Endian) (k : MappingKey) : ByteVector :=
  writeData host 4 (htonl host k.nMType) ++ writeData host 4 (htonl host k.nId)

/-- Source `MappingKey::SerializationOp`, reading: the kind, then the id, each through `ntohl`. -/
def MappingKey.Unserialize (host : Endian) (s : ByteVector) : Option (MappingKey × ByteVector) :=
  match readData host 4 s with
  | none => none
  | some (be_val, rest) =>
    match readData host 4 rest with
    | none => none
    | some (be_val2, rest2) =>
      some ({ nMType := ntohl host be_val, nId := ntohl host be_val2 }, rest2)

/-- Modelled from the spec: the transaction output reference `COutPoint`
(`primitives/transaction.h` is not among the sources): the 256-bit transaction
hash and the 32-bit output index. -/
structure COutPoint where
  hash : Nat
  n : Nat
  deriving DecidableEq, Repr

/-- Modelled from the spec: the out-point's own `operator<` (not among the sources):
the hash decides, then the output index, both compared as numbers. -/
def COutPoint.lt (a b : COutPoint) : Bool :=
  decide (a.hash < b.hash) || (decide (a.hash = b.hash) && decide (a.n < b.n))

/-- Modelled from the spec: the out-point's `operator!=` (not among the sources). -/
def COutPoint.ne (a b : COutPoint) : Bool :=
  !(decide (a.hash = b.hash) && decide (a.n = b.n))

/-- Modelled from the spec: the out-point's disk serialization (not among the sources):
the 32 bytes of the hash, least significant first, then the output index as the
stream writes a 32-bit integer. -/
def COutPoint.Serialize (host : Endian) (o : COutPoint) : ByteVector :=
  leBytes 32 o.hash ++ writeData host 4 o.n

/-- Modelled from the spec: the out-point's disk deserialization (not among the sources). -/
def COutPoint.Unserialize (host : Endian) (s : ByteVector) : Option (COutPoint × ByteVector) :=
  if s.length < 32 then none
  else
    match readData host 4 (s.drop 32) with
    | none => none
    | some (n, rest) => some ({ hash := leValue (s.take 32), n := n }, rest)

/-- The key of the bets, payout-info and quick-games tables (`UniversalBetKey`). -/
structure UniversalBetKey where
  blockHeight : Nat
  outPoint : COutPoint
  deriving DecidableEq, Repr

/-- Alias `using PayoutInfoKey = UniversalBetKey`. -/
abbrev PayoutInfoKey := UniversalBetKey

/-- Alias `using QuickGamesBetKey = UniversalBetKey`. -/
abbrev QuickGamesBetKey := UniversalBetKey

/-- Source `UniversalBetKey::SerializationOp`, writing: `be_val = htonl(blockHeight);
READWRITE(be_val); READWRITE(outPoint)`. -/
def UniversalBetKey.Serialize (host : Endian) (k : UniversalBetKey) : ByteVector :=
  writeData host 4 (htonl host k.blockHeight) ++ COutPoint.Serialize host k.outPoint

/-- Source `UniversalBetKey::SerializationOp`, reading: `READWRITE(be_val);
blockHeight = ntohl(be_val); READWRITE(outPoint)`. -/
def UniversalBetKey.Unserialize (host : Endian) (s : ByteVector) :
    Option (UniversalBetKey × ByteVector) :=
  match readData host 4 s with
  | none => none
  | some (be_val, rest) =>
    match COutPoint.Unserialize host rest with
    | none => none
    | some (o, rest2) => some ({ blockHeight := ntohl host be_val, outPoint := o }, rest2)

/-- The payout-info record (`CPayoutInfo`); `payoutType` is the enum's numeric value,
which the comparison reads through `(uint8_t)`. -/
structure CPayoutInfo where
  betKey : UniversalBetKey
  payoutType : Nat
  deriving DecidableEq, Repr

/-- Source `CPayoutInfo::CompareTo`. -/
def CPayoutInfo.CompareTo (a rhs : CPayoutInfo) : Int :=
  if a.betKey.blockHeight < rhs.betKey.blockHeight then -1
  else if a.betKey.blockHeight > rhs.betKey.blockHeight then 1
  else if COutPoint.lt a.betKey.outPoint rhs.betKey.outPoint then -1
  else if COutPoint.ne a.betKey.outPoint rhs.betKey.outPoint then 1
  else if a.payoutType % 256 < rhs.payoutType % 256 then -1
  else if a.payoutType % 256 > rhs.payoutType % 256 then 1
  else 0

/-! ## Stream codecs of the basic types -/

/-- Modelled from the spec: `READWRITE` of a `uint32_t`, writing (`serialize.h`
is not among the sources). -/
def writeU32 (host : Endian) (x : Nat) : ByteVector :=
  writeData host 4 x

/-- Modelled from the spec: `READWRITE` of a `uint32_t`, reading (not among the sources). -/
def readU32 (host : Endian) (s : ByteVector) : Option (Nat × ByteVector) :=
  readData host 4 s

/-- Modelled from the spec: `READWRITE` of a `uint64_t`, writing (not among the sources). -/
def writeU64 (host : Endian) (x : Nat) : ByteVector :=
  writeData host 8 x

/-- Modelled from the spec: `READWRITE` of a `uint64_t`, reading (not among the sources). -/
def readU64 (host : Endian) (s : ByteVector) : Option (Nat × ByteVector) :=
  readData host 8 s

/-- The 32-bit two's-complement pattern of a signed integer. -/
def toU32 (x : Int) : Nat :=
  (x % 4294967296).toNat

/-- The signed integer a 32-bit two's-complement pattern stands for. -/
def ofU32 (v : Nat) : Int :=
  if v < 2147483648 then (v : Int) else (v : Int) - 4294967296

/-- Modelled from the spec: `READWRITE` of an `int` / `int32_t`, writing (not among
the sources): the four bytes of the two's-complement pattern. -/
def writeI32 (host : Endian) (x : Int) : ByteVector :=
  writeData host 4 (toU32 x)

/-- Modelled from the spec: `READWRITE` of an `int` / `int32_t`, reading (not among
the sources). -/
def readI32 (host : Endian) (s : ByteVector) : Option (Int × ByteVector) :=
  match readData host 4 s with
  | none => none
  | some (v, rest) => some (ofU32 v, rest)

/-- Modelled from the spec: `READWRITE` of a `bool`, writing (not among the sources):
one byte, 1 or 0. -/
def writeBool (b : Bool) : ByteVector :=
  [if b then 1 else 0]

/-- Modelled from the spec: `READWRITE` of a `bool`, reading (not among the sources):
one byte, anything but 0 is true. -/
def readBool (s : ByteVector) : Option (Bool × ByteVector) :=
  match s with
  | [] => none
  | f :: rest => some (decide (f ≠ 0), rest)

/-- Modelled from the spec: the largest size a reader accepts, `MAX_SIZE = 0x02000000`
(`serialize.h` is not among the sources). -/
def MAX_SIZE : Nat := 33554432

/-- Modelled from the spec: `WriteCompactSize` (not among the sources): sizes below
253 take one byte, larger ones a marker byte and 2, 4 or 8 bytes. -/
def WriteCompactSize (host : Endian) (nSize : Nat) : ByteVector :=
  if nSize < 253 then writeData host 1 nSize
  else if nSize ≤ 65535 then writeData host 1 253 ++ writeData host 2 nSize
  else if nSize ≤ 4294967295 then writeData host 1 254 ++ writeData host 4 nSize
  else writeData host 1 255 ++ writeData host 8 nSize

/-- Modelled from the spec: `ReadCompactSize` (not among the sources): it throws on a
size that was not written in its shortest form and on a size above `MAX_SIZE`. -/
def ReadCompactSize (host : Endian) (s : ByteVector) : Option (Nat × ByteVector) :=
  match readData host 1 s with
  | none => none
  | some (chSize, s1) =>
    if chSize < 253 then
      (if chSize > MAX_SIZE then none else some (chSize, s1))
    else if chSize = 253 then
      match readData host 2 s1 with
      | none => none
      | some (n, s2) => if n < 253 then none else if n > MAX_SIZE then none else some (n, s2)
    else if chSize = 254 then
      match readData host 4 s1 with
      | none => none
      | some (n, s2) => if n < 65536 then none else if n > MAX_SIZE then none else some (n, s2)
    else
      match readData host 8 s1 with
      | none => none
      | some (n, s2) =>
        if n < 4294967296 then none else if n > MAX_SIZE then none else some (n, s2)

/-- Modelled from the spec: `READWRITE` of a `std::string`, writing (not among the
sources): the compact size, then the characters. -/
def writeString (host : Endian) (str : ByteVector) : ByteVector :=
  WriteCompactSize host str.length ++ str

/-- Modelled from the spec: `READWRITE` of a `std::string`, reading (not among the sources). -/
def readString (host : Endian) (s : ByteVector) : Option (ByteVector × ByteVector) :=
  match ReadCompactSize host s with
  | none => none
  | some (n, rest) => if rest.length < n then none else some (rest.take n, rest.drop n)

/-- Writes the elements one after the other. -/
def writeElements {T : Type} (writeOne : T → ByteVector) : List T → ByteVector
  | [] => []
  | x :: xs => writeOne x ++ writeElements writeOne xs

/-- Reads `n` elements one after the other, each into a freshly constructed object. -/
def readElements {T : Type} (readOne : ByteVector → Option (T × ByteVector)) :
    Nat → ByteVector → Option (List T × ByteVector)
  | 0, s => some ([], s)
  | n + 1, s =>
    match readOne s with
    | none => none
    | some (x, rest) =>
      match readElements readOne n rest with
      | none => none
      | some (xs, rest2) => some (x :: xs, rest2)

/-- Modelled from the spec: `READWRITE` of a `std::vector<T>`, writing (not among the
sources): the compact size, then the elements in order. -/
def writeVector {T : Type} (host : Endian) (writeOne : T → ByteVector) (v : List T) :
    ByteVector :=
  WriteCompactSize host v.length ++ writeElements writeOne v

/-- Modelled from the spec: `READWRITE` of a `std::vector<T>`, reading (not among the
sources): the vector is cleared and resized, and each element is read in place. -/
def readVector {T : Type} (host : Endian) (readOne : ByteVector → Option (T × ByteVector))
    (s : ByteVector) : Option (List T × ByteVector) :=
  match ReadCompactSize host s with
  | none => none
  | some (n, rest) => readElements readOne n rest

/-- The key of the undo table, a 256-bit block identifier (`using BettingUndoKey = uint256`). -/
abbrev BettingUndoKey := Nat

/-- Modelled from the spec: the disk serialization of a `uint256` (`uint256.h` is not
among the sources): its 32 bytes, least significant first. -/
def uint256.Serialize (k : Nat) : ByteVector :=
  leBytes 32 k

/-- Modelled from the spec: the disk deserialization of a `uint256` (not among the sources). -/
def uint256.Unserialize (s : ByteVector) : Option (Nat × ByteVector) :=
  if s.length < 32 then none else some (leValue (s.take 32), s.drop 32)

/-! ## The flushable key-value store -/

/-- Lookup in an association list (`std::map::find`). -/
def mapFind {β : Type} (k : ByteVector) : List (ByteVector × β) → Option β
  | [] => none
  | (k', v') :: rest => if k = k' then some v' else mapFind k rest

/-- Insert-or-assign into an association list kept in byte-lexicographic key order
(`std::map::operator[]` followed by an assignment). -/
def mapAssign {β : Type} (k : ByteVector) (v : β) : List (ByteVector × β) → List (ByteVector × β)
  | [] => [(k, v)]
  | (k', v') :: rest =>
    if k = k' then (k, v) :: rest
    else if lexLess k k' then (k, v) :: (k', v') :: rest
    else (k', v') :: mapAssign k v rest

/-- Removal of a key from an association list. -/
def mapRemove {β : Type} (k : ByteVector) : List (ByteVector × β) → List (ByteVector × β)
  | [] => []
  | (k', v') :: rest => if k = k' then mapRemove k rest else (k', v') :: mapRemove k rest

/-- Modelled from the spec: the byte-oriented ordered store interface `CStorageKV`
(`flushablestorage/flushablestorage.h` is not among the sources). A store is either
a backing table of rows, or a flushable cache: an overlay `changed` of pending writes
(`some value`) and pending erases (`none`) over another store. -/
inductive CStorageKV where
  | table (rows : List (ByteVector × ByteVector))
  | flushable (changed : List (ByteVector × Option ByteVector)) (db : CStorageKV)
  deriving Repr

/-- Modelled from the spec: `CStorageKV::Read` (not among the sources): "all reads
check the overlay first, then the backing table"; a pending erase reads as absent. -/
def CStorageKV.Read : CStorageKV → ByteVector → Option ByteVector
  | CStorageKV.table rows, k => mapFind k rows
  | CStorageKV.flushable changed db, k =>
    match mapFind k changed with
    | some pending => pending
    | none => db.Read k

/-- Modelled from the spec: `CStorageKV::Exists` (not among the sources): the overlay
first, then the backing table. -/
def CStorageKV.Exists : CStorageKV → ByteVector → Bool
  | CStorageKV.table rows, k => (mapFind k rows).isSome
  | CStorageKV.flushable changed db, k =>
    match mapFind k changed with
    | some pending => pending.isSome
    | none => db.Exists k

/-- Modelled from the spec: the flushable cache `CFlushableStorageKV` (not among the
sources): its own overlay of pending writes and erases, and the store it wraps. -/
structure CFlushableStorageKV where
  changed : List (ByteVector × Option ByteVector)
  db : CStorageKV
  deriving Repr

/-- The cache seen through the `CStorageKV` interface. -/
def CFlushableStorageKV.toStorage (c : CFlushableStorageKV) : CStorageKV :=
  CStorageKV.flushable c.changed c.db

/-- Modelled from the spec: `CFlushableStorageKV::Exists` (not among the sources). -/
def CFlushableStorageKV.Exists (c : CFlushableStorageKV) (k : ByteVector) : Bool :=
  c.toStorage.Exists k

/-- Modelled from the spec: `CFlushableStorageKV::Read` (not among the sources). -/
def CFlushableStorageKV.Read (c : CFlushableStorageKV) (k : ByteVector) : Option ByteVector :=
  c.toStorage.Read k

/-- Modelled from the spec: `CFlushableStorageKV::Write` (not among the sources): the
write is deferred, recorded in the overlay, and reported as done. -/
def CFlushableStorageKV.Write (c : CFlushableStorageKV) (k v : ByteVector) :
    Bool × CFlushableStorageKV :=
  (true, { c with changed := mapAssign k (some v) c.changed })

/-- Modelled from the spec: `CFlushableStorageKV::Erase` (not among the sources): the
erase is deferred, recorded in the overlay, and reported as done. -/
def CFlushableStorageKV.Erase (c : CFlushableStorageKV) (k : ByteVector) :
    Bool × CFlushableStorageKV :=
  (true, { c with changed := mapAssign k none c.changed })

/-! ## The typed table `CBettingDB` -/

/-- How a `stream >> value`, an assertion or an element access outside a vector can end
the process. -/
inductive Fault where
  | exception
  | assertion
  | outOfBounds
  deriving DecidableEq, Repr

/-- The disk serializer pair of a type (`ADD_SERIALIZE_METHODS`): `stream << value`
and `stream >> value`; the latter returns the value read and the bytes left in the
stream, or `none` when the stream throws. The source reads into an object passed by
reference: a reader that assigns every member returns the same value whatever that
object held, and the one reader here that leaves a member alone, that of
`CPeerlessEvent`, has the object as a parameter of its pair (`CPeerlessEvent.dbType`). -/
structure DbType (T : Type) where
  Serialize : T → ByteVector
  Unserialize : ByteVector → Option (T × ByteVector)

/-- Source `CBettingDB::DbTypeToBytes`. -/
def DbTypeToBytes {T : Type} (c : DbType T) (value : T) : ByteVector :=
  c.Serialize value

/-- Source `CBettingDB::BytesToDbType`: `stream >> value; assert(stream.size() == 0)`. -/
def BytesToDbType {T : Type} (c : DbType T) (bytes : ByteVector) : Except Fault T :=
  match c.Unserialize bytes with
  | none => Except.error Fault.exception
  | some (value, rest) => if rest.length = 0 then Except.ok value else Except.error Fault.assertion

/-- One table of the ledger (`CBettingDB`): a flushable cache over a store. -/
structure CBettingDB where
  db : CFlushableStorageKV
  deriving Repr

/-- Source `CBettingDB::GetDb`. -/
def CBettingDB.GetDb (bdb : CBettingDB) : CFlushableStorageKV :=
  bdb.db

/-- Source `CBettingDB::Exists`. -/
def CBettingDB.Exists {K : Type} (kc : DbType K) (bdb : CBettingDB) (key : K) : Bool :=
  bdb.GetDb.Exists (DbTypeToBytes kc key)

/-- Source `CBettingDB::Write`: refuses a key that exists. Returns the result and the table after. -/
def CBettingDB.Write {K V : Type} (kc : DbType K) (vc : DbType V) (bdb : CBettingDB)
    (key : K) (value : V) : Bool × CBettingDB :=
  let vKey := DbTypeToBytes kc key
  let vValue := DbTypeToBytes vc value
  if bdb.GetDb.Exists vKey then (false, bdb)
  else ((bdb.GetDb.Write vKey vValue).1, { db := (bdb.GetDb.Write vKey vValue).2 })

/-- Source `CBettingDB::Update`: refuses a key that does not exist. -/
def CBettingDB.Update {K V : Type} (kc : DbType K) (vc : DbType V) (bdb : CBettingDB)
    (key : K) (value : V) : Bool × CBettingDB :=
  let vKey := DbTypeToBytes kc key
  let vValue := DbTypeToBytes vc value
  if !bdb.GetDb.Exists vKey then (false, bdb)
  else ((bdb.GetDb.Write vKey vValue).1, { db := (bdb.GetDb.Write vKey vValue).2 })

/-- Source `CBettingDB::Erase`: refuses a key that does not exist. -/
def CBettingDB.Erase {K : Type} (kc : DbType K) (bdb : CBettingDB) (key : K) :
    Bool × CBettingDB :=
  let vKey := DbTypeToBytes kc key
  if !bdb.GetDb.Exists vKey then (false, bdb)
  else ((bdb.GetDb.Erase vKey).1, { db := (bdb.GetDb.Erase vKey).2 })

/-- Source `CBettingDB::Read`: `ok (some value)` is "returns true with the value",
`ok none` is "returns false", an error is a thrown exception or a failed assertion
inside `BytesToDbType`. The object the caller passes by reference is the one the reader
of `vc` runs on; it is left as it was when the call returns false. -/
def CBettingDB.Read {K V : Type} (kc : DbType K) (vc : DbType V) (bdb : CBettingDB)
    (key : K) : Except Fault (Option V) :=
  let vKey := DbTypeToBytes kc key
  match bdb.GetDb.Read vKey with
  | some vValue =>
    match BytesToDbType vc vValue with
    | Except.ok value => Except.ok (some value)
    | Except.error f => Except.error f
  | none => Except.ok none

/-- The disk serializers of `EventKey` / `ResultKey`. -/
def EventKey.dbType (host : Endian) : DbType EventKey :=
  { Serialize := EventKey.Serialize host, Unserialize := EventKey.Unserialize host }

/-- The disk serializers of `MappingKey`. -/
def MappingKey.dbType (host : Endian) : DbType MappingKey :=
  { Serialize := MappingKey.Serialize host, Unserialize := MappingKey.Unserialize host }

/-- The disk serializers of `UniversalBetKey`. -/
def UniversalBetKey.dbType (host : Endian) : DbType UniversalBetKey :=
  { Serialize := UniversalBetKey.Serialize host, Unserialize := UniversalBetKey.Unserialize host }

/-! ## Records stored in the tables -/

/-- The settled result of an event (`CPeerlessResult`), four `uint32_t` fields. -/
structure CPeerlessResult where
  nEventId : Nat
  nResultType : Nat
  nHomeScore : Nat
  nAwayScore : Nat
  deriving DecidableEq, Repr

/-- Source `CPeerlessResult::SerializationOp`, writing. -/
def CPeerlessResult.Serialize (host : Endian) (r : CPeerlessResult) : ByteVector :=
  writeU32 host r.nEventId ++ writeU32 host r.nResultType
    ++ writeU32 host r.nHomeScore ++ writeU32 host r.nAwayScore

/-- Source `CPeerlessResult::SerializationOp`, reading. -/
def CPeerlessResult.Unserialize (host : Endian) (s : ByteVector) :
    Option (CPeerlessResult × ByteVector) := do
  let (nEventId, s) ← readU32 host s
  let (nResultType, s) ← readU32 host s
  let (nHomeScore, s) ← readU32 host s
  let (nAwayScore, s) ← readU32 host s
  pure ({ nEventId := nEventId, nResultType := nResultType, nHomeScore := nHomeScore,
          nAwayScore := nAwayScore }, s)

/-- The disk serializers of `CPeerlessResult`. -/
def CPeerlessResult.dbType (host : Endian) : DbType CPeerlessResult :=
  { Serialize := CPeerlessResult.Serialize host, Unserialize := CPeerlessResult.Unserialize host }

/-- The part of the chain parameters (`Params()`) the serializers read; `chainparams.h`
is not among the sources, so the protocol-V3 start height is a parameter. -/
structure CChainParams where
  WagerrProtocolV3StartHeight : Int
  deriving DecidableEq, Repr

/-- A name mapping (`CMapping`): two `uint32_t` and the name's characters. -/
structure CMapping where
  nMType : Nat
  nId : Nat
  sName : ByteVector
  deriving DecidableEq, Repr

/-- Source `CMapping::SerializationOp`, writing. -/
def CMapping.Serialize (host : Endian) (m : CMapping) : ByteVector :=
  writeU32 host m.nMType ++ writeU32 host m.nId ++ writeString host m.sName

/-- Source `CMapping::SerializationOp`, reading. -/
def CMapping.Unserialize (host : Endian) (s : ByteVector) : Option (CMapping × ByteVector) := do
  let (nMType, s) ← readU32 host s
  let (nId, s) ← readU32 host s
  let (sName, s) ← readString host s
  pure ({ nMType := nMType, nId := nId, sName := sName }, s)

/-- A sporting event (`CPeerlessEvent`) with the default member initializers of the
class; `nSpreadPoints` is an `int32_t`, `nStartTime` a `uint64_t`, `nEventCreationHeight`
an `int`, the other numbers are `uint32_t`. -/
structure CPeerlessEvent where
  nEventId : Nat := 0
  nStartTime : Nat := 0
  nSport : Nat := 0
  nTournament : Nat := 0
  nStage : Nat := 0
  nHomeTeam : Nat := 0
  nAwayTeam : Nat := 0
  nHomeOdds : Nat := 0
  nAwayOdds : Nat := 0
  nDrawOdds : Nat := 0
  nSpreadPoints : Int := 0
  nSpreadHomeOdds : Nat := 0
  nSpreadAwayOdds : Nat := 0
  nTotalPoints : Nat := 0
  nTotalOverOdds : Nat := 0
  nTotalUnderOdds : Nat := 0
  nMoneyLineHomePotentialLiability : Nat := 0
  nMoneyLineAwayPotentialLiability : Nat := 0
  nMoneyLineDrawPotentialLiability : Nat := 0
  nSpreadHomePotentialLiability : Nat := 0
  nSpreadAwayPotentialLiability : Nat := 0
  nSpreadPushPotentialLiability : Nat := 0
  nTotalOverPotentialLiability : Nat := 0
  nTotalUnderPotentialLiability : Nat := 0
  nTotalPushPotentialLiability : Nat := 0
  nMoneyLineHomeBets : Nat := 0
  nMoneyLineAwayBets : Nat := 0
  nMoneyLineDrawBets : Nat := 0
  nSpreadHomeBets : Nat := 0
  nSpreadAwayBets : Nat := 0
  nSpreadPushBets : Nat := 0
  nTotalOverBets : Nat := 0
  nTotalUnderBets : Nat := 0
  nTotalPushBets : Nat := 0
  nEventCreationHeight : Int := 0
  fLegacyInitialHomeFavorite : Bool := true
  deriving Repr

/-- Source `CPeerlessEvent::SerializationOp`, writing: every field in order, and the legacy
flag only `if (nEventCreationHeight < Params().WagerrProtocolV3StartHeight())`. -/
def CPeerlessEvent.Serialize (host : Endian) (params : CChainParams) (e : CPeerlessEvent) :
    ByteVector :=
  writeU32 host e.nEventId ++
  writeU64 host e.nStartTime ++
  writeU32 host e.nSport ++
  writeU32 host e.nTournament ++
  writeU32 host e.nStage ++
  writeU32 host e.nHomeTeam ++
  writeU32 host e.nAwayTeam ++
  writeU32 host e.nHomeOdds ++
  writeU32 host e.nAwayOdds ++
  writeU32 host e.nDrawOdds ++
  writeI32 host e.nSpreadPoints ++
  writeU32 host e.nSpreadHomeOdds ++
  writeU32 host e.nSpreadAwayOdds ++
  writeU32 host e.nTotalPoints ++
  writeU32 host e.nTotalOverOdds ++
  writeU32 host e.nTotalUnderOdds ++
  writeU32 host e.nMoneyLineHomePotentialLiability ++
  writeU32 host e.nMoneyLineAwayPotentialLiability ++
  writeU32 host e.nMoneyLineDrawPotentialLiability ++
  writeU32 host e.nSpreadHomePotentialLiability ++
  writeU32 host e.nSpreadAwayPotentialLiability ++
  writeU32 host e.nSpreadPushPotentialLiability ++
  writeU32 host e.nTotalOverPotentialLiability ++
  writeU32 host e.nTotalUnderPotentialLiability ++
  writeU32 host e.nTotalPushPotentialLiability ++
  writeU32 host e.nMoneyLineHomeBets ++
  writeU32 host e.nMoneyLineAwayBets ++
  writeU32 host e.nMoneyLineDrawBets ++
  writeU32 host e.nSpreadHomeBets ++
  writeU32 host e.nSpreadAwayBets ++
  writeU32 host e.nSpreadPushBets ++
  writeU32 host e.nTotalOverBets ++
  writeU32 host e.nTotalUnderBets ++
  writeU32 host e.nTotalPushBets ++
  writeI32 host e.nEventCreationHeight ++
  (if e.nEventCreationHeight < params.WagerrProtocolV3StartHeight
    then writeBool e.fLegacyInitialHomeFavorite else [])

/-- One `READWRITE(member)` of an unsigned member while reading an event: the value
read is stored into the object, the stream moves on. -/
def CPeerlessEvent.readNat (read : ByteVector → Option (Nat × ByteVector))
    (store : CPeerlessEvent → Nat → CPeerlessEvent) (st : CPeerlessEvent × ByteVector) :
    Option (CPeerlessEvent × ByteVector) :=
  match read st.2 with
  | none => none
  | some (v, rest) => some (store st.1 v, rest)

/-- One `READWRITE(member)` of a signed member while reading an event. -/
def CPeerlessEvent.readInt (read : ByteVector → Option (Int × ByteVector))
    (store : CPeerlessEvent → Int → CPeerlessEvent) (st : CPeerlessEvent × ByteVector) :
    Option (CPeerlessEvent × ByteVector) :=
  match read st.2 with
  | none => none
  | some (v, rest) => some (store st.1 v, rest)

/-- The conditional tail of `CPeerlessEvent::SerializationOp` while reading:
`if (nEventCreationHeight < Params().WagerrProtocolV3StartHeight())
READWRITE(fLegacyInitialHomeFavorite)`, on the creation height just read. -/
def CPeerlessEvent.readLegacyFlag (params : CChainParams) (st : CPeerlessEvent × ByteVector) :
    Option (CPeerlessEvent × ByteVector) :=
  if st.1.nEventCreationHeight < params.WagerrProtocolV3StartHeight then
    match readBool st.2 with
    | none => none
    | some (v, rest) => some ({ st.1 with fLegacyInitialHomeFavorite := v }, rest)
  else some st

/-- Source `CPeerlessEvent::SerializationOp`, reading into a freshly constructed event (all
numbers 0, the legacy flag `true`): every member in order, stored in place; the legacy
flag is read only when the creation height just read is below the protocol-V3 start
height, and keeps its initial value otherwise. -/
def CPeerlessEvent.Unserialize (host : Endian) (params : CChainParams) (s : ByteVector) :
    Option (CPeerlessEvent × ByteVector) :=
  some (({} : CPeerlessEvent), s)
    >>= CPeerlessEvent.readNat (readU32 host) (fun e v => { e with nEventId := v })
    >>= CPeerlessEvent.readNat (readU64 host) (fun e v => { e with nStartTime := v })
    >>= CPeerlessEvent.readNat (readU32 host) (fun e v => { e with nSport := v })
    >>= CPeerlessEvent.readNat (readU32 host) (fun e v => { e with nTournament := v })
    >>= CPeerlessEvent.readNat (readU32 host) (fun e v => { e with nStage := v })
    >>= CPeerlessEvent.readNat (readU32 host) (fun e v => { e with nHomeTeam := v })
    >>= CPeerlessEvent.readNat (readU32 host) (fun e v => { e with nAwayTeam := v })
    >>= CPeerlessEvent.readNat (readU32 host) (fun e v => { e with nHomeOdds := v })
    >>= CPeerlessEvent.readNat (readU32 host) (fun e v => { e with nAwayOdds := v })
    >>= CPeerlessEvent.readNat (readU32 host) (fun e v => { e with nDrawOdds := v })
    >>= CPeerlessEvent.readInt (readI32 host) (fun e v => { e with nSpreadPoints := v })
    >>= CPeerlessEvent.readNat (readU32 host) (fun e v => { e with nSpreadHomeOdds := v })
    >>= CPeerlessEvent.readNat (readU32 host) (fun e v => { e with nSpreadAwayOdds := v })
    >>= CPeerlessEvent.readNat (readU32 host) (fun e v => { e with nTotalPoints := v })
    >>= CPeerlessEvent.readNat (readU32 host) (fun e v => { e with nTotalOverOdds := v })
    >>= CPeerlessEvent.readNat (readU32 host) (fun e v => { e with nTotalUnderOdds := v })
    >>= CPeerlessEvent.readNat (readU32 host) (fun e v => { e with nMoneyLineHomePotentialLiability := v })
    >>= CPeerlessEvent.readNat (readU32 host) (fun e v => { e with nMoneyLineAwayPotentialLiability := v })
    >>= CPeerlessEvent.readNat (readU32 host) (fun e v => { e with nMoneyLineDrawPotentialLiability := v })
    >>= CPeerlessEvent.readNat (readU32 host) (fun e v => { e with nSpreadHomePotentialLiability := v })
    >>= CPeerlessEvent.readNat (readU32 host) (fun e v => { e with nSpreadAwayPotentialLiability := v })
    >>= CPeerlessEvent.readNat (readU32 host) (fun e v => { e with nSpreadPushPotentialLiability := v })
    >>= CPeerlessEvent.readNat (readU32 host) (fun e v => { e with nTotalOverPotentialLiability := v })
    >>= CPeerlessEvent.readNat (readU32 host) (fun e v => { e with nTotalUnderPotentialLiability := v })
    >>= CPeerlessEvent.readNat (readU32 host) (fun e v => { e with nTotalPushPotentialLiability := v })
    >>= CPeerlessEvent.readNat (readU32 host) (fun e v => { e with nMoneyLineHomeBets := v })
    >>= CPeerlessEvent.readNat (readU32 host) (fun e v => { e with nMoneyLineAwayBets := v })
    >>= CPeerlessEvent.readNat (readU32 host) (fun e v => { e with nMoneyLineDrawBets := v })
    >>= CPeerlessEvent.readNat (readU32 host) (fun e v => { e with nSpreadHomeBets := v })
    >>= CPeerlessEvent.readNat (readU32 host) (fun e v => { e with nSpreadAwayBets := v })
    >>= CPeerlessEvent.readNat (readU32 host) (fun e v => { e with nSpreadPushBets := v })
    >>= CPeerlessEvent.readNat (readU32 host) (fun e v => { e with nTotalOverBets := v })
    >>= CPeerlessEvent.readNat (readU32 host) (fun e v => { e with nTotalUnderBets := v })
    >>= CPeerlessEvent.readNat (readU32 host) (fun e v => { e with nTotalPushBets := v })
    >>= CPeerlessEvent.readInt (readI32 host) (fun e v => { e with nEventCreationHeight := v })
    >>= CPeerlessEvent.readLegacyFlag params

/-- The snapshot held by an undo record
(`boost::variant<CMapping, CPeerlessEvent, CPeerlessResult>`). -/
inductive BettingUndoVariant where
  | mapping (m : CMapping)
  | event (e : CPeerlessEvent)
  | result (r : CPeerlessResult)
  deriving Repr

/-- The index of the alternative held (`boost::variant::which`), which is also the value
of the matching `BettingUndoTypes` enumerator: `UndoMapping = 0`, `UndoPeerlessEvent = 1`,
`UndoPeerlessResult = 2`. -/
def BettingUndoVariant.which : BettingUndoVariant → Int
  | BettingUndoVariant.mapping _ => 0
  | BettingUndoVariant.event _ => 1
  | BettingUndoVariant.result _ => 2

/-- One undo record (`CBettingUndo`): the height and the snapshot. -/
structure CBettingUndo where
  height : Nat
  undoVariant : BettingUndoVariant
  deriving Repr

/-- The variant of a default-constructed `CBettingUndo`: the first alternative, a
default-constructed `CMapping` (its two numbers are left uninitialized by the class; 0
stands for them here). -/
def BettingUndoVariant.fresh : BettingUndoVariant :=
  BettingUndoVariant.mapping { nMType := 0, nId := 0, sName := [] }

/-- Source `CBettingUndo::SerializationOp`, writing: the height, the tag `undoVariant.which()`,
then the snapshot of the alternative held. -/
def CBettingUndo.Serialize (host : Endian) (params : CChainParams) (u : CBettingUndo) :
    ByteVector :=
  writeU32 host u.height ++ writeI32 host u.undoVariant.which ++
  (match u.undoVariant with
   | BettingUndoVariant.mapping m => CMapping.Serialize host m
   | BettingUndoVariant.event e => CPeerlessEvent.Serialize host params e
   | BettingUndoVariant.result r => CPeerlessResult.Serialize host r)

/-- Source `CBettingUndo::SerializationOp`, reading into a freshly constructed record: the
height, the tag, then the snapshot the tag names. On any other tag the `default:` branch
builds a `std::runtime_error` without throwing it, so nothing more is read and the
variant stays as constructed. -/
def CBettingUndo.Unserialize (host : Endian) (params : CChainParams) (s : ByteVector) :
    Option (CBettingUndo × ByteVector) := do
  let (height, s) ← readU32 host s
  let (undoType, s) ← readI32 host s
  if undoType = 0 then
    let (mapping, s) ← CMapping.Unserialize host s
    pure ({ height := height, undoVariant := BettingUndoVariant.mapping mapping }, s)
  else if undoType = 1 then
    let (event, s) ← CPeerlessEvent.Unserialize host params s
    pure ({ height := height, undoVariant := BettingUndoVariant.event event }, s)
  else if undoType = 2 then
    let (result, s) ← CPeerlessResult.Unserialize host s
    pure ({ height := height, undoVariant := BettingUndoVariant.result result }, s)
  else
    pure ({ height := height, undoVariant := BettingUndoVariant.fresh }, s)

/-- The disk serializers of the undo table's key. -/
def BettingUndoKey.dbType : DbType BettingUndoKey :=
  { Serialize := uint256.Serialize, Unserialize := uint256.Unserialize }

/-- The disk serializers of the undo table's value, `std::vector<CBettingUndo>`. -/
def CBettingUndo.vectorDbType (host : Endian) (params : CChainParams) :
    DbType (List CBettingUndo) :=
  { Serialize := writeVector host (CBettingUndo.Serialize host params),
    Unserialize := readVector host (CBettingUndo.Unserialize host params) }

/-! ## The ledger view -/

/-- The seven tables of the ledger (`CBettingsView`). -/
structure CBettingsView where
  mappings : CBettingDB
  results : CBettingDB
  events : CBettingDB
  bets : CBettingDB
  undos : CBettingDB
  payoutsInfo : CBettingDB
  quickGamesBets : CBettingDB
  deriving Repr

/-- Source `CBettingsView::SaveBettingUndo`: `assert(!undos->Exists(key));
return undos->Write(key, vUndos)`. A failed assertion ends the process before any write. -/
def CBettingsView.SaveBettingUndo (host : Endian) (params : CChainParams)
    (view : CBettingsView) (key : BettingUndoKey) (vUndos : List CBettingUndo) :
    Except Fault (Bool × CBettingsView) :=
  if view.undos.Exists BettingUndoKey.dbType key then Except.error Fault.assertion
  else
    Except.ok
      ((view.undos.Write BettingUndoKey.dbType (CBettingUndo.vectorDbType host params)
          key vUndos).1,
       { view with undos := (view.undos.Write BettingUndoKey.dbType
          (CBettingUndo.vectorDbType host params) key vUndos).2 })

/-- Source `CBettingsView::EraseBettingUndo`. -/
def CBettingsView.EraseBettingUndo (view : CBettingsView) (key : BettingUndoKey) :
    Bool × CBettingsView :=
  ((view.undos.Erase BettingUndoKey.dbType key).1,
   { view with undos := (view.undos.Erase BettingUndoKey.dbType key).2 })

/-- Source `CBettingsView::GetBettingUndo`: the list read, or the empty list when `Read`
returns false. -/
def CBettingsView.GetBettingUndo (host : Endian) (params : CChainParams)
    (view : CBettingsView) (key : BettingUndoKey) : Except Fault (List CBettingUndo) :=
  match view.undos.Read BettingUndoKey.dbType (CBettingUndo.vectorDbType host params) key with
  | Except.ok (some vUndos) => Except.ok vUndos
  | Except.ok none => Except.ok []
  | Except.error f => Except.error f

/-! ## Values in range -/

/-- Every numeric field of the mapping fits its C++ type. -/
def CMapping.InRange (m : CMapping) : Prop :=
  m.nMType < 4294967296 ∧ m.nId < 4294967296

/-- Every numeric field of the result fits its C++ type. -/
def CPeerlessResult.InRange (r : CPeerlessResult) : Prop :=
  r.nEventId < 4294967296 ∧ r.nResultType < 4294967296 ∧ r.nHomeScore < 4294967296 ∧
  r.nAwayScore < 4294967296

/-- Every numeric field of the event fits its C++ type. -/
def CPeerlessEvent.InRange (e : CPeerlessEvent) : Prop :=
  e.nEventId < 4294967296 ∧
  e.nStartTime < 18446744073709551616 ∧
  e.nSport < 4294967296 ∧
  e.nTournament < 4294967296 ∧
  e.nStage < 4294967296 ∧
  e.nHomeTeam < 4294967296 ∧
  e.nAwayTeam < 4294967296 ∧
  e.nHomeOdds < 4294967296 ∧
  e.nAwayOdds < 4294967296 ∧
  e.nDrawOdds < 4294967296 ∧
  (-2147483648 ≤ e.nSpreadPoints ∧ e.nSpreadPoints < 2147483648) ∧
  e.nSpreadHomeOdds < 4294967296 ∧
  e.nSpreadAwayOdds < 4294967296 ∧
  e.nTotalPoints < 4294967296 ∧
  e.nTotalOverOdds < 4294967296 ∧
  e.nTotalUnderOdds < 4294967296 ∧
  e.nMoneyLineHomePotentialLiability < 4294967296 ∧
  e.nMoneyLineAwayPotentialLiability < 4294967296 ∧
  e.nMoneyLineDrawPotentialLiability < 4294967296 ∧
  e.nSpreadHomePotentialLiability < 4294967296 ∧
  e.nSpreadAwayPotentialLiability < 4294967296 ∧
  e.nSpreadPushPotentialLiability < 4294967296 ∧
  e.nTotalOverPotentialLiability < 4294967296 ∧
  e.nTotalUnderPotentialLiability < 4294967296 ∧
  e.nTotalPushPotentialLiability < 4294967296 ∧
  e.nMoneyLineHomeBets < 4294967296 ∧
  e.nMoneyLineAwayBets < 4294967296 ∧
  e.nMoneyLineDrawBets < 4294967296 ∧
  e.nSpreadHomeBets < 4294967296 ∧
  e.nSpreadAwayBets < 4294967296 ∧
  e.nSpreadPushBets < 4294967296 ∧
  e.nTotalOverBets < 4294967296 ∧
  e.nTotalUnderBets < 4294967296 ∧
  e.nTotalPushBets < 4294967296 ∧
  (-2147483648 ≤ e.nEventCreationHeight ∧ e.nEventCreationHeight < 2147483648)

/-- The height fits `uint32_t` and the snapshot's numeric fields fit their C++ types. -/
def CBettingUndo.InRange (u : CBettingUndo) : Prop :=
  u.height < 4294967296 ∧
  (match u.undoVariant with
   | BettingUndoVariant.mapping m => m.InRange
   | BettingUndoVariant.event e => e.InRange
   | BettingUndoVariant.result r => r.InRange)

/-- What the disk format keeps of a record: a mapping's name is short enough for the
reader's size limit, and an event's legacy flag is either on disk (creation height below
the protocol-V3 start height) or equal to the value a fresh event starts with. -/
def CBettingUndo.ReadsBack (params : CChainParams) (u : CBettingUndo) : Prop :=
  match u.undoVariant with
  | BettingUndoVariant.mapping m => m.sName.length ≤ MAX_SIZE
  | BettingUndoVariant.event e =>
    e.nEventCreationHeight < params.WagerrProtocolV3StartHeight
      ∨ e.fLegacyInitialHomeFavorite = true
  | BettingUndoVariant.result _ => True

/-! ## Sample states -/

/-- An empty table: nothing pending over an empty backing store. -/
def sampleEmptyDb : CBettingDB :=
  { db := { changed := [], db := CStorageKV.table [] } }

/-- A table whose backing store holds one row under the serialized event id 7. -/
def sampleBackedDb : CBettingDB :=
  { db := { changed := [], db := CStorageKV.table [([0, 0, 0, 7], [1, 2])] } }

/-- A result for event 7. -/
def sampleResult : CPeerlessResult :=
  { nEventId := 7, nResultType := 1, nHomeScore := 2, nAwayScore := 3 }

/-- A ledger view with seven empty tables. -/
def sampleView : CBettingsView :=
  { mappings := sampleEmptyDb, results := sampleEmptyDb, events := sampleEmptyDb,
    bets := sampleEmptyDb, undos := sampleEmptyDb, payoutsInfo := sampleEmptyDb,
    quickGamesBets := sampleEmptyDb }

/-- Chain parameters with the protocol-V3 start height 1000. -/
def sampleParams : CChainParams :=
  { WagerrProtocolV3StartHeight := 1000 }

/-- An undo list with one record of each kind; the event was created below the
protocol-V3 start height of `sampleParams`. -/
def sampleUndos : List CBettingUndo :=
  [{ height := 50, undoVariant := BettingUndoVariant.mapping ⟨1, 2, [65, 66]⟩ },
   { height := 50, undoVariant := BettingUndoVariant.event
      { nEventId := 7, nSpreadPoints := -3, nEventCreationHeight := 50,
        fLegacyInitialHomeFavorite := false } },
   { height := 50, undoVariant := BettingUndoVariant.result sampleResult }]

/-- An undo list whose event was created at height 2000, above the protocol-V3 start
height of `sampleParams`, with the legacy flag off. -/
def sampleLateUndos : List CBettingUndo :=
  [{ height := 2000, undoVariant := BettingUndoVariant.event
      { nEventId := 7, nEventCreationHeight := 2000, fLegacyInitialHomeFavorite := false } }]

/-- The list `sampleLateUndos` with the legacy flag on. -/
def sampleLateUndosRead : List CBettingUndo :=
  [{ height := 2000, undoVariant := BettingUndoVariant.event
      { nEventId := 7, nEventCreationHeight := 2000, fLegacyInitialHomeFavorite := true } }]

/-! ## Height bookkeeping in the undo table -/

/-- The disk serializers of a `std::string` key. -/
def stringDbType (host : Endian) : DbType ByteVector :=
  { Serialize := writeString host, Unserialize := readString host }

/-- The disk serializers of a `uint32_t` value. -/
def uint32DbType (host : Endian) : DbType Nat :=
  { Serialize := writeU32 host, Unserialize := readU32 host }

/-- The characters of `std::string("LastHeight")`, the key of the last-processed-height
scalar in the undo table. -/
def lastHeightString : ByteVector :=
  [76, 97, 115, 116, 72, 101, 105, 103, 104, 116]

/-- Source `CBettingsView::SetLastHeight`: a first `Write` when the scalar is absent, an
`Update` otherwise; the results of both are dropped. -/
def CBettingsView.SetLastHeight (host : Endian) (view : CBettingsView) (height : Nat) :
    CBettingsView :=
  if !view.undos.Exists (stringDbType host) lastHeightString then
    { view with undos := (view.undos.Write (stringDbType host) (uint32DbType host)
        lastHeightString height).2 }
  else
    { view with undos := (view.undos.Update (stringDbType host) (uint32DbType host)
        lastHeightString height).2 }

/-- Source `CBettingsView::GetLastHeight`: the height read, or 0 when `Read` returns false. -/
def CBettingsView.GetLastHeight (host : Endian) (view : CBettingsView) : Except Fault Nat :=
  match view.undos.Read (stringDbType host) (uint32DbType host) lastHeightString with
  | Except.ok (some height) => Except.ok height
  | Except.ok none => Except.ok 0
  | Except.error f => Except.error f

/-! ## Payout outputs -/

/-- A payout output (`CBetOut`, derived from `CTxOut`): the amount `nValue` (`CAmount`, a
64-bit signed integer), the destination script `scriptPubKey`, and the two members the
class adds, `nBetValue` and `nEventId`. -/
structure CBetOut where
  nValue : Int
  scriptPubKey : ByteVector
  nBetValue : Int
  nEventId : Nat
  deriving DecidableEq, Repr

/-- Source `CBetOut::CompareTo`; the scripts are compared as byte vectors,
lexicographically (`CScript` is not among the sources). -/
def CBetOut.CompareTo (a rhs : CBetOut) : Int :=
  if a.nValue < rhs.nValue then -1
  else if a.nValue > rhs.nValue then 1
  else if lexLess a.scriptPubKey rhs.scriptPubKey then -1
  else if lexLess rhs.scriptPubKey a.scriptPubKey then 1
  else if a.nEventId < rhs.nEventId then -1
  else if a.nEventId > rhs.nEventId then 1
  else 0

/-- Source `CBetOut::operator==`. -/
def CBetOut.eq (a rhs : CBetOut) : Bool :=
  decide (a.CompareTo rhs = 0)

/-- Source `CPayoutInfo::operator<`. -/
def CPayoutInfo.lt (a rhs : CPayoutInfo) : Bool :=
  decide (a.CompareTo rhs < 0)

/-- The order of the triples (block height, out-point, payout kind), the first
difference deciding. -/
def CPayoutInfo.tripleLess (a b : CPayoutInfo) : Prop :=
  a.betKey.blockHeight < b.betKey.blockHeight
  ∨ (a.betKey.blockHeight = b.betKey.blockHeight
      ∧ (COutPoint.lt a.betKey.outPoint b.betKey.outPoint = true
        ∨ (a.betKey.outPoint = b.betKey.outPoint ∧ a.payoutType < b.payoutType)))

/-- The bytes of a stored undo list with one record of height 1 and the variant tag 9,
as a little-endian host holds them: the count, the height, the tag. -/
def sampleUnknownTagBytes : ByteVector :=
  [1, 1, 0, 0, 0, 9, 0, 0, 0]

/-! ## The payout engine -/

/-- Source `#define BET_ODDSDIVISOR 10000`. -/
def BET_ODDSDIVISOR : Int := 10000

/-- Source `#define BET_BURNXPERMILLE 60`. -/
def BET_BURNXPERMILLE : Int := 60

/-- Modelled from the spec: `CalculatePayoutBurnAmounts` (only declared in `bet.h`; its
body is not among the sources). "gross return = stake * odds / ODDS_DIVISOR (integer
division); burn = gross_return * BURN_PER_MILLE / 1000; net payout to bettor =
gross_return - burn. Fails if odds == 0 or stake is non-positive." The result is `none`
on failure and `some (nPayout, nBurn)` otherwise; the 64-bit range of `CAmount` is not
part of the spec's description and is not modelled. -/
def CalculatePayoutBurnAmounts (betAmount : Int) (odds : Nat) : Option (Int × Int) :=
  if odds = 0 ∨ betAmount ≤ 0 then none
  else
    some (betAmount * odds / BET_ODDSDIVISOR
            - betAmount * odds / BET_ODDSDIVISOR * BET_BURNXPERMILLE / 1000,
          betAmount * odds / BET_ODDSDIVISOR * BET_BURNXPERMILLE / 1000)

/-- Modelled from the spec: the search of the expected payouts for one block output
(the body of `IsBlockPayoutsValid` is not among the sources): the first expected payout
equal to the output under `CBetOut::operator==` is taken out; `none` when there is none. -/
def takeExpected (o : CBetOut) : List CBetOut → Option (List CBetOut)
  | [] => none
  | e :: rest =>
    if e.eq o then some rest
    else
      match takeExpected o rest with
      | none => none
      | some left => some (e :: left)

/-- Modelled from the spec: every betting output of the block, in order, takes its
expected payout out of the expected set; the result is what is left of the set, or `none`
as soon as an output finds no equal expected payout. -/
def matchOutputs : List CBetOut → List CBetOut → Option (List CBetOut)
  | [], expected => some expected
  | o :: outs, expected =>
    match takeExpected o expected with
    | none => none
    | some left => matchOutputs outs left

/-- Modelled from the spec: `IsBlockPayoutsValid` (only declared in `bet.h`; its body is
not among the sources), on the expected payout multimap (its entries in key order) and
the betting outputs of the block: "every betting-kind output actually present in the
block must appear in expected with an equal amount, and every entry in expected with a
non-zero payout must appear in the block; any discrepancy (missing, extra, or
amount-mismatched payout output) is a validation failure". Each output accounts for one
expected entry, so an extra copy of an expected output is a discrepancy. -/
def IsBlockPayoutsValid (mExpectedPayouts : List (CPayoutInfo × CBetOut))
    (blockOutputs : List CBetOut) : Bool :=
  match matchOutputs blockOutputs (mExpectedPayouts.map Prod.snd) with
  | none => false
  | some unmatched => unmatched.all (fun e => decide (e.nValue = 0))

/-- The three fields `CBetOut::CompareTo` reads. -/
structure ComparedFields where
  nValue : Int
  scriptPubKey : ByteVector
  nEventId : Nat
  deriving DecidableEq, Repr

/-- The fields of an output that `CBetOut::CompareTo` reads. -/
def CBetOut.compared (o : CBetOut) : ComparedFields :=
  { nValue := o.nValue, scriptPubKey := o.scriptPubKey, nEventId := o.nEventId }

/-- The sum of the amounts of a list of outputs. -/
def totalValue (l : List CBetOut) : Int :=
  (l.map (fun o => o.nValue)).sum

/-- Two expected payouts of one block, to two scripts. -/
def sampleExpected : List (CPayoutInfo × CBetOut) :=
  [(⟨⟨7, ⟨3, 1⟩⟩, 1⟩, ⟨141, [118, 1], 100, 7⟩), (⟨⟨7, ⟨4, 0⟩⟩, 1⟩, ⟨282, [118, 2], 200, 7⟩)]

/-! ## Cache copies and flushing -/

/-- Source `CBettingDB::CBettingDB(CBettingDB& bdb) : CBettingDB(bdb.GetDb())`, the cache
copy constructor: a new flushable cache with an empty overlay whose wrapped store is the
original table's cache. -/
def CBettingDB.cacheCopy (bdb : CBettingDB) : CBettingDB :=
  { db := { changed := [], db := bdb.GetDb.toStorage } }

/-- Source `CBettingsView::CBettingsView(CBettingsView* phr)`: a cache copy of each of the
seven tables. -/
def CBettingsView.cacheCopy (phr : CBettingsView) : CBettingsView :=
  { mappings := phr.mappings.cacheCopy, results := phr.results.cacheCopy,
    events := phr.events.cacheCopy, bets := phr.bets.cacheCopy,
    undos := phr.undos.cacheCopy, payoutsInfo := phr.payoutsInfo.cacheCopy,
    quickGamesBets := phr.quickGamesBets.cacheCopy }

/-- One mutation of a table through its typed interface. -/
inductive TableOp (K V : Type) where
  | write (key : K) (value : V)
  | update (key : K) (value : V)
  | erase (key : K)

/-- The table after one mutation (`Write`, `Update` or `Erase`), its result dropped. -/
def CBettingDB.applyOp {K V : Type} (kc : DbType K) (vc : DbType V) (bdb : CBettingDB) :
    TableOp K V → CBettingDB
  | TableOp.write key value => (bdb.Write kc vc key value).2
  | TableOp.update key value => (bdb.Update kc vc key value).2
  | TableOp.erase key => (bdb.Erase kc key).2

/-- The table after a sequence of mutations, none of them followed by a flush. -/
def CBettingDB.applyOps {K V : Type} (kc : DbType K) (vc : DbType V) (bdb : CBettingDB)
    (ops : List (TableOp K V)) : CBettingDB :=
  ops.foldl (CBettingDB.applyOp kc vc) bdb

/-- Modelled from the spec: `CStorageKV::Write` as a flush reaches it (not among the
sources): a backing table takes the row, a cache records the write in its overlay. -/
def CStorageKV.Write : CStorageKV → ByteVector → ByteVector → CStorageKV
  | CStorageKV.table rows, k, v => CStorageKV.table (mapAssign k v rows)
  | CStorageKV.flushable changed db, k, v =>
    CStorageKV.flushable (mapAssign k (some v) changed) db

/-- Modelled from the spec: `CStorageKV::Erase` as a flush reaches it (not among the
sources): a backing table drops the row, a cache records the erase in its overlay. -/
def CStorageKV.Erase : CStorageKV → ByteVector → CStorageKV
  | CStorageKV.table rows, k => CStorageKV.table (mapRemove k rows)
  | CStorageKV.flushable changed db, k => CStorageKV.flushable (mapAssign k none changed) db

/-- The pending writes and erases of an overlay applied to a store, in key order. -/
def applyChanged : List (ByteVector × Option ByteVector) → CStorageKV → CStorageKV
  | [], st => st
  | (k, some v) :: rest, st => applyChanged rest (st.Write k v)
  | (k, none) :: rest, st => applyChanged rest (st.Erase k)

/-- Modelled from the spec: `CFlushableStorageKV::Flush` (not among the sources): "applies
the overlay to the backing table atomically (all-or-nothing from the caller's
perspective) and clears it". The flag `accepted` says whether the wrapped store takes the
changes; when it does not, the flush reports failure and nothing has changed. -/
def CFlushableStorageKV.Flush (accepted : Bool) (c : CFlushableStorageKV) :
    Bool × CFlushableStorageKV :=
  if accepted then (true, { changed := [], db := applyChanged c.changed c.db })
  else (false, c)

/-- Source `CBettingDB::Flush`: `return db.Flush()`. -/
def CBettingDB.Flush (accepted : Bool) (bdb : CBettingDB) : Bool × CBettingDB :=
  ((bdb.GetDb.Flush accepted).1, { db := (bdb.GetDb.Flush accepted).2 })

/-- For each of the seven tables, whether its wrapped store takes the changes of a flush. -/
structure FlushAccepted where
  mappings : Bool
  results : Bool
  events : Bool
  bets : Bool
  undos : Bool
  payoutsInfo : Bool
  quickGamesBets : Bool
  deriving DecidableEq, Repr

/-- Source `CBettingsView::Flush`: `mappings->Flush() && results->Flush() && events->Flush()
&& bets->Flush() && undos->Flush() && payoutsInfo->Flush() && quickGamesBets->Flush()`;
the operator `&&` evaluates left to right and stops at the first false. -/
def CBettingsView.Flush (acc : FlushAccepted) (view : CBettingsView) : Bool × CBettingsView :=
  let v1 := { view with mappings := (view.mappings.Flush acc.mappings).2 }
  if !(view.mappings.Flush acc.mappings).1 then (false, v1) else
  let v2 := { v1 with results := (view.results.Flush acc.results).2 }
  if !(view.results.Flush acc.results).1 then (false, v2) else
  let v3 := { v2 with events := (view.events.Flush acc.events).2 }
  if !(view.events.Flush acc.events).1 then (false, v3) else
  let v4 := { v3 with bets := (view.bets.Flush acc.bets).2 }
  if !(view.bets.Flush acc.bets).1 then (false, v4) else
  let v5 := { v4 with undos := (view.undos.Flush acc.undos).2 }
  if !(view.undos.Flush acc.undos).1 then (false, v5) else
  let v6 := { v5 with payoutsInfo := (view.payoutsInfo.Flush acc.payoutsInfo).2 }
  if !(view.payoutsInfo.Flush acc.payoutsInfo).1 then (false, v6) else
  ((view.quickGamesBets.Flush acc.quickGamesBets).1,
   { v6 with quickGamesBets := (view.quickGamesBets.Flush acc.quickGamesBets).2 })

/-- The sample view with one write pending in the overlay of the mappings table. -/
def sampleDirtyView : CBettingsView :=
  { sampleView with mappings := { db := { changed := [([0, 0, 0, 1, 0, 0, 0, 2], some [9])],
                                          db := CStorageKV.table [] } } }

/-- The stores of the mappings table accept a flush, the stores of the results table
refuse it. -/
def sampleResultsRefuse : FlushAccepted :=
  { mappings := true, results := false, events := true, bets := true, undos := true,
    payoutsInfo := true, quickGamesBets := true }

/-! ## Iteration and pruning of the undo table -/

/-- Every key a store mentions, in its overlays and in its backing table. -/
def CStorageKV.keys : CStorageKV → List ByteVector
  | CStorageKV.table rows => rows.map Prod.fst
  | CStorageKV.flushable changed db => changed.map Prod.fst ++ db.keys

/-- Insertion of a key into a list kept in byte-lexicographic order without repetition. -/
def insertKey (k : ByteVector) : List ByteVector → List ByteVector
  | [] => [k]
  | k' :: rest =>
    if k = k' then k' :: rest
    else if lexLess k k' then k :: k' :: rest
    else k' :: insertKey k rest

/-- The keys of a list, each once, in byte-lexicographic order. -/
def sortKeys (l : List ByteVector) : List ByteVector :=
  l.foldr insertKey []

/-- Modelled from the spec: what the store's iterator visits from `Seek` of the empty
key until it is no longer `Valid` (`CStorageKVIterator` is not among the sources): "an
ordered forward scan" over the entries the store reads as present, each with the value a
`Read` of its key gives, pending writes included and pending erases left out. -/
def CStorageKV.entries (st : CStorageKV) : List (ByteVector × ByteVector) :=
  (sortKeys st.keys).filterMap (fun k => (st.Read k).map (fun v => (k, v)))

/-- Source `CBettingDB::NewIterator`, as the list of entries the iterator visits. -/
def CBettingDB.NewIterator (bdb : CBettingDB) : List (ByteVector × ByteVector) :=
  bdb.GetDb.toStorage.entries

/-- The first loop of `CBettingsView::PruneOlderUndos` over the entries the iterator
visits: the entry under the serialized `"LastHeight"` key is skipped; of every other
entry the key and the value are decoded with `BytesToDbType`, and the key is collected when
`vUndos[0].height < height`. Reading `vUndos[0]` of an empty vector is outside the vector. -/
def collectOlderUndos (host : Endian) (params : CChainParams) (height : Nat)
    (lastHeightKey : ByteVector) :
    List (ByteVector × ByteVector) → Except Fault (List BettingUndoKey)
  | [] => Except.ok []
  | (k, v) :: rest =>
    if k = lastHeightKey then collectOlderUndos host params height lastHeightKey rest
    else
      match BytesToDbType BettingUndoKey.dbType k with
      | Except.error f => Except.error f
      | Except.ok key =>
        match BytesToDbType (CBettingUndo.vectorDbType host params) v with
        | Except.error f => Except.error f
        | Except.ok [] => Except.error Fault.outOfBounds
        | Except.ok (u :: _) =>
          match collectOlderUndos host params height lastHeightKey rest with
          | Except.error f => Except.error f
          | Except.ok vKeysToDelete =>
            Except.ok (if u.height < height then key :: vKeysToDelete else vKeysToDelete)

/-- The second loop of `CBettingsView::PruneOlderUndos`: `undos->Erase(key)` for every
collected key, the results dropped. -/
def eraseUndoKeys (undos : CBettingDB) (vKeysToDelete : List BettingUndoKey) : CBettingDB :=
  vKeysToDelete.foldl (fun db key => (db.Erase BettingUndoKey.dbType key).2) undos

/-- Source `CBettingsView::PruneOlderUndos`: collect the keys of the entries whose first
record is below the height, then erase them. -/
def CBettingsView.PruneOlderUndos (host : Endian) (params : CChainParams)
    (view : CBettingsView) (height : Nat) : Except Fault CBettingsView :=
  match collectOlderUndos host params height
      (DbTypeToBytes (stringDbType host) lastHeightString) view.undos.NewIterator with
  | Except.error f => Except.error f
  | Except.ok vKeysToDelete =>
    Except.ok { view with undos := eraseUndoKeys view.undos vKeysToDelete }

/-- The undo table is well formed: every entry other than the last-processed-height
scalar sits under the serialized form of a 256-bit block id and holds bytes that decode
to a non-empty record list. -/
def UndoEntriesNonEmpty (host : Endian) (params : CChainParams) (view : CBettingsView) : Prop :=
  ∀ k v, view.undos.GetDb.Read k = some v →
    k = DbTypeToBytes (stringDbType host) lastHeightString
    ∨ ∃ (key : BettingUndoKey) (u : CBettingUndo) (rest : List CBettingUndo),
        key < 2 ^ 256 ∧ k = DbTypeToBytes BettingUndoKey.dbType key
        ∧ BytesToDbType (CBettingUndo.vectorDbType host params) v = Except.ok (u :: rest)

/-- The sample view after `SetLastHeight(7)` and a save of `sampleUndos`, whose first
record has height 50, under block id 5. -/
def sampleUndoView : CBettingsView :=
  { sampleView.SetLastHeight Endian.little 7 with
    undos := ((sampleView.SetLastHeight Endian.little 7).undos.Write BettingUndoKey.dbType
      (CBettingUndo.vectorDbType Endian.little sampleParams) 5 sampleUndos).2 }

/-! ## Bets -/

/-- The outcome a leg bets on (`enum OutcomeType`, values 1 to 7). -/
inductive OutcomeType where
  | moneyLineHomeWin
  | moneyLineAwayWin
  | moneyLineDraw
  | spreadHome
  | spreadAway
  | totalOver
  | totalUnder
  deriving DecidableEq, Repr

/-- The result state of a bet (`enum BetResultType`, values 0 to 3). -/
inductive BetResultType where
  | betResultUnknown
  | betResultWin
  | betResultLose
  | betResultRefund
  deriving DecidableEq, Repr

/-- One leg of a bet (`CPeerlessBet`): the event and the outcome bet on. -/
structure CPeerlessBet where
  nEventId : Nat
  nOutcome : OutcomeType
  deriving DecidableEq, Repr

/-- A bet as stored (`CUniversalBet`). The address (`CBitcoinAddress`, `base58.h` is not
among the sources) is held as the characters of its string form; `completed` is the
private member behind `IsCompleted`. -/
structure CUniversalBet where
  betAmount : Int
  playerAddress : ByteVector
  legs : List CPeerlessBet
  lockedEvents : List CPeerlessEvent
  betOutPoint : COutPoint
  betTime : Int
  resultType : BetResultType
  payout : Int
  completed : Bool
  deriving Repr

/-- The field constructor `CUniversalBet(amount, address, vLegs, vEvents, outPoint, time)`:
the six members of the initializer list take the arguments, the three others keep their
default member initializers `betResultUnknown`, `0` and `false`. -/
def CUniversalBet.create (amount : Int) (address : ByteVector) (vLegs : List CPeerlessBet)
    (vEvents : List CPeerlessEvent) (outPoint : COutPoint) (time : Int) : CUniversalBet :=
  { betAmount := amount, playerAddress := address, legs := vLegs, lockedEvents := vEvents,
    betOutPoint := outPoint, betTime := time,
    resultType := BetResultType.betResultUnknown, payout := 0, completed := false }

/-- Source `CUniversalBet::IsCompleted`. -/
def CUniversalBet.IsCompleted (bet : CUniversalBet) : Bool :=
  bet.completed

/-- Source `CUniversalBet::SetCompleted`. -/
def CUniversalBet.SetCompleted (bet : CUniversalBet) : CUniversalBet :=
  { bet with completed := true }

/-- Source `CUniversalBet::SetUncompleted`, used by undo. -/
def CUniversalBet.SetUncompleted (bet : CUniversalBet) : CUniversalBet :=
  { bet with completed := false }

/-- A quick-games bet as stored (`CQuickGamesBet`); `gameType` is the numeric value of
the `QuickGamesType` enumerator, whose declaration is not among the sources. -/
structure CQuickGamesBet where
  gameType : Nat
  vBetInfo : ByteVector
  betAmount : Int
  playerAddress : ByteVector
  betTime : Int
  resultType : BetResultType
  payout : Int
  completed : Bool
  deriving DecidableEq, Repr

/-- The field constructor `CQuickGamesBet(gameType, vBetInfo, betAmount, playerAddress,
betTime)`: the five members of the initializer list take the arguments, the three others
keep their default member initializers. -/
def CQuickGamesBet.create (gameType : Nat) (vBetInfo : ByteVector) (betAmount : Int)
    (playerAddress : ByteVector) (betTime : Int) : CQuickGamesBet :=
  { gameType := gameType, vBetInfo := vBetInfo, betAmount := betAmount,
    playerAddress := playerAddress, betTime := betTime,
    resultType := BetResultType.betResultUnknown, payout := 0, completed := false }

/-- Source `CQuickGamesBet::IsCompleted`. -/
def CQuickGamesBet.IsCompleted (bet : CQuickGamesBet) : Bool :=
  bet.completed

/-- Source `CQuickGamesBet::SetCompleted`. -/
def CQuickGamesBet.SetCompleted (bet : CQuickGamesBet) : CQuickGamesBet :=
  { bet with completed := true }

/-- Source `CQuickGamesBet::SetUncompleted`, used by undo. -/
def CQuickGamesBet.SetUncompleted (bet : CQuickGamesBet) : CQuickGamesBet :=
  { bet with completed := false }

/-! ## Initialisation of an undo record -/

/-- The library call `boost::variant::empty()`: a variant always holds one of its
alternatives, so the call answers false for each of them. -/
def BettingUndoVariant.empty : BettingUndoVariant → Bool
  | BettingUndoVariant.mapping _ => false
  | BettingUndoVariant.event _ => false
  | BettingUndoVariant.result _ => false

/-- The default constructor `CBettingUndo() { }`: the height keeps its initializer 0 and
the variant is default-constructed. -/
def CBettingUndo.fresh : CBettingUndo :=
  { height := 0, undoVariant := BettingUndoVariant.fresh }

/-- Source `CBettingUndo::Inited`: `return !undoVariant.empty()`. -/
def CBettingUndo.Inited (u : CBettingUndo) : Bool :=
  !u.undoVariant.empty

/-- Source `CBettingUndo::Get`. -/
def CBettingUndo.Get (u : CBettingUndo) : BettingUndoVariant :=
  u.undoVariant

/-- What a fresh event holds after decoding the disk encoding of `e`: `e` itself when its
legacy flag is on disk, `e` with the flag at its initial value `true` otherwise. -/
def CPeerlessEvent.asStored (params : CChainParams) (e : CPeerlessEvent) : CPeerlessEvent :=
  if e.nEventCreationHeight < params.WagerrProtocolV3StartHeight then e
  else { e with fLegacyInitialHomeFavorite := true }

/-- Source `CPeerlessEvent::SerializationOp`, reading in place into the event `value` that
the caller holds, as `CBettingDB::Read(key, value)` and `BytesToDbType(bytes, value)` do
(`stream >> value` on a reference): every member is read in order and stored into `value`;
the legacy flag is read only when the creation height just read is below the protocol-V3
start height, and keeps the value the caller's event had otherwise. -/
def CPeerlessEvent.UnserializeInto (host : Endian) (params : CChainParams)
    (value : CPeerlessEvent) (s : ByteVector) : Option (CPeerlessEvent × ByteVector) :=
  some (value, s)
    >>= CPeerlessEvent.readNat (readU32 host) (fun e v => { e with nEventId := v })
    >>= CPeerlessEvent.readNat (readU64 host) (fun e v => { e with nStartTime := v })
    >>= CPeerlessEvent.readNat (readU32 host) (fun e v => { e with nSport := v })
    >>= CPeerlessEvent.readNat (readU32 host) (fun e v => { e with nTournament := v })
    >>= CPeerlessEvent.readNat (readU32 host) (fun e v => { e with nStage := v })
    >>= CPeerlessEvent.readNat (readU32 host) (fun e v => { e with nHomeTeam := v })
    >>= CPeerlessEvent.readNat (readU32 host) (fun e v => { e with nAwayTeam := v })
    >>= CPeerlessEvent.readNat (readU32 host) (fun e v => { e with nHomeOdds := v })
    >>= CPeerlessEvent.readNat (readU32 host) (fun e v => { e with nAwayOdds := v })
    >>= CPeerlessEvent.readNat (readU32 host) (fun e v => { e with nDrawOdds := v })
    >>= CPeerlessEvent.readInt (readI32 host) (fun e v => { e with nSpreadPoints := v })
    >>= CPeerlessEvent.readNat (readU32 host) (fun e v => { e with nSpreadHomeOdds := v })
    >>= CPeerlessEvent.readNat (readU32 host) (fun e v => { e with nSpreadAwayOdds := v })
    >>= CPeerlessEvent.readNat (readU32 host) (fun e v => { e with nTotalPoints := v })
    >>= CPeerlessEvent.readNat (readU32 host) (fun e v => { e with nTotalOverOdds := v })
    >>= CPeerlessEvent.readNat (readU32 host) (fun e v => { e with nTotalUnderOdds := v })
    >>= CPeerlessEvent.readNat (readU32 host) (fun e v => { e with nMoneyLineHomePotentialLiability := v })
    >>= CPeerlessEvent.readNat (readU32 host) (fun e v => { e with nMoneyLineAwayPotentialLiability := v })
    >>= CPeerlessEvent.readNat (readU32 host) (fun e v => { e with nMoneyLineDrawPotentialLiability := v })
    >>= CPeerlessEvent.readNat (readU32 host) (fun e v => { e with nSpreadHomePotentialLiability := v })
    >>= CPeerlessEvent.readNat (readU32 host) (fun e v => { e with nSpreadAwayPotentialLiability := v })
    >>= CPeerlessEvent.readNat (readU32 host) (fun e v => { e with nSpreadPushPotentialLiability := v })
    >>= CPeerlessEvent.readNat (readU32 host) (fun e v => { e with nTotalOverPotentialLiability := v })
    >>= CPeerlessEvent.readNat (readU32 host) (fun e v => { e with nTotalUnderPotentialLiability := v })
    >>= CPeerlessEvent.readNat (readU32 host) (fun e v => { e with nTotalPushPotentialLiability := v })
    >>= CPeerlessEvent.readNat (readU32 host) (fun e v => { e with nMoneyLineHomeBets := v })
    >>= CPeerlessEvent.readNat (readU32 host) (fun e v => { e with nMoneyLineAwayBets := v })
    >>= CPeerlessEvent.readNat (readU32 host) (fun e v => { e with nMoneyLineDrawBets := v })
    >>= CPeerlessEvent.readNat (readU32 host) (fun e v => { e with nSpreadHomeBets := v })
    >>= CPeerlessEvent.readNat (readU32 host) (fun e v => { e with nSpreadAwayBets := v })
    >>= CPeerlessEvent.readNat (readU32 host) (fun e v => { e with nSpreadPushBets := v })
    >>= CPeerlessEvent.readNat (readU32 host) (fun e v => { e with nTotalOverBets := v })
    >>= CPeerlessEvent.readNat (readU32 host) (fun e v => { e with nTotalUnderBets := v })
    >>= CPeerlessEvent.readNat (readU32 host) (fun e v => { e with nTotalPushBets := v })
    >>= CPeerlessEvent.readInt (readI32 host) (fun e v => { e with nEventCreationHeight := v })
    >>= CPeerlessEvent.readLegacyFlag params

/-- What the caller's event `value` holds after the disk encoding of `e` is decoded into
it: `e` itself when the legacy flag of `e` is on disk, `e` with the flag that `value` had
before otherwise. -/
def CPeerlessEvent.storedInto (params : CChainParams) (value e : CPeerlessEvent) :
    CPeerlessEvent :=
  if e.nEventCreationHeight < params.WagerrProtocolV3StartHeight then e
  else { e with fLegacyInitialHomeFavorite := value.fLegacyInitialHomeFavorite }

/-- The disk serializers of `CPeerlessEvent`, the value type of the events table, for a
call `Read(key, value)`: the reader runs in place on the event `value` that the caller
passes by reference (`BytesToDbType(vValue, value)`); the writer does not use `value`. -/
def CPeerlessEvent.dbType (host : Endian) (params : CChainParams) (value : CPeerlessEvent) :
    DbType CPeerlessEvent :=
  { Serialize := CPeerlessEvent.Serialize host params,
    Unserialize := CPeerlessEvent.UnserializeInto host params value }

/-- A freshly constructed event (`CPeerlessEvent event{}`): all numbers 0, the legacy flag
`true`. -/
def sampleFreshEvent : CPeerlessEvent :=
  {}

/-- An event created at height 2000, above the protocol-V3 start height of
`sampleParams`, with the legacy flag off. -/
def sampleLateEvent : CPeerlessEvent :=
  { nEventId := 7, nEventCreationHeight := 2000, fLegacyInitialHomeFavorite := false }

/-- An event created at height 50, below the protocol-V3 start height of `sampleParams`,
with the legacy flag off. -/
def sampleEarlyEvent : CPeerlessEvent :=
  { nEventId := 7, nSpreadPoints := -3, nEventCreationHeight := 50,
    fLegacyInitialHomeFavorite := false }

/-! ## Sequences of calls on the undo table -/

/-- One call on the undo table of a view. -/
inductive UndoCall where
  | setLastHeight (height : Nat)
  | save (key : BettingUndoKey) (vUndos : List CBettingUndo)
  | erase (key : BettingUndoKey)

/-- The view after one call. A `SaveBettingUndo` that ends in the failed assertion ends
the process before any write, so the table is as it was. -/
def CBettingsView.afterCall (host : Endian) (params : CChainParams) (view : CBettingsView) :
    UndoCall → CBettingsView
  | UndoCall.setLastHeight height => view.SetLastHeight host height
  | UndoCall.save key vUndos =>
    match view.SaveBettingUndo host params key vUndos with
    | Except.ok saved => saved.2
    | Except.error _ => view
  | UndoCall.erase key => (view.EraseBettingUndo key).2

/-- The view after a sequence of calls. -/
def CBettingsView.afterCalls (host : Endian) (params : CChainParams) (view : CBettingsView)
    (calls : List UndoCall) : CBettingsView :=
  calls.foldl (CBettingsView.afterCall host params) view

/-- The call is not a save of an empty record list. -/
def UndoCall.SavesNonEmpty : UndoCall → Prop
  | UndoCall.save _ vUndos => vUndos ≠ []
  | _ => True

/-- Every stored undo entry has a non-empty record list: whatever the undo table holds
under a key other than the last-processed-height scalar is the disk encoding of a
non-empty list. -/
def StoredUndoListsNonEmpty (host : Endian) (params : CChainParams) (view : CBettingsView) :
    Prop :=
  ∀ k v, view.undos.GetDb.Read k = some v →
    k = DbTypeToBytes (stringDbType host) lastHeightString
    ∨ ∃ vUndos : List CBettingUndo, vUndos ≠ []
        ∧ v = DbTypeToBytes (CBettingUndo.vectorDbType host params) vUndos

/-- A sequence of calls that saves non-empty lists only: the scalar is set, a list is
saved under block id 5, erased, and another list is saved under the same id. -/
def sampleCalls : List UndoCall :=
  [UndoCall.setLastHeight 7, UndoCall.save 5 sampleUndos, UndoCall.erase 5,
   UndoCall.save 5 sampleLateUndos]

end Wagerr

namespace Wagerr

/-! ## Arithmetic of the byte codecs -/

theorem leBytes_length (n x : Nat) : (leBytes n x).length = n := by
  induction n generalizing x with
  | zero => rfl
  | succ n ih => simp [leBytes, ih]

theorem leBytes_lt (n x : Nat) : ∀ b ∈ leBytes n x, b < 256 := by
  induction n generalizing x with
  | zero => simp [leBytes]
  | succ n ih =>
    intro b hb
    simp only [leBytes, List.mem_cons] at hb
    rcases hb with h | h
    · omega
    · exact ih _ b h

/-- The big-endian bytes of a 32-bit value, most significant byte first. -/
theorem leBytes_four_reverse (x : Nat) :
    (leBytes 4 x).reverse = [x / 16777216 % 256, x / 65536 % 256, x / 256 % 256, x % 256] := by
  simp only [leBytes, List.reverse_cons, List.reverse_nil, List.nil_append, List.cons_append,
    Nat.div_div_eq_div_mul]

theorem leBytes_leValue (bs : ByteVector) (h : ∀ b ∈ bs, b < 256) :
    leBytes bs.length (leValue bs) = bs := by
  induction bs with
  | nil => rfl
  | cons b bs ih =>
    have hb : b < 256 := h b (List.mem_cons_self _ _)
    have hbs : ∀ c ∈ bs, c < 256 := fun c hc => h c (List.mem_cons_of_mem _ hc)
    have h1 : (b + 256 * leValue bs) % 256 = b := by omega
    have h2 : (b + 256 * leValue bs) / 256 = leValue bs := by omega
    simp only [List.length_cons, leBytes, leValue, h1, h2, ih hbs]

theorem leValue_leBytes (n x : Nat) : leValue (leBytes n x) = x % 256 ^ n := by
  induction n generalizing x with
  | zero => simp [leBytes, leValue, Nat.mod_one]
  | succ n ih =>
    simp only [leBytes, leValue, ih]
    rw [pow_succ, Nat.mul_comm (256 ^ n) 256, Nat.mod_mul]

theorem leBytes_mod (n x : Nat) : leBytes n (x % 256 ^ n) = leBytes n x := by
  have h := leBytes_leValue (leBytes n x) (leBytes_lt n x)
  rw [leBytes_length, leValue_leBytes] at h
  exact h

theorem leValue_lt (bs : ByteVector) (h : ∀ b ∈ bs, b < 256) : leValue bs < 256 ^ bs.length := by
  have h1 := leValue_leBytes bs.length (leValue bs)
  rw [leBytes_leValue bs h] at h1
  rw [h1]
  exact Nat.mod_lt _ (by positivity)

/-- What reaches the stream after `htonl` is the big-endian byte string, on either host. -/
theorem writeData_htonl (host : Endian) (x : Nat) :
    writeData host 4 (htonl host x) = (leBytes 4 x).reverse := by
  cases host
  · have hlt : ∀ b ∈ (leBytes 4 x).reverse, b < 256 := by
      intro b hb
      exact leBytes_lt 4 x b (List.mem_reverse.mp hb)
    have h := leBytes_leValue (leBytes 4 x).reverse hlt
    rw [List.length_reverse, leBytes_length] at h
    simp only [writeData, memBytes, htonl]
    exact h
  · have h := leBytes_mod 4 x
    simp only [writeData, memBytes, htonl]
    rw [show (4294967296 : Nat) = 256 ^ 4 by norm_num, h]

theorem EventKey_bytes (host : Endian) (a : Nat) :
    EventKey.Serialize host ⟨a⟩ = [a / 16777216 % 256, a / 65536 % 256, a / 256 % 256, a % 256] := by
  rw [EventKey.Serialize, writeData_htonl, leBytes_four_reverse]

/-! ## Key ordering -/

theorem lexLess_be4 (a b : Nat) (ha : a < 4294967296) (hb : b < 4294967296) :
    lexLess (leBytes 4 a).reverse (leBytes 4 b).reverse = true ↔ a < b := by
  simp only [leBytes, List.reverse_cons, List.reverse_nil, List.nil_append, List.cons_append,
    lexLess, Bool.or_eq_true, Bool.and_eq_true, decide_eq_true_eq, Bool.or_false, Bool.and_false]
  omega

theorem be4_injective (a b : Nat) (ha : a < 4294967296) (hb : b < 4294967296)
    (h : (leBytes 4 a).reverse = (leBytes 4 b).reverse) : a = b := by
  have h1 : leValue (leBytes 4 a) = leValue (leBytes 4 b) := by
    rw [List.reverse_inj.mp h]
  rw [leValue_leBytes, leValue_leBytes] at h1
  norm_num at h1
  omega

theorem lexLess_irrefl (x : ByteVector) : lexLess x x = false := by
  induction x with
  | nil => rfl
  | cons a as ih => simp [lexLess, ih]

/-- With prefixes of one length, the prefixes decide and the suffixes break ties. -/
theorem lexLess_append (x x' y y' : ByteVector) (h : x.length = x'.length) :
    lexLess (x ++ y) (x' ++ y') = (lexLess x x' || (decide (x = x') && lexLess y y')) := by
  induction x generalizing x' with
  | nil =>
    cases x' with
    | nil => simp [lexLess]
    | cons b bs => simp at h
  | cons a as ih =>
    cases x' with
    | nil => simp at h
    | cons b bs =>
      have hl : as.length = bs.length := by simpa using h
      simp only [List.cons_append, lexLess, List.cons.injEq, List.append_eq]
      rw [ih bs hl]
      by_cases hab : a = b
      · subst hab
        simp
      · simp [hab]

theorem MappingKey_bytes (host : Endian) (k : MappingKey) :
    MappingKey.Serialize host k = (leBytes 4 k.nMType).reverse ++ (leBytes 4 k.nId).reverse := by
  rw [MappingKey.Serialize, writeData_htonl, writeData_htonl]

theorem UniversalBetKey_bytes (host : Endian) (k : UniversalBetKey) :
    UniversalBetKey.Serialize host k
      = (leBytes 4 k.blockHeight).reverse ++ COutPoint.Serialize host k.outPoint := by
  rw [UniversalBetKey.Serialize, writeData_htonl]

theorem be4_length (x : Nat) : (leBytes 4 x).reverse.length = 4 := by
  rw [List.length_reverse, leBytes_length]

theorem MappingKey_lexLess (host : Endian) (a b : MappingKey)
    (ha1 : a.nMType < 4294967296) (ha2 : a.nId < 4294967296)
    (hb1 : b.nMType < 4294967296) (hb2 : b.nId < 4294967296) :
    lexLess (MappingKey.Serialize host a) (MappingKey.Serialize host b) = true
      ↔ (a.nMType < b.nMType ∨ (a.nMType = b.nMType ∧ a.nId < b.nId)) := by
  rw [MappingKey_bytes, MappingKey_bytes,
    lexLess_append _ _ _ _ (by rw [be4_length, be4_length])]
  simp only [Bool.or_eq_true, Bool.and_eq_true, decide_eq_true_eq]
  rw [lexLess_be4 _ _ ha1 hb1, lexLess_be4 _ _ ha2 hb2]
  constructor
  · rintro (h | ⟨h1, h2⟩)
    · exact Or.inl h
    · exact Or.inr ⟨be4_injective _ _ ha1 hb1 h1, h2⟩
  · rintro (h | ⟨h1, h2⟩)
    · exact Or.inl h
    · exact Or.inr ⟨by rw [h1], h2⟩

theorem UniversalBetKey_lexLess (host : Endian) (a b : UniversalBetKey)
    (ha : a.blockHeight < 4294967296) (hb : b.blockHeight < 4294967296) :
    lexLess (UniversalBetKey.Serialize host a) (UniversalBetKey.Serialize host b) = true
      ↔ (a.blockHeight < b.blockHeight ∨ (a.blockHeight = b.blockHeight ∧
          lexLess (COutPoint.Serialize host a.outPoint) (COutPoint.Serialize host b.outPoint)
            = true)) := by
  rw [UniversalBetKey_bytes, UniversalBetKey_bytes,
    lexLess_append _ _ _ _ (by rw [be4_length, be4_length])]
  simp only [Bool.or_eq_true, Bool.and_eq_true, decide_eq_true_eq]
  rw [lexLess_be4 _ _ ha hb]
  constructor
  · rintro (h | ⟨h1, h2⟩)
    · exact Or.inl h
    · exact Or.inr ⟨be4_injective _ _ ha hb h1, h2⟩
  · rintro (h | ⟨h1, h2⟩)
    · exact Or.inl h
    · exact Or.inr ⟨by rw [h1], h2⟩

theorem COutPoint_Serialize_length (host : Endian) (o : COutPoint) :
    (COutPoint.Serialize host o).length = 36 := by
  cases host <;>
    simp [COutPoint.Serialize, writeData, memBytes, leBytes_length]

/-! ## The association list and the store -/

theorem mapFind_mapAssign_self {β : Type} (k : ByteVector) (v : β) (m : List (ByteVector × β)) :
    mapFind k (mapAssign k v m) = some v := by
  induction m with
  | nil => simp [mapAssign, mapFind]
  | cons p rest ih =>
    obtain ⟨k', v'⟩ := p
    by_cases h1 : k = k'
    · simp [mapAssign, mapFind, h1]
    · by_cases h2 : lexLess k k' = true
      · simp [mapAssign, mapFind, h1, h2]
      · simp [mapAssign, mapFind, h1, h2, ih]

theorem mapFind_mapAssign_other {β : Type} (k j : ByteVector) (v : β)
    (m : List (ByteVector × β)) (h : j ≠ k) :
    mapFind j (mapAssign k v m) = mapFind j m := by
  induction m with
  | nil => simp [mapAssign, mapFind, h]
  | cons p rest ih =>
    obtain ⟨k', v'⟩ := p
    by_cases h1 : k = k'
    · subst h1
      simp [mapAssign, mapFind, h]
    · by_cases h2 : lexLess k k' = true
      · simp [mapAssign, mapFind, h1, h2, h]
      · simp [mapAssign, mapFind, h1, h2, ih]

theorem CFlushableStorageKV.Exists_Write (c : CFlushableStorageKV) (k v : ByteVector) :
    (c.Write k v).2.Exists k = true := by
  simp [CFlushableStorageKV.Write, CFlushableStorageKV.Exists, CFlushableStorageKV.toStorage,
    CStorageKV.Exists, mapFind_mapAssign_self]

theorem CFlushableStorageKV.Read_Write (c : CFlushableStorageKV) (k v : ByteVector) :
    (c.Write k v).2.Read k = some v := by
  simp [CFlushableStorageKV.Write, CFlushableStorageKV.Read, CFlushableStorageKV.toStorage,
    CStorageKV.Read, mapFind_mapAssign_self]

theorem CFlushableStorageKV.Exists_Erase (c : CFlushableStorageKV) (k : ByteVector) :
    (c.Erase k).2.Exists k = false := by
  simp [CFlushableStorageKV.Erase, CFlushableStorageKV.Exists, CFlushableStorageKV.toStorage,
    CStorageKV.Exists, mapFind_mapAssign_self]

theorem CStorageKV.Exists_eq_isSome (st : CStorageKV) (k : ByteVector) :
    st.Exists k = (st.Read k).isSome := by
  induction st with
  | table rows => rfl
  | flushable changed db ih =>
    simp only [CStorageKV.Exists, CStorageKV.Read]
    cases mapFind k changed with
    | none => exact ih
    | some pending => rfl

/-! ## At-most-once mutation of a table -/

theorem CBettingDB.Write_of_exists {K V : Type} (kc : DbType K) (vc : DbType V)
    (bdb : CBettingDB) (key : K) (value : V) (h : bdb.Exists kc key = true) :
    bdb.Write kc vc key value = (false, bdb) := by
  simp only [CBettingDB.Exists] at h
  simp [CBettingDB.Write, h]

theorem CBettingDB.Write_of_absent {K V : Type} (kc : DbType K) (vc : DbType V)
    (bdb : CBettingDB) (key : K) (value : V) (h : bdb.Exists kc key = false) :
    bdb.Write kc vc key value
      = (true, { db := (bdb.GetDb.Write (DbTypeToBytes kc key) (DbTypeToBytes vc value)).2 }) := by
  simp only [CBettingDB.Exists] at h
  simp [CBettingDB.Write, h, CFlushableStorageKV.Write]

theorem CBettingDB.Exists_after_Write {K V : Type} (kc : DbType K) (vc : DbType V)
    (bdb : CBettingDB) (key : K) (value : V) :
    (bdb.Write kc vc key value).2.Exists kc key = true := by
  cases h : bdb.Exists kc key with
  | true => rw [CBettingDB.Write_of_exists kc vc bdb key value h]; exact h
  | false =>
    rw [CBettingDB.Write_of_absent kc vc bdb key value h]
    exact CFlushableStorageKV.Exists_Write _ _ _

theorem CBettingDB.Erase_of_absent {K : Type} (kc : DbType K) (bdb : CBettingDB) (key : K)
    (h : bdb.Exists kc key = false) : bdb.Erase kc key = (false, bdb) := by
  simp only [CBettingDB.Exists] at h
  simp [CBettingDB.Erase, h]

theorem CBettingDB.Erase_of_exists {K : Type} (kc : DbType K) (bdb : CBettingDB) (key : K)
    (h : bdb.Exists kc key = true) :
    bdb.Erase kc key = (true, { db := (bdb.GetDb.Erase (DbTypeToBytes kc key)).2 }) := by
  simp only [CBettingDB.Exists] at h
  simp [CBettingDB.Erase, h, CFlushableStorageKV.Erase]

theorem CBettingDB.Exists_after_Erase {K : Type} (kc : DbType K) (bdb : CBettingDB) (key : K) :
    (bdb.Erase kc key).2.Exists kc key = false := by
  cases h : bdb.Exists kc key with
  | false => rw [CBettingDB.Erase_of_absent kc bdb key h]; exact h
  | true =>
    rw [CBettingDB.Erase_of_exists kc bdb key h]
    exact CFlushableStorageKV.Exists_Erase _ _

/-- C1: `CBettingDB::Write` on a key that is already present (in the overlay or in the
backing table) returns false and leaves the table as it was, so the following `Read`
of that key gives what it gave before; in particular, on the results table, a second
result written under one event id is rejected, and the result stored by a successful
first write stays. -/
theorem CBettingDB.Write_existing_rejected {K V : Type} (kc : DbType K) (vc : DbType V)
    (bdb : CBettingDB) (key : K) (value : V) (h : bdb.Exists kc key = true) :
    bdb.Write kc vc key value = (false, bdb)
    ∧ (bdb.Write kc vc key value).2.Read kc vc key = bdb.Read kc vc key
    ∧ ∀ (host : Endian) (results : CBettingDB) (id : ResultKey) (r1 r2 : CPeerlessResult),
        (results.Write (EventKey.dbType host) (CPeerlessResult.dbType host) id r1).2.Write
            (EventKey.dbType host) (CPeerlessResult.dbType host) id r2
          = (false, (results.Write (EventKey.dbType host) (CPeerlessResult.dbType host) id r1).2)
        ∧ ((results.Write (EventKey.dbType host) (CPeerlessResult.dbType host) id r1).1 = true →
            ((results.Write (EventKey.dbType host) (CPeerlessResult.dbType host) id r1).2.Write
              (EventKey.dbType host) (CPeerlessResult.dbType host) id r2).2.GetDb.Read
                (DbTypeToBytes (EventKey.dbType host) id)
              = some (DbTypeToBytes (CPeerlessResult.dbType host) r1)) := by
  have hw := CBettingDB.Write_of_exists kc vc bdb key value h
  refine ⟨hw, by rw [hw], ?_⟩
  intro host results id r1 r2
  have h2 := CBettingDB.Write_of_exists (EventKey.dbType host) (CPeerlessResult.dbType host) _ id r2
    (CBettingDB.Exists_after_Write (EventKey.dbType host) (CPeerlessResult.dbType host)
      results id r1)
  refine ⟨h2, ?_⟩
  intro h1
  rw [h2]
  cases hex : results.Exists (EventKey.dbType host) id with
  | true =>
    rw [CBettingDB.Write_of_exists _ _ results id r1 hex] at h1
    simp at h1
  | false =>
    rw [CBettingDB.Write_of_absent _ _ results id r1 hex]
    exact CFlushableStorageKV.Read_Write _ _ _

/-- C1 at a table holding event 7: the second write is refused. -/
theorem CBettingDB.Write_existing_rejected_witness :
    CBettingDB.Exists (EventKey.dbType Endian.little) sampleBackedDb ⟨7⟩ = true
    ∧ CBettingDB.Write (EventKey.dbType Endian.little) (CPeerlessResult.dbType Endian.little)
        sampleBackedDb ⟨7⟩ sampleResult = (false, sampleBackedDb) :=
  ⟨by decide, (CBettingDB.Write_existing_rejected _ _ _ _ _ (by decide)).1⟩

/-- C2: `CBettingDB::Update` on an absent key returns false and leaves the table as it
was; the key is still absent afterwards. -/
theorem CBettingDB.Update_absent_rejected {K V : Type} (kc : DbType K) (vc : DbType V)
    (bdb : CBettingDB) (key : K) (value : V) (h : bdb.Exists kc key = false) :
    bdb.Update kc vc key value = (false, bdb)
    ∧ (bdb.Update kc vc key value).2.Exists kc key = false
    ∧ (bdb.Update kc vc key value).2.Read kc vc key = Except.ok none := by
  have hu : bdb.Update kc vc key value = (false, bdb) := by
    simp only [CBettingDB.Exists] at h
    simp [CBettingDB.Update, h]
  refine ⟨hu, by rw [hu]; exact h, ?_⟩
  rw [hu]
  simp only [CBettingDB.Exists, CFlushableStorageKV.Exists, CStorageKV.Exists_eq_isSome] at h
  simp only [CBettingDB.Read, CFlushableStorageKV.Read]
  cases hr : (bdb.GetDb.toStorage.Read (DbTypeToBytes kc key)) with
  | none => rfl
  | some v => simp [hr] at h

/-- C2 at an empty table. -/
theorem CBettingDB.Update_absent_rejected_witness :
    CBettingDB.Exists (EventKey.dbType Endian.little) sampleEmptyDb ⟨7⟩ = false
    ∧ CBettingDB.Update (EventKey.dbType Endian.little) (CPeerlessResult.dbType Endian.little)
        sampleEmptyDb ⟨7⟩ sampleResult = (false, sampleEmptyDb) :=
  ⟨by decide, (CBettingDB.Update_absent_rejected _ _ _ _ _ (by decide)).1⟩

/-- C3: `CBettingDB::Erase` on an absent key returns false and leaves the table as it
was; and in any table state, of two erases of one key in a row at most one returns true. -/
theorem CBettingDB.Erase_absent_rejected {K : Type} (kc : DbType K)
    (bdb : CBettingDB) (key : K) (h : bdb.Exists kc key = false) :
    bdb.Erase kc key = (false, bdb)
    ∧ ∀ (other : CBettingDB) (k : K),
        ¬ ((other.Erase kc k).1 = true ∧ ((other.Erase kc k).2.Erase kc k).1 = true) := by
  refine ⟨CBettingDB.Erase_of_absent kc bdb key h, ?_⟩
  intro other k
  rw [CBettingDB.Erase_of_absent kc _ k (CBettingDB.Exists_after_Erase kc other k)]
  simp

/-- C3 at an empty table. -/
theorem CBettingDB.Erase_absent_rejected_witness :
    CBettingDB.Exists (EventKey.dbType Endian.little) sampleEmptyDb ⟨7⟩ = false
    ∧ CBettingDB.Erase (EventKey.dbType Endian.little) sampleEmptyDb ⟨7⟩
      = (false, sampleEmptyDb) :=
  ⟨by decide, (CBettingDB.Erase_absent_rejected _ _ _ (by decide)).1⟩

/-! ## The fixed-width key codec -/

/-- C4: the serialized `EventKey` / `ResultKey` is exactly four bytes, most significant
byte first, and for 32-bit event ids `a < b` holds exactly when the encoding of `a` is
byte-lexicographically smaller than the encoding of `b` (on either host). -/
theorem EventKey_Serialize_order (host : Endian) (a b : Nat)
    (ha : a < 4294967296) (hb : b < 4294967296) :
    EventKey.Serialize host ⟨a⟩ = [a / 16777216 % 256, a / 65536 % 256, a / 256 % 256, a % 256]
    ∧ (EventKey.Serialize host ⟨a⟩).length = 4
    ∧ (a < b ↔ lexLess (EventKey.Serialize host ⟨a⟩) (EventKey.Serialize host ⟨b⟩) = true) := by
  refine ⟨EventKey_bytes host a, by rw [EventKey_bytes]; rfl, ?_⟩
  rw [EventKey.Serialize, EventKey.Serialize, writeData_htonl, writeData_htonl]
  exact (lexLess_be4 a b ha hb).symm

/-- C4 at the ids 255 and 256, whose little-endian bytes would compare the other way. -/
theorem EventKey_Serialize_order_witness :
    EventKey.Serialize Endian.little ⟨255⟩ = [0, 0, 0, 255]
    ∧ EventKey.Serialize Endian.little ⟨256⟩ = [0, 0, 1, 0]
    ∧ lexLess (EventKey.Serialize Endian.little ⟨255⟩) (EventKey.Serialize Endian.little ⟨256⟩)
        = true :=
  ⟨by decide, by decide,
    (EventKey_Serialize_order Endian.little 255 256 (by decide) (by decide)).2.2.mp (by decide)⟩

/-- C5: the serialized `MappingKey` is exactly eight bytes, the big-endian kind followed
by the big-endian id; the pair (kind, id) of `a` is lexicographically smaller than that
of `b` exactly when the encoding of `a` is byte-lexicographically smaller; hence a key
whose encoding lies between two keys of one kind has that kind too. -/
theorem MappingKey_Serialize_order (host : Endian) (a b c : MappingKey)
    (ha1 : a.nMType < 4294967296) (ha2 : a.nId < 4294967296)
    (hb1 : b.nMType < 4294967296) (hb2 : b.nId < 4294967296)
    (hc1 : c.nMType < 4294967296) (hc2 : c.nId < 4294967296) :
    MappingKey.Serialize host a
      = [a.nMType / 16777216 % 256, a.nMType / 65536 % 256, a.nMType / 256 % 256, a.nMType % 256,
         a.nId / 16777216 % 256, a.nId / 65536 % 256, a.nId / 256 % 256, a.nId % 256]
    ∧ (MappingKey.Serialize host a).length = 8
    ∧ ((a.nMType < b.nMType ∨ (a.nMType = b.nMType ∧ a.nId < b.nId))
        ↔ lexLess (MappingKey.Serialize host a) (MappingKey.Serialize host b) = true)
    ∧ (a.nMType = c.nMType →
        lexLess (MappingKey.Serialize host a) (MappingKey.Serialize host b) = true →
        lexLess (MappingKey.Serialize host b) (MappingKey.Serialize host c) = true →
        b.nMType = a.nMType) := by
  have hbytes : MappingKey.Serialize host a
      = [a.nMType / 16777216 % 256, a.nMType / 65536 % 256, a.nMType / 256 % 256,
         a.nMType % 256,
         a.nId / 16777216 % 256, a.nId / 65536 % 256, a.nId / 256 % 256, a.nId % 256] := by
    rw [MappingKey_bytes, leBytes_four_reverse, leBytes_four_reverse]
    rfl
  refine ⟨hbytes, by rw [hbytes]; rfl, (MappingKey_lexLess host a b ha1 ha2 hb1 hb2).symm, ?_⟩
  intro hac hab hbc
  rw [MappingKey_lexLess host a b ha1 ha2 hb1 hb2] at hab
  rw [MappingKey_lexLess host b c hb1 hb2 hc1 hc2] at hbc
  omega

/-- C5 at three keys around the boundary between the kinds 1 and 2. -/
theorem MappingKey_Serialize_order_witness :
    MappingKey.Serialize Endian.little ⟨1, 4294967295⟩ = [0, 0, 0, 1, 255, 255, 255, 255]
    ∧ lexLess (MappingKey.Serialize Endian.little ⟨1, 4294967295⟩)
        (MappingKey.Serialize Endian.little ⟨2, 0⟩) = true :=
  ⟨by decide,
    (MappingKey_Serialize_order Endian.little ⟨1, 4294967295⟩ ⟨2, 0⟩ ⟨2, 1⟩
      (by decide) (by decide) (by decide) (by decide) (by decide) (by decide)).2.2.1.mp
      (by decide)⟩

/-- C6: the serialized `UniversalBetKey` has the fixed width of 40 bytes and begins with
the four big-endian bytes of the block height; a key of smaller height encodes
byte-lexicographically smaller whatever the two out-points are, so keys met in
increasing byte order have non-decreasing heights. -/
theorem UniversalBetKey_Serialize_height_major (host : Endian) (a b : UniversalBetKey)
    (ha : a.blockHeight < 4294967296) (hb : b.blockHeight < 4294967296) :
    (UniversalBetKey.Serialize host a).length = 40
    ∧ (UniversalBetKey.Serialize host a).take 4
        = [a.blockHeight / 16777216 % 256, a.blockHeight / 65536 % 256,
           a.blockHeight / 256 % 256, a.blockHeight % 256]
    ∧ (a.blockHeight < b.blockHeight →
        lexLess (UniversalBetKey.Serialize host a) (UniversalBetKey.Serialize host b) = true)
    ∧ (lexLess (UniversalBetKey.Serialize host a) (UniversalBetKey.Serialize host b) = true →
        a.blockHeight ≤ b.blockHeight) := by
  refine ⟨?_, ?_, ?_, ?_⟩
  · rw [UniversalBetKey_bytes, List.length_append, be4_length, COutPoint_Serialize_length]
  · rw [UniversalBetKey_bytes, List.take_left' (be4_length _), leBytes_four_reverse]
  · intro hlt
    exact (UniversalBetKey_lexLess host a b ha hb).mpr (Or.inl hlt)
  · intro hlex
    rcases (UniversalBetKey_lexLess host a b ha hb).mp hlex with h | ⟨h, _⟩ <;> omega

/-- C6 at heights 1 and 2, the lower key carrying the larger out-point. -/
theorem UniversalBetKey_Serialize_height_major_witness :
    lexLess (UniversalBetKey.Serialize Endian.little ⟨1, ⟨5, 9⟩⟩)
      (UniversalBetKey.Serialize Endian.little ⟨2, ⟨0, 0⟩⟩) = true :=
  (UniversalBetKey_Serialize_height_major Endian.little ⟨1, ⟨5, 9⟩⟩ ⟨2, ⟨0, 0⟩⟩
    (by decide) (by decide)).2.2.1 (by decide)

/-- C7 fails as stated: at one height, the out-point with index 1 precedes the out-point
with index 256 in the order of `CPayoutInfo::CompareTo`, but its serialized key is not
byte-lexicographically smaller; the byte order puts index 256 first. -/
theorem UniversalBetKey_Serialize_order_counterexample :
    CPayoutInfo.CompareTo ⟨⟨7, ⟨0, 1⟩⟩, 1⟩ ⟨⟨7, ⟨0, 256⟩⟩, 1⟩ = -1
    ∧ lexLess (UniversalBetKey.Serialize Endian.little ⟨7, ⟨0, 1⟩⟩)
        (UniversalBetKey.Serialize Endian.little ⟨7, ⟨0, 256⟩⟩) = false
    ∧ lexLess (UniversalBetKey.Serialize Endian.little ⟨7, ⟨0, 256⟩⟩)
        (UniversalBetKey.Serialize Endian.little ⟨7, ⟨0, 1⟩⟩) = true := by
  decide

/-- C7, amended: the encoding of `a` is byte-lexicographically smaller than that of `b`
exactly when `a` has the smaller height, or the heights are equal and the serialized
out-point of `a` is byte-lexicographically smaller; and when the heights differ, the
byte order is the order of `CPayoutInfo::CompareTo`. -/
theorem UniversalBetKey_Serialize_order_amended (host : Endian) (a b : UniversalBetKey)
    (t : Nat) (ha : a.blockHeight < 4294967296) (hb : b.blockHeight < 4294967296) :
    (lexLess (UniversalBetKey.Serialize host a) (UniversalBetKey.Serialize host b) = true
      ↔ (a.blockHeight < b.blockHeight ∨ (a.blockHeight = b.blockHeight ∧
          lexLess (COutPoint.Serialize host a.outPoint) (COutPoint.Serialize host b.outPoint)
            = true)))
    ∧ (a.blockHeight ≠ b.blockHeight →
        (CPayoutInfo.CompareTo ⟨a, t⟩ ⟨b, t⟩ = -1
          ↔ lexLess (UniversalBetKey.Serialize host a) (UniversalBetKey.Serialize host b)
              = true)) := by
  refine ⟨UniversalBetKey_lexLess host a b ha hb, ?_⟩
  intro hne
  rw [UniversalBetKey_lexLess host a b ha hb]
  by_cases hlt : a.blockHeight < b.blockHeight
  · simp [CPayoutInfo.CompareTo, hlt]
  · have hgt : a.blockHeight > b.blockHeight := by omega
    have hgt2 : ¬ (a.blockHeight = b.blockHeight) := by omega
    simp [CPayoutInfo.CompareTo, hlt, hgt, hgt2]

/-- C7 amended, at heights 7 and 8. -/
theorem UniversalBetKey_Serialize_order_amended_witness :
    CPayoutInfo.CompareTo ⟨⟨7, ⟨0, 256⟩⟩, 1⟩ ⟨⟨8, ⟨0, 1⟩⟩, 1⟩ = -1
    ∧ lexLess (UniversalBetKey.Serialize Endian.little ⟨7, ⟨0, 256⟩⟩)
        (UniversalBetKey.Serialize Endian.little ⟨8, ⟨0, 1⟩⟩) = true :=
  ⟨by decide,
    ((UniversalBetKey_Serialize_order_amended Endian.little ⟨7, ⟨0, 256⟩⟩ ⟨8, ⟨0, 1⟩⟩ 1
      (by decide) (by decide)).2 (by decide)).mp (by decide)⟩

/-! ## Host independence of the key codec -/

theorem readData_append (host : Endian) (n : Nat) (bs rest : ByteVector) (h : bs.length = n) :
    readData host n (bs ++ rest) = some (memValue host bs, rest) := by
  have hlen : ¬ (bs ++ rest).length < n := by
    rw [List.length_append]
    omega
  simp only [readData, hlen, if_false, List.take_left' h, List.drop_left' h]

theorem ntohl_memValue_be4 (host : Endian) (x : Nat) :
    ntohl host (memValue host (leBytes 4 x).reverse) = x % 4294967296 := by
  have hlt : ∀ b ∈ (leBytes 4 x).reverse, b < 256 := by
    intro b hb
    exact leBytes_lt 4 x b (List.mem_reverse.mp hb)
  cases host
  · have h := leBytes_leValue (leBytes 4 x).reverse hlt
    rw [List.length_reverse, leBytes_length] at h
    simp only [ntohl, htonl, memValue]
    rw [h, List.reverse_reverse, leValue_leBytes]
    norm_num
  · simp only [ntohl, htonl, memValue]
    rw [List.reverse_reverse, leValue_leBytes]
    norm_num

theorem EventKey_Unserialize_Serialize (w r : Endian) (e : EventKey)
    (he : e.eventId < 4294967296) :
    EventKey.Unserialize r (EventKey.Serialize w e) = some (e, []) := by
  have h := readData_append r 4 (leBytes 4 e.eventId).reverse [] (be4_length _)
  rw [List.append_nil] at h
  simp only [EventKey.Unserialize, EventKey.Serialize, writeData_htonl, h, ntohl_memValue_be4,
    Nat.mod_eq_of_lt he]

theorem MappingKey_Unserialize_Serialize (w r : Endian) (m : MappingKey)
    (h1 : m.nMType < 4294967296) (h2 : m.nId < 4294967296) :
    MappingKey.Unserialize r (MappingKey.Serialize w m) = some (m, []) := by
  have ha := readData_append r 4 (leBytes 4 m.nMType).reverse (leBytes 4 m.nId).reverse
    (be4_length _)
  have hb := readData_append r 4 (leBytes 4 m.nId).reverse [] (be4_length _)
  rw [List.append_nil] at hb
  simp only [MappingKey.Unserialize, MappingKey_bytes, ha, hb, ntohl_memValue_be4,
    Nat.mod_eq_of_lt h1, Nat.mod_eq_of_lt h2]

theorem UniversalBetKey_Unserialize_height (w r : Endian) (u : UniversalBetKey)
    (hu : u.blockHeight < 4294967296) :
    (UniversalBetKey.Unserialize r (UniversalBetKey.Serialize w u)).map
      (fun p => p.1.blockHeight) = some u.blockHeight := by
  have ha := readData_append r 4 (leBytes 4 u.blockHeight).reverse
    (COutPoint.Serialize w u.outPoint) (be4_length _)
  have hlen : (writeData w 4 u.outPoint.n).length = 4 := by
    cases w <;> simp [writeData, memBytes, leBytes_length]
  have hb := readData_append r 4 (writeData w 4 u.outPoint.n) [] hlen
  rw [List.append_nil] at hb
  have hc : COutPoint.Unserialize r (COutPoint.Serialize w u.outPoint)
      = some ({ hash := leValue (leBytes 32 u.outPoint.hash),
                n := memValue r (writeData w 4 u.outPoint.n) }, []) := by
    have h32 : (leBytes 32 u.outPoint.hash).length = 32 := leBytes_length _ _
    have hnl : ¬ (leBytes 32 u.outPoint.hash ++ writeData w 4 u.outPoint.n).length < 32 := by
      rw [List.length_append, h32]
      omega
    simp only [COutPoint.Unserialize, COutPoint.Serialize, hnl, if_false,
      List.drop_left' h32, List.take_left' h32, hb]
  simp only [UniversalBetKey.Unserialize, UniversalBetKey_bytes, ha, hc, ntohl_memValue_be4,
    Nat.mod_eq_of_lt hu, Option.map_some']

/-- C8: the bytes produced for `EventKey`, `MappingKey` and the height field of
`UniversalBetKey` are the same on a little-endian and on a big-endian host, and decoding
them on either host, whichever host wrote them, returns the original key (for
`UniversalBetKey`, the original height). -/
theorem key_codec_host_independent (e : EventKey) (m : MappingKey) (u : UniversalBetKey)
    (he : e.eventId < 4294967296) (hm1 : m.nMType < 4294967296) (hm2 : m.nId < 4294967296)
    (hu : u.blockHeight < 4294967296) :
    EventKey.Serialize Endian.little e = EventKey.Serialize Endian.big e
    ∧ MappingKey.Serialize Endian.little m = MappingKey.Serialize Endian.big m
    ∧ (UniversalBetKey.Serialize Endian.little u).take 4
        = (UniversalBetKey.Serialize Endian.big u).take 4
    ∧ (∀ w r : Endian, EventKey.Unserialize r (EventKey.Serialize w e) = some (e, []))
    ∧ (∀ w r : Endian, MappingKey.Unserialize r (MappingKey.Serialize w m) = some (m, []))
    ∧ (∀ w r : Endian, (UniversalBetKey.Unserialize r (UniversalBetKey.Serialize w u)).map
        (fun p => p.1.blockHeight) = some u.blockHeight) := by
  refine ⟨?_, ?_, ?_, ?_, ?_, ?_⟩
  · simp only [EventKey.Serialize, writeData_htonl]
  · simp only [MappingKey_bytes]
  · simp only [UniversalBetKey_bytes, List.take_left' (be4_length _)]
  · intro w r
    exact EventKey_Unserialize_Serialize w r e he
  · intro w r
    exact MappingKey_Unserialize_Serialize w r m hm1 hm2
  · intro w r
    exact UniversalBetKey_Unserialize_height w r u hu

/-- C8 at concrete keys: written on a big-endian host, read on a little-endian one. -/
theorem key_codec_host_independent_witness :
    EventKey.Serialize Endian.little ⟨258⟩ = EventKey.Serialize Endian.big ⟨258⟩
    ∧ EventKey.Unserialize Endian.little (EventKey.Serialize Endian.big ⟨258⟩)
        = some (⟨258⟩, []) :=
  ⟨(key_codec_host_independent ⟨258⟩ ⟨2, 70000⟩ ⟨9, ⟨1, 2⟩⟩
      (by decide) (by decide) (by decide) (by decide)).1,
    (key_codec_host_independent ⟨258⟩ ⟨2, 70000⟩ ⟨9, ⟨1, 2⟩⟩
      (by decide) (by decide) (by decide) (by decide)).2.2.2.1 Endian.big Endian.little⟩

/-! ## Round trips of the stream codecs -/

theorem memValue_memBytes (host : Endian) (n x : Nat) (h : x < 256 ^ n) :
    memValue host (memBytes host n x) = x := by
  cases host
  · simp only [memValue, memBytes, leValue_leBytes, Nat.mod_eq_of_lt h]
  · simp only [memValue, memBytes, List.reverse_reverse, leValue_leBytes, Nat.mod_eq_of_lt h]

theorem memBytes_length (host : Endian) (n x : Nat) : (memBytes host n x).length = n := by
  cases host
  · simp only [memBytes, leBytes_length]
  · simp only [memBytes, List.length_reverse, leBytes_length]

theorem readData_writeData (host : Endian) (n x : Nat) (rest : ByteVector) (h : x < 256 ^ n) :
    readData host n (writeData host n x ++ rest) = some (x, rest) := by
  rw [writeData, readData_append host n _ rest (memBytes_length host n x),
    memValue_memBytes host n x h]

theorem readU32_writeU32 (host : Endian) (x : Nat) (rest : ByteVector) (h : x < 4294967296) :
    readU32 host (writeU32 host x ++ rest) = some (x, rest) :=
  readData_writeData host 4 x rest (by norm_num; exact h)

theorem readU64_writeU64 (host : Endian) (x : Nat) (rest : ByteVector)
    (h : x < 18446744073709551616) :
    readU64 host (writeU64 host x ++ rest) = some (x, rest) :=
  readData_writeData host 8 x rest (by norm_num; exact h)

theorem ofU32_toU32 (x : Int) (h1 : -2147483648 ≤ x) (h2 : x < 2147483648) :
    ofU32 (toU32 x) = x := by
  unfold ofU32 toU32
  split <;> omega

theorem toU32_lt (x : Int) : toU32 x < 4294967296 := by
  unfold toU32
  omega

theorem readI32_writeI32 (host : Endian) (x : Int) (rest : ByteVector)
    (h1 : -2147483648 ≤ x) (h2 : x < 2147483648) :
    readI32 host (writeI32 host x ++ rest) = some (x, rest) := by
  have h := readData_writeData host 4 (toU32 x) rest (by norm_num; exact toU32_lt x)
  simp only [readI32, writeI32, h, ofU32_toU32 x h1 h2]

theorem readBool_writeBool (b : Bool) (rest : ByteVector) :
    readBool (writeBool b ++ rest) = some (b, rest) := by
  cases b <;> simp [readBool, writeBool]

theorem ReadCompactSize_WriteCompactSize (host : Endian) (n : Nat) (rest : ByteVector)
    (h : n ≤ MAX_SIZE) :
    ReadCompactSize host (WriteCompactSize host n ++ rest) = some (n, rest) := by
  unfold MAX_SIZE at h
  by_cases h1 : n < 253
  · have hr := readData_writeData host 1 n rest (by omega)
    have hm : ¬ n > MAX_SIZE := by unfold MAX_SIZE; omega
    simp only [WriteCompactSize, ReadCompactSize, h1, if_true, hr, hm, if_false]
  · by_cases h2 : n ≤ 65535
    · have hr := readData_writeData host 1 253 (writeData host 2 n ++ rest) (by norm_num)
      have hr2 := readData_writeData host 2 n rest (by norm_num; omega)
      have hm : ¬ n > MAX_SIZE := by unfold MAX_SIZE; omega
      simp [WriteCompactSize, ReadCompactSize, h1, h2, hr, hr2, hm]
    · have h3 : n ≤ 4294967295 := by omega
      have hr := readData_writeData host 1 254 (writeData host 4 n ++ rest) (by norm_num)
      have hr2 := readData_writeData host 4 n rest (by norm_num; omega)
      have hm : ¬ n > MAX_SIZE := by unfold MAX_SIZE; omega
      have h4 : ¬ n < 65536 := by omega
      simp [WriteCompactSize, ReadCompactSize, h1, h2, h3, h4, hr, hr2, hm]

theorem readString_writeString (host : Endian) (str rest : ByteVector)
    (h : str.length ≤ MAX_SIZE) :
    readString host (writeString host str ++ rest) = some (str, rest) := by
  have hc := ReadCompactSize_WriteCompactSize host str.length (str ++ rest) h
  simp only [readString, writeString, List.append_assoc, hc]
  have hl : ¬ (str ++ rest).length < str.length := by
    rw [List.length_append]
    omega
  simp only [hl, if_false, List.take_left' rfl, List.drop_left' rfl]

theorem readElements_writeElements {T : Type} (readOne : ByteVector → Option (T × ByteVector))
    (writeOne : T → ByteVector) (v : List T) (rest : ByteVector)
    (h : ∀ x ∈ v, ∀ tail : ByteVector, readOne (writeOne x ++ tail) = some (x, tail)) :
    readElements readOne v.length (writeElements writeOne v ++ rest) = some (v, rest) := by
  induction v with
  | nil => rfl
  | cons x xs ih =>
    have hx := h x (List.mem_cons_self _ _) (writeElements writeOne xs ++ rest)
    have hxs := ih (fun y hy tail => h y (List.mem_cons_of_mem _ hy) tail)
    simp only [List.length_cons, readElements, writeElements, List.append_assoc, hx, hxs]

theorem readVector_writeVector {T : Type} (host : Endian)
    (readOne : ByteVector → Option (T × ByteVector)) (writeOne : T → ByteVector)
    (v : List T) (rest : ByteVector) (hlen : v.length ≤ MAX_SIZE)
    (h : ∀ x ∈ v, ∀ tail : ByteVector, readOne (writeOne x ++ tail) = some (x, tail)) :
    readVector host readOne (writeVector host writeOne v ++ rest) = some (v, rest) := by
  have hc := ReadCompactSize_WriteCompactSize host v.length
    (writeElements writeOne v ++ rest) hlen
  simp only [readVector, writeVector, List.append_assoc, hc,
    readElements_writeElements readOne writeOne v rest h]

theorem CMapping_Unserialize_Serialize (host : Endian) (m : CMapping) (rest : ByteVector)
    (hr : m.InRange) (hn : m.sName.length ≤ MAX_SIZE) :
    CMapping.Unserialize host (CMapping.Serialize host m ++ rest) = some (m, rest) := by
  obtain ⟨h1, h2⟩ := hr
  simp [CMapping.Unserialize, CMapping.Serialize, List.append_assoc,
    readU32_writeU32, h1, h2, readString_writeString, hn]

theorem CPeerlessResult_Unserialize_Serialize (host : Endian) (r : CPeerlessResult)
    (rest : ByteVector) (hr : r.InRange) :
    CPeerlessResult.Unserialize host (CPeerlessResult.Serialize host r ++ rest)
      = some (r, rest) := by
  obtain ⟨h1, h2, h3, h4⟩ := hr
  simp [CPeerlessResult.Unserialize, CPeerlessResult.Serialize, List.append_assoc,
    readU32_writeU32, h1, h2, h3, h4]

theorem CPeerlessEvent_Unserialize_Serialize (host : Endian) (params : CChainParams)
    (e : CPeerlessEvent) (rest : ByteVector) (hr : e.InRange) :
    CPeerlessEvent.Unserialize host params (CPeerlessEvent.Serialize host params e ++ rest)
      = some (if e.nEventCreationHeight < params.WagerrProtocolV3StartHeight then e
              else { e with fLegacyInitialHomeFavorite := true }, rest) := by
  cases e
  simp only [CPeerlessEvent.InRange] at hr
  obtain ⟨h1, h2, h3, h4, h5, h6, h7, h8, h9, h10, ⟨h11a, h11b⟩, h12, h13, h14, h15, h16, h17,
    h18, h19, h20, h21, h22, h23, h24, h25, h26, h27, h28, h29, h30, h31, h32, h33, h34,
    hca, hcb⟩ := hr
  simp only [CPeerlessEvent.Unserialize, CPeerlessEvent.Serialize, List.append_assoc,
    bind, Option.bind, CPeerlessEvent.readNat, CPeerlessEvent.readInt,
    readU32_writeU32, readU64_writeU64, readI32_writeI32,
    h1, h2, h3, h4, h5, h6, h7, h8, h9, h10, h11a, h11b, h12, h13, h14, h15, h16, h17, h18,
    h19, h20, h21, h22, h23, h24, h25, h26, h27, h28, h29, h30, h31, h32, h33, h34, hca,
    hcb]
  simp only [CPeerlessEvent.readLegacyFlag]
  split
  · simp only [readBool_writeBool]
  · simp only [List.nil_append]

theorem CBettingUndo_Unserialize_Serialize (host : Endian) (params : CChainParams)
    (u : CBettingUndo) (rest : ByteVector) (hr : u.InRange) (hb : u.ReadsBack params) :
    CBettingUndo.Unserialize host params (CBettingUndo.Serialize host params u ++ rest)
      = some (u, rest) := by
  obtain ⟨height, variant⟩ := u
  obtain ⟨hh, hv⟩ := hr
  cases variant with
  | mapping m =>
    have hm := CMapping_Unserialize_Serialize host m rest hv hb
    simp [CBettingUndo.Unserialize, CBettingUndo.Serialize, BettingUndoVariant.which,
      List.append_assoc, readU32_writeU32, hh, readI32_writeI32, hm]
  | event e =>
    have he := CPeerlessEvent_Unserialize_Serialize host params e rest hv
    have hfix : (if e.nEventCreationHeight < params.WagerrProtocolV3StartHeight then e
        else { e with fLegacyInitialHomeFavorite := true }) = e := by
      simp only [CBettingUndo.ReadsBack] at hb
      rcases hb with hlt | hflag
      · simp only [hlt, if_true]
      · split
        · rfl
        · cases e
          simp only at hflag
          simp only [hflag]
    rw [hfix] at he
    simp [CBettingUndo.Unserialize, CBettingUndo.Serialize, BettingUndoVariant.which,
      List.append_assoc, readU32_writeU32, hh, readI32_writeI32, he]
  | result r =>
    have hres := CPeerlessResult_Unserialize_Serialize host r rest hv
    simp [CBettingUndo.Unserialize, CBettingUndo.Serialize, BettingUndoVariant.which,
      List.append_assoc, readU32_writeU32, hh, readI32_writeI32, hres]

theorem BytesToDbType_undo_vector (host : Endian) (params : CChainParams)
    (vUndos : List CBettingUndo) (hlen : vUndos.length ≤ MAX_SIZE)
    (hok : ∀ u ∈ vUndos, u.InRange ∧ u.ReadsBack params) :
    BytesToDbType (CBettingUndo.vectorDbType host params)
      (DbTypeToBytes (CBettingUndo.vectorDbType host params) vUndos) = Except.ok vUndos := by
  have h := readVector_writeVector host (CBettingUndo.Unserialize host params)
    (CBettingUndo.Serialize host params) vUndos [] hlen
    (fun u hu tail => CBettingUndo_Unserialize_Serialize host params u tail (hok u hu).1
      (hok u hu).2)
  rw [List.append_nil] at h
  simp [BytesToDbType, DbTypeToBytes, CBettingUndo.vectorDbType, h]

/-! ## The undo log -/

theorem CBettingsView.GetBettingUndo_of_stored (host : Endian) (params : CChainParams)
    (view : CBettingsView) (key : BettingUndoKey) (vUndos : List CBettingUndo)
    (hlen : vUndos.length ≤ MAX_SIZE) (hok : ∀ u ∈ vUndos, u.InRange ∧ u.ReadsBack params)
    (hst : view.undos.GetDb.Read (DbTypeToBytes BettingUndoKey.dbType key)
      = some (DbTypeToBytes (CBettingUndo.vectorDbType host params) vUndos)) :
    view.GetBettingUndo host params key = Except.ok vUndos := by
  simp only [CBettingsView.GetBettingUndo, CBettingDB.Read, hst,
    BytesToDbType_undo_vector host params vUndos hlen hok]

theorem CBettingsView.GetBettingUndo_of_absent (host : Endian) (params : CChainParams)
    (view : CBettingsView) (key : BettingUndoKey)
    (hex : view.undos.Exists BettingUndoKey.dbType key = false) :
    view.GetBettingUndo host params key = Except.ok [] := by
  simp only [CBettingDB.Exists, CFlushableStorageKV.Exists, CStorageKV.Exists_eq_isSome] at hex
  have hr : view.undos.GetDb.Read (DbTypeToBytes BettingUndoKey.dbType key) = none := by
    simp only [CFlushableStorageKV.Read]
    cases hx : view.undos.GetDb.toStorage.Read (DbTypeToBytes BettingUndoKey.dbType key) with
    | none => rfl
    | some v => simp [hx] at hex
  simp only [CBettingsView.GetBettingUndo, CBettingDB.Read, hr]

theorem CBettingsView.SaveBettingUndo_of_exists (host : Endian) (params : CChainParams)
    (view : CBettingsView) (key : BettingUndoKey) (vUndos : List CBettingUndo)
    (hex : view.undos.Exists BettingUndoKey.dbType key = true) :
    view.SaveBettingUndo host params key vUndos = Except.error Fault.assertion := by
  simp only [CBettingsView.SaveBettingUndo, hex, if_true]

theorem CBettingsView.SaveBettingUndo_of_absent (host : Endian) (params : CChainParams)
    (view : CBettingsView) (key : BettingUndoKey) (vUndos : List CBettingUndo)
    (hex : view.undos.Exists BettingUndoKey.dbType key = false) :
    view.SaveBettingUndo host params key vUndos
      = Except.ok (true, { view with undos := (view.undos.Write BettingUndoKey.dbType
          (CBettingUndo.vectorDbType host params) key vUndos).2 }) := by
  have hw := CBettingDB.Write_of_absent BettingUndoKey.dbType
    (CBettingUndo.vectorDbType host params) view.undos key vUndos hex
  simp only [CBettingsView.SaveBettingUndo, hex, hw]
  simp

theorem CBettingDB.Read_after_Write_absent {K V : Type} (kc : DbType K) (vc : DbType V)
    (bdb : CBettingDB) (key : K) (value : V) (hex : bdb.Exists kc key = false) :
    (bdb.Write kc vc key value).2.GetDb.Read (DbTypeToBytes kc key)
      = some (DbTypeToBytes vc value) := by
  rw [CBettingDB.Write_of_absent kc vc bdb key value hex]
  exact CFlushableStorageKV.Read_Write _ _ _

/-- C9: when the block id already has an undo entry, `SaveBettingUndo` ends in the
failed assertion, and the write behind the assertion would itself refuse and leave the
table as it was; when the block id has no entry, `SaveBettingUndo` returns true and the
table holds the serialized list under that id, after which a further save for the same
id ends in the failed assertion. -/
theorem CBettingsView.SaveBettingUndo_at_most_once (host : Endian) (params : CChainParams)
    (view : CBettingsView) (key : BettingUndoKey) (vUndos vAgain : List CBettingUndo) :
    (view.undos.Exists BettingUndoKey.dbType key = true →
      view.SaveBettingUndo host params key vUndos = Except.error Fault.assertion
      ∧ view.undos.Write BettingUndoKey.dbType (CBettingUndo.vectorDbType host params)
          key vUndos = (false, view.undos))
    ∧ (view.undos.Exists BettingUndoKey.dbType key = false →
      view.SaveBettingUndo host params key vUndos
        = Except.ok (true, { view with undos := (view.undos.Write BettingUndoKey.dbType
            (CBettingUndo.vectorDbType host params) key vUndos).2 })
      ∧ (view.undos.Write BettingUndoKey.dbType (CBettingUndo.vectorDbType host params)
          key vUndos).2.GetDb.Read (DbTypeToBytes BettingUndoKey.dbType key)
          = some (DbTypeToBytes (CBettingUndo.vectorDbType host params) vUndos)
      ∧ CBettingsView.SaveBettingUndo host params
          { view with undos := (view.undos.Write BettingUndoKey.dbType
            (CBettingUndo.vectorDbType host params) key vUndos).2 } key vAgain
          = Except.error Fault.assertion) := by
  constructor
  · intro hex
    exact ⟨CBettingsView.SaveBettingUndo_of_exists host params view key vUndos hex,
      CBettingDB.Write_of_exists _ _ _ _ _ hex⟩
  · intro hex
    refine ⟨CBettingsView.SaveBettingUndo_of_absent host params view key vUndos hex,
      CBettingDB.Read_after_Write_absent _ _ _ _ _ hex, ?_⟩
    exact CBettingsView.SaveBettingUndo_of_exists host params _ key vAgain
      (CBettingDB.Exists_after_Write BettingUndoKey.dbType
        (CBettingUndo.vectorDbType host params) view.undos key vUndos)

/-- C9 on the empty sample view: the first save for block id 5 is accepted, the second
one ends in the failed assertion. -/
theorem CBettingsView.SaveBettingUndo_at_most_once_witness :
    sampleView.undos.Exists BettingUndoKey.dbType 5 = false
    ∧ CBettingsView.SaveBettingUndo Endian.little sampleParams
        { sampleView with undos := (sampleView.undos.Write BettingUndoKey.dbType
          (CBettingUndo.vectorDbType Endian.little sampleParams) 5 sampleUndos).2 }
        5 sampleLateUndos = Except.error Fault.assertion :=
  ⟨by decide,
    ((CBettingsView.SaveBettingUndo_at_most_once Endian.little sampleParams sampleView 5
      sampleUndos sampleLateUndos).2 (by decide)).2.2⟩

set_option maxRecDepth 100000 in
/-- C10 fails as stated: an event record created at or above the protocol-V3 start
height with the legacy flag off is saved without the flag, and `GetBettingUndo` returns
it with the flag on, a list different from the one given to `SaveBettingUndo`. -/
theorem CBettingsView.GetBettingUndo_counterexample :
    (CBettingsView.SaveBettingUndo Endian.little sampleParams sampleView 5 sampleLateUndos
        >>= fun saved => CBettingsView.GetBettingUndo Endian.little sampleParams saved.2 5)
      = Except.ok sampleLateUndosRead
    ∧ sampleLateUndosRead ≠ sampleLateUndos := by
  constructor
  · rfl
  · intro h
    simp [sampleLateUndosRead, sampleLateUndos] at h

/-- C10, amended: for a record list of at most `MAX_SIZE` records whose numbers fit
their types, whose mapping names have at most `MAX_SIZE` characters and whose events each
have a creation height below the protocol-V3 start height or the legacy flag on,
`GetBettingUndo` returns exactly that list (same records, same order, same heights) in
every state that holds the entry written by `SaveBettingUndo`, in particular right after
the successful save; and `GetBettingUndo` returns the empty list for an id without entry. -/
theorem CBettingsView.GetBettingUndo_after_Save (host : Endian) (params : CChainParams)
    (view : CBettingsView) (key : BettingUndoKey) (vUndos : List CBettingUndo)
    (hlen : vUndos.length ≤ MAX_SIZE) (hok : ∀ u ∈ vUndos, u.InRange ∧ u.ReadsBack params) :
    (∀ later : CBettingsView,
      later.undos.GetDb.Read (DbTypeToBytes BettingUndoKey.dbType key)
        = some (DbTypeToBytes (CBettingUndo.vectorDbType host params) vUndos) →
      later.GetBettingUndo host params key = Except.ok vUndos)
    ∧ (view.undos.Exists BettingUndoKey.dbType key = false →
      view.GetBettingUndo host params key = Except.ok []
      ∧ ∃ saved : CBettingsView,
          view.SaveBettingUndo host params key vUndos = Except.ok (true, saved)
          ∧ saved.GetBettingUndo host params key = Except.ok vUndos) := by
  constructor
  · intro later hst
    exact CBettingsView.GetBettingUndo_of_stored host params later key vUndos hlen hok hst
  · intro hex
    refine ⟨CBettingsView.GetBettingUndo_of_absent host params view key hex, ?_⟩
    exact ⟨_, CBettingsView.SaveBettingUndo_of_absent host params view key vUndos hex,
      CBettingsView.GetBettingUndo_of_stored host params _ key vUndos hlen hok
        (CBettingDB.Read_after_Write_absent _ _ _ _ _ hex)⟩

theorem sampleUndos_storable :
    ∀ u ∈ sampleUndos, u.InRange ∧ u.ReadsBack sampleParams := by
  intro u hu
  simp only [sampleUndos, List.mem_cons, List.mem_singleton, List.not_mem_nil, or_false] at hu
  rcases hu with rfl | rfl | rfl
  · simp [CBettingUndo.InRange, CBettingUndo.ReadsBack, CMapping.InRange, MAX_SIZE]
  · simp [CBettingUndo.InRange, CBettingUndo.ReadsBack, CPeerlessEvent.InRange, sampleParams]
  · simp [CBettingUndo.InRange, CBettingUndo.ReadsBack, CPeerlessResult.InRange, sampleResult]

/-- C10 amended, on the empty sample view: the list saved under block id 5, with one
record of each kind, is the list read back. -/
theorem CBettingsView.GetBettingUndo_after_Save_witness :
    (CBettingsView.SaveBettingUndo Endian.little sampleParams sampleView 5 sampleUndos
        >>= fun saved => CBettingsView.GetBettingUndo Endian.little sampleParams saved.2 5)
      = Except.ok sampleUndos
    ∧ sampleView.GetBettingUndo Endian.little sampleParams 5 = Except.ok [] := by
  have h := (CBettingsView.GetBettingUndo_after_Save Endian.little sampleParams sampleView 5
    sampleUndos (by decide) sampleUndos_storable).2 (by decide)
  obtain ⟨hempty, saved, hsave, hget⟩ := h
  refine ⟨?_, hempty⟩
  rw [hsave]
  exact hget

/-! ## Reads after writes and erases -/

theorem CFlushableStorageKV.Read_Write_other (c : CFlushableStorageKV) (k j v : ByteVector)
    (h : j ≠ k) : (c.Write k v).2.Read j = c.Read j := by
  simp [CFlushableStorageKV.Write, CFlushableStorageKV.Read, CFlushableStorageKV.toStorage,
    CStorageKV.Read, mapFind_mapAssign_other k j _ _ h]

theorem CFlushableStorageKV.Read_Erase (c : CFlushableStorageKV) (k : ByteVector) :
    (c.Erase k).2.Read k = none := by
  simp [CFlushableStorageKV.Erase, CFlushableStorageKV.Read, CFlushableStorageKV.toStorage,
    CStorageKV.Read, mapFind_mapAssign_self]

theorem CFlushableStorageKV.Read_Erase_other (c : CFlushableStorageKV) (k j : ByteVector)
    (h : j ≠ k) : (c.Erase k).2.Read j = c.Read j := by
  simp [CFlushableStorageKV.Erase, CFlushableStorageKV.Read, CFlushableStorageKV.toStorage,
    CStorageKV.Read, mapFind_mapAssign_other k j _ _ h]

theorem CFlushableStorageKV.Exists_eq_Read_isSome (c : CFlushableStorageKV) (k : ByteVector) :
    c.Exists k = (c.Read k).isSome := by
  simp only [CFlushableStorageKV.Exists, CFlushableStorageKV.Read, CStorageKV.Exists_eq_isSome]

theorem CFlushableStorageKV.Read_of_absent (c : CFlushableStorageKV) (k : ByteVector)
    (h : c.Exists k = false) : c.Read k = none := by
  rw [CFlushableStorageKV.Exists_eq_Read_isSome] at h
  cases hr : c.Read k with
  | none => rfl
  | some v => simp [hr] at h

theorem CBettingDB.Update_of_exists {K V : Type} (kc : DbType K) (vc : DbType V)
    (bdb : CBettingDB) (key : K) (value : V) (h : bdb.Exists kc key = true) :
    bdb.Update kc vc key value
      = (true, { db := (bdb.GetDb.Write (DbTypeToBytes kc key) (DbTypeToBytes vc value)).2 }) := by
  simp only [CBettingDB.Exists] at h
  simp [CBettingDB.Update, h, CFlushableStorageKV.Write]

/-- The raw bytes a table holds under a key after `Erase`: nothing under the erased key,
and what was there under every other serialized key. -/
theorem CBettingDB.Read_after_Erase {K : Type} (kc : DbType K) (bdb : CBettingDB) (key : K) :
    (bdb.Erase kc key).2.GetDb.Read (DbTypeToBytes kc key) = none
    ∧ ∀ j : ByteVector, j ≠ DbTypeToBytes kc key →
        (bdb.Erase kc key).2.GetDb.Read j = bdb.GetDb.Read j := by
  cases h : bdb.Exists kc key with
  | false =>
    rw [CBettingDB.Erase_of_absent kc bdb key h]
    exact ⟨CFlushableStorageKV.Read_of_absent _ _ h, fun _ _ => rfl⟩
  | true =>
    rw [CBettingDB.Erase_of_exists kc bdb key h]
    exact ⟨CFlushableStorageKV.Read_Erase _ _,
      fun j hj => CFlushableStorageKV.Read_Erase_other _ _ j hj⟩

theorem uint256_Serialize_injective (a b : Nat) (ha : a < 2 ^ 256) (hb : b < 2 ^ 256)
    (h : uint256.Serialize a = uint256.Serialize b) : a = b := by
  have h1 : leValue (leBytes 32 a) = leValue (leBytes 32 b) := by
    simp only [uint256.Serialize] at h
    rw [h]
  rw [leValue_leBytes, leValue_leBytes] at h1
  have e : (256 : Nat) ^ 32 = 2 ^ 256 := by norm_num
  rw [e, Nat.mod_eq_of_lt ha, Nat.mod_eq_of_lt hb] at h1
  exact h1

theorem BytesToDbType_uint32 (host : Endian) (height : Nat) (h : height < 4294967296) :
    BytesToDbType (uint32DbType host) (DbTypeToBytes (uint32DbType host) height)
      = Except.ok height := by
  have hr := readU32_writeU32 host height [] h
  rw [List.append_nil] at hr
  simp [BytesToDbType, DbTypeToBytes, uint32DbType, hr]

/-! ## The last processed height -/

theorem CBettingsView.SetLastHeight_stored (host : Endian) (view : CBettingsView)
    (height : Nat) :
    (view.SetLastHeight host height).undos.GetDb.Read
        (DbTypeToBytes (stringDbType host) lastHeightString)
      = some (DbTypeToBytes (uint32DbType host) height) := by
  cases hex : view.undos.Exists (stringDbType host) lastHeightString with
  | false =>
    simp only [CBettingsView.SetLastHeight, hex, Bool.not_false, if_true]
    exact CBettingDB.Read_after_Write_absent _ _ _ _ _ hex
  | true =>
    simp only [CBettingsView.SetLastHeight, hex, Bool.not_true, Bool.false_eq_true, if_false]
    rw [CBettingDB.Update_of_exists _ _ _ _ _ hex]
    exact CFlushableStorageKV.Read_Write _ _ _

/-- C13: after `SetLastHeight(h)` with a 32-bit `h`, `GetLastHeight()` returns `h`,
whether the scalar was absent before (first write) or present (update); and
`GetLastHeight()` returns 0 on a view whose undo table has no such scalar. -/
theorem CBettingsView.GetLastHeight_after_Set (host : Endian) (view : CBettingsView)
    (height : Nat) (h : height < 4294967296) :
    (view.SetLastHeight host height).GetLastHeight host = Except.ok height
    ∧ (view.undos.Exists (stringDbType host) lastHeightString = false →
        (view.SetLastHeight host height).undos
          = (view.undos.Write (stringDbType host) (uint32DbType host)
              lastHeightString height).2)
    ∧ (view.undos.Exists (stringDbType host) lastHeightString = true →
        (view.SetLastHeight host height).undos
          = (view.undos.Update (stringDbType host) (uint32DbType host)
              lastHeightString height).2)
    ∧ ∀ never : CBettingsView,
        never.undos.Exists (stringDbType host) lastHeightString = false →
        never.GetLastHeight host = Except.ok 0 := by
  refine ⟨?_, ?_, ?_, ?_⟩
  · simp only [CBettingsView.GetLastHeight, CBettingDB.Read,
      CBettingsView.SetLastHeight_stored host view height, BytesToDbType_uint32 host height h]
  · intro hex
    simp only [CBettingsView.SetLastHeight, hex, Bool.not_false, if_true]
  · intro hex
    simp only [CBettingsView.SetLastHeight, hex, Bool.not_true, Bool.false_eq_true, if_false]
  · intro never hex
    have hr := CFlushableStorageKV.Read_of_absent never.undos.GetDb
      (DbTypeToBytes (stringDbType host) lastHeightString) hex
    simp only [CBettingsView.GetLastHeight, CBettingDB.Read, hr]

/-- C13 on the empty sample view: a first write of 7 and then an update to 9. -/
theorem CBettingsView.GetLastHeight_after_Set_witness :
    sampleView.GetLastHeight Endian.little = Except.ok 0
    ∧ (sampleView.SetLastHeight Endian.little 7).GetLastHeight Endian.little = Except.ok 7
    ∧ ((sampleView.SetLastHeight Endian.little 7).SetLastHeight Endian.little 9).GetLastHeight
        Endian.little = Except.ok 9 :=
  ⟨(CBettingsView.GetLastHeight_after_Set Endian.little sampleView 7 (by decide)).2.2.2
      sampleView (by decide),
    (CBettingsView.GetLastHeight_after_Set Endian.little sampleView 7 (by decide)).1,
    (CBettingsView.GetLastHeight_after_Set Endian.little
      (sampleView.SetLastHeight Endian.little 7) 9 (by decide)).1⟩

/-! ## Erasing an undo entry -/

theorem CBettingsView.GetBettingUndo_of_none (host : Endian) (params : CChainParams)
    (view : CBettingsView) (key : BettingUndoKey)
    (hr : view.undos.GetDb.Read (DbTypeToBytes BettingUndoKey.dbType key) = none) :
    view.GetBettingUndo host params key = Except.ok [] := by
  simp only [CBettingsView.GetBettingUndo, CBettingDB.Read, hr]

theorem CBettingsView.GetBettingUndo_congr (host : Endian) (params : CChainParams)
    (v w : CBettingsView) (key : BettingUndoKey)
    (h : v.undos.GetDb.Read (DbTypeToBytes BettingUndoKey.dbType key)
      = w.undos.GetDb.Read (DbTypeToBytes BettingUndoKey.dbType key)) :
    v.GetBettingUndo host params key = w.GetBettingUndo host params key := by
  simp only [CBettingsView.GetBettingUndo, CBettingDB.Read, h]

/-- C11: `EraseBettingUndo(blockId)` returns true exactly when an entry for the id
exists; afterwards `GetBettingUndo(blockId)` is empty, a new `SaveBettingUndo` for that
id is accepted, every other block id holds the entry it held before (and reads back the
same through `GetBettingUndo`), and the six other tables are untouched. -/
theorem CBettingsView.EraseBettingUndo_spec (host : Endian) (params : CChainParams)
    (view : CBettingsView) (key : BettingUndoKey) (vUndos : List CBettingUndo)
    (hk : key < 2 ^ 256) :
    ((view.EraseBettingUndo key).1 = true ↔ view.undos.Exists BettingUndoKey.dbType key = true)
    ∧ (view.EraseBettingUndo key).2.GetBettingUndo host params key = Except.ok []
    ∧ (view.EraseBettingUndo key).2.SaveBettingUndo host params key vUndos
        = Except.ok (true, { (view.EraseBettingUndo key).2 with
            undos := ((view.EraseBettingUndo key).2.undos.Write BettingUndoKey.dbType
              (CBettingUndo.vectorDbType host params) key vUndos).2 })
    ∧ (∀ other : BettingUndoKey, other < 2 ^ 256 → other ≠ key →
        (view.EraseBettingUndo key).2.undos.GetDb.Read
            (DbTypeToBytes BettingUndoKey.dbType other)
          = view.undos.GetDb.Read (DbTypeToBytes BettingUndoKey.dbType other)
        ∧ (view.EraseBettingUndo key).2.GetBettingUndo host params other
          = view.GetBettingUndo host params other)
    ∧ (view.EraseBettingUndo key).2.mappings = view.mappings
    ∧ (view.EraseBettingUndo key).2.results = view.results
    ∧ (view.EraseBettingUndo key).2.events = view.events
    ∧ (view.EraseBettingUndo key).2.bets = view.bets
    ∧ (view.EraseBettingUndo key).2.payoutsInfo = view.payoutsInfo
    ∧ (view.EraseBettingUndo key).2.quickGamesBets = view.quickGamesBets := by
  have hread := CBettingDB.Read_after_Erase BettingUndoKey.dbType view.undos key
  have hafter := CBettingDB.Exists_after_Erase BettingUndoKey.dbType view.undos key
  refine ⟨?_, ?_, ?_, ?_, rfl, rfl, rfl, rfl, rfl, rfl⟩
  · cases hex : view.undos.Exists BettingUndoKey.dbType key with
    | false =>
      simp [CBettingsView.EraseBettingUndo, CBettingDB.Erase_of_absent _ _ _ hex]
    | true =>
      simp [CBettingsView.EraseBettingUndo, CBettingDB.Erase_of_exists _ _ _ hex]
  · exact CBettingsView.GetBettingUndo_of_none host params _ key hread.1
  · exact CBettingsView.SaveBettingUndo_of_absent host params _ key vUndos hafter
  · intro other ho hne
    have hb : DbTypeToBytes BettingUndoKey.dbType other
        ≠ DbTypeToBytes BettingUndoKey.dbType key := by
      intro heq
      exact hne (uint256_Serialize_injective other key ho hk heq)
    have h1 := hread.2 _ hb
    exact ⟨h1, CBettingsView.GetBettingUndo_congr host params _ _ other h1⟩

/-- C11 on the sample view after a save for block id 5: the erase returns true, and a
second erase returns false. -/
theorem CBettingsView.EraseBettingUndo_spec_witness :
    (CBettingsView.EraseBettingUndo
        { sampleView with undos := (sampleView.undos.Write BettingUndoKey.dbType
          (CBettingUndo.vectorDbType Endian.little sampleParams) 5 sampleUndos).2 } 5).1 = true
    ∧ (CBettingsView.EraseBettingUndo sampleView 5).1 = false := by
  constructor
  · exact (CBettingsView.EraseBettingUndo_spec Endian.little sampleParams _ 5 sampleUndos
      (by norm_num)).1.mpr (CBettingDB.Exists_after_Write _ _ _ _ _)
  · have h := (CBettingsView.EraseBettingUndo_spec Endian.little sampleParams sampleView 5
      sampleUndos (by norm_num)).1
    cases hb : (CBettingsView.EraseBettingUndo sampleView 5).1 with
    | false => rfl
    | true =>
      have hx := h.mp hb
      revert hx
      decide

/-! ## The variant tag of an undo record -/

/-- C14, the code at the failing input: a stored undo list whose record carries the
variant tag 9 is decoded without any failure, into a record that holds the variant of a
default-constructed `CBettingUndo`. -/
theorem CBettingUndo_unknown_tag_decodes :
    BytesToDbType (CBettingUndo.vectorDbType Endian.little sampleParams) sampleUnknownTagBytes
      = Except.ok [{ height := 1, undoVariant := BettingUndoVariant.fresh }] := by
  rfl

/-! ## Comparison of payout outputs and payout keys -/

theorem lexLess_total (x y : ByteVector) (h1 : lexLess x y = false) (h2 : lexLess y x = false) :
    x = y := by
  induction x generalizing y with
  | nil =>
    cases y with
    | nil => rfl
    | cons b bs => simp [lexLess] at h1
  | cons a as ih =>
    cases y with
    | nil => simp [lexLess] at h2
    | cons b bs =>
      simp only [lexLess, Bool.or_eq_false_iff, Bool.and_eq_false_iff, decide_eq_false_iff_not,
        decide_eq_true_eq] at h1 h2
      have hab : a = b := by omega
      subst hab
      have e1 : lexLess as bs = false := by
        rcases h1.2 with h | h
        · exact absurd rfl h
        · exact h
      have e2 : lexLess bs as = false := by
        rcases h2.2 with h | h
        · exact absurd rfl h
        · exact h
      rw [ih bs e1 e2]

theorem CBetOut_CompareTo_zero_iff (a b : CBetOut) :
    a.CompareTo b = 0
      ↔ (a.nValue = b.nValue ∧ a.scriptPubKey = b.scriptPubKey ∧ a.nEventId = b.nEventId) := by
  constructor
  · intro h
    unfold CBetOut.CompareTo at h
    split at h
    · omega
    · split at h
      · omega
      · split at h
        · omega
        · split at h
          · omega
          · split at h
            · omega
            · split at h
              · omega
              · rename_i h1 h2 h3 h4 h5 h6
                refine ⟨by omega, ?_, by omega⟩
                exact lexLess_total _ _ (by simpa using h3) (by simpa using h4)
  · rintro ⟨h1, h2, h3⟩
    simp [CBetOut.CompareTo, h1, h2, h3, lexLess_irrefl]

/-- C15: `CBetOut::CompareTo` returns 0 exactly when the two outputs agree on `nValue`,
`scriptPubKey` and `nEventId`; it never reads `nBetValue`, so outputs that agree on the
three fields compare equal under `operator==` whatever their `nBetValue` are. -/
theorem CBetOut.CompareTo_ignores_nBetValue (a b : CBetOut) :
    (a.CompareTo b = 0
      ↔ (a.nValue = b.nValue ∧ a.scriptPubKey = b.scriptPubKey ∧ a.nEventId = b.nEventId))
    ∧ (∀ v w : Int, CBetOut.CompareTo { a with nBetValue := v } { b with nBetValue := w }
        = a.CompareTo b)
    ∧ (a.nValue = b.nValue → a.scriptPubKey = b.scriptPubKey → a.nEventId = b.nEventId →
        ∀ v w : Int, CBetOut.CompareTo { a with nBetValue := v } { b with nBetValue := w } = 0
          ∧ CBetOut.eq { a with nBetValue := v } { b with nBetValue := w } = true) := by
  have hiff := CBetOut_CompareTo_zero_iff a b
  have hsame : ∀ v w : Int,
      CBetOut.CompareTo { a with nBetValue := v } { b with nBetValue := w } = a.CompareTo b := by
    intro v w
    rfl
  refine ⟨hiff, hsame, ?_⟩
  intro h1 h2 h3 v w
  have h0 : CBetOut.CompareTo { a with nBetValue := v } { b with nBetValue := w } = 0 := by
    rw [hsame]
    exact hiff.mpr ⟨h1, h2, h3⟩
  exact ⟨h0, by simp [CBetOut.eq, h0]⟩

theorem COutPoint_lt_iff (a b : COutPoint) :
    COutPoint.lt a b = true ↔ (a.hash < b.hash ∨ (a.hash = b.hash ∧ a.n < b.n)) := by
  simp [COutPoint.lt]

theorem COutPoint_ne_iff (a b : COutPoint) :
    COutPoint.ne a b = true ↔ ¬ (a.hash = b.hash ∧ a.n = b.n) := by
  simp only [COutPoint.ne, Bool.not_eq_true', Bool.and_eq_false_iff, decide_eq_false_iff_not,
    not_and_or]

theorem CPayoutInfo_CompareTo_cases (a b : CPayoutInfo)
    (ha : a.payoutType < 256) (hb : b.payoutType < 256) :
    (a.CompareTo b = -1 ∧ a.tripleLess b ∧ a ≠ b ∧ ¬ b.tripleLess a)
    ∨ (a.CompareTo b = 0 ∧ a = b ∧ ¬ a.tripleLess b ∧ ¬ b.tripleLess a)
    ∨ (a.CompareTo b = 1 ∧ b.tripleLess a ∧ a ≠ b ∧ ¬ a.tripleLess b) := by
  obtain ⟨⟨ah, ⟨ahash, an⟩⟩, atype⟩ := a
  obtain ⟨⟨bh, ⟨bhash, bn⟩⟩, btype⟩ := b
  simp only at ha hb
  simp only [CPayoutInfo.CompareTo, CPayoutInfo.tripleLess, COutPoint_lt_iff, COutPoint_ne_iff,
    CPayoutInfo.mk.injEq, UniversalBetKey.mk.injEq, COutPoint.mk.injEq, ne_eq,
    Nat.mod_eq_of_lt ha, Nat.mod_eq_of_lt hb]
  split_ifs <;> simp <;> omega

theorem CPayoutInfo_tripleLess_trans (a b c : CPayoutInfo)
    (h1 : a.tripleLess b) (h2 : b.tripleLess c) : a.tripleLess c := by
  obtain ⟨⟨ah, ⟨ahash, an⟩⟩, atype⟩ := a
  obtain ⟨⟨bh, ⟨bhash, bn⟩⟩, btype⟩ := b
  obtain ⟨⟨ch, ⟨chash, cn⟩⟩, ctype⟩ := c
  simp only [CPayoutInfo.tripleLess, COutPoint_lt_iff, COutPoint.mk.injEq] at h1 h2 ⊢
  omega

theorem CPayoutInfo_lt_iff (a b : CPayoutInfo)
    (ha : a.payoutType < 256) (hb : b.payoutType < 256) :
    a.lt b = true ↔ a.tripleLess b := by
  simp only [CPayoutInfo.lt, decide_eq_true_eq]
  rcases CPayoutInfo_CompareTo_cases a b ha hb with ⟨h, h1, _, _⟩ | ⟨h, _, h1, _⟩ | ⟨h, _, _, h1⟩
  · simp [h, h1]
  · simp [h, h1]
  · simp [h, h1]

/-- C16: for payout kinds that fit `uint8_t`, `CPayoutInfo::CompareTo` is the
lexicographic order on (block height, out-point, payout kind): it returns -1 exactly when
the triple of `a` is smaller, 0 exactly when the three fields are equal, and 1 otherwise;
`CompareTo(a, b) = -CompareTo(b, a)`; and `operator<` is irreflexive, transitive and
total, a strict total order. -/
theorem CPayoutInfo_CompareTo_lexicographic (a b c : CPayoutInfo)
    (ha : a.payoutType < 256) (hb : b.payoutType < 256) (hc : c.payoutType < 256) :
    (a.CompareTo b = -1 ↔ a.tripleLess b)
    ∧ (a.CompareTo b = 0 ↔ a = b)
    ∧ (a.CompareTo b = 1 ↔ (¬ a.tripleLess b ∧ a ≠ b))
    ∧ a.CompareTo b = - b.CompareTo a
    ∧ a.lt a = false
    ∧ (a.lt b = true → b.lt c = true → a.lt c = true)
    ∧ (a.lt b = true ∨ a = b ∨ b.lt a = true) := by
  have hab := CPayoutInfo_CompareTo_cases a b ha hb
  have hba := CPayoutInfo_CompareTo_cases b a hb ha
  have haa := CPayoutInfo_CompareTo_cases a a ha ha
  refine ⟨?_, ?_, ?_, ?_, ?_, ?_, ?_⟩
  · rcases hab with ⟨h, h1, h2, h3⟩ | ⟨h, h1, h2, h3⟩ | ⟨h, h1, h2, h3⟩ <;>
      refine ⟨fun x => ?_, fun x => ?_⟩ <;> first | omega | tauto
  · rcases hab with ⟨h, h1, h2, h3⟩ | ⟨h, h1, h2, h3⟩ | ⟨h, h1, h2, h3⟩ <;>
      refine ⟨fun x => ?_, fun x => ?_⟩ <;> first | omega | tauto
  · rcases hab with ⟨h, h1, h2, h3⟩ | ⟨h, h1, h2, h3⟩ | ⟨h, h1, h2, h3⟩ <;>
      refine ⟨fun x => ?_, fun x => ?_⟩ <;> first | omega | tauto
  · rcases hab with ⟨h, h1, h2, h3⟩ | ⟨h, h1, h2, h3⟩ | ⟨h, h1, h2, h3⟩ <;>
      rcases hba with ⟨g, g1, g2, g3⟩ | ⟨g, g1, g2, g3⟩ | ⟨g, g1, g2, g3⟩ <;>
      first | omega | tauto
  · rcases haa with ⟨_, _, h1, _⟩ | ⟨h, _, _, _⟩ | ⟨_, _, h1, _⟩
    · exact absurd rfl h1
    · simp [CPayoutInfo.lt, h]
    · exact absurd rfl h1
  · intro h1 h2
    rw [CPayoutInfo_lt_iff a b ha hb] at h1
    rw [CPayoutInfo_lt_iff b c hb hc] at h2
    rw [CPayoutInfo_lt_iff a c ha hc]
    exact CPayoutInfo_tripleLess_trans a b c h1 h2
  · rw [CPayoutInfo_lt_iff a b ha hb, CPayoutInfo_lt_iff b a hb ha]
    rcases hab with ⟨_, h1, _, _⟩ | ⟨_, h1, _, _⟩ | ⟨_, h1, _, _⟩
    · exact Or.inl h1
    · exact Or.inr (Or.inl h1)
    · exact Or.inr (Or.inr h1)

/-- C16 at two payout records of one bet that differ in the payout kind only. -/
theorem CPayoutInfo_CompareTo_lexicographic_witness :
    CPayoutInfo.CompareTo ⟨⟨7, ⟨3, 1⟩⟩, 1⟩ ⟨⟨7, ⟨3, 1⟩⟩, 2⟩ = -1
    ∧ CPayoutInfo.CompareTo ⟨⟨7, ⟨3, 1⟩⟩, 2⟩ ⟨⟨7, ⟨3, 1⟩⟩, 1⟩ = 1 := by
  have h := CPayoutInfo_CompareTo_lexicographic ⟨⟨7, ⟨3, 1⟩⟩, 1⟩ ⟨⟨7, ⟨3, 1⟩⟩, 2⟩
    ⟨⟨7, ⟨3, 1⟩⟩, 2⟩ (by decide) (by decide) (by decide)
  refine ⟨h.1.mpr ?_, ?_⟩
  · simp [CPayoutInfo.tripleLess]
  · have h4 := h.2.2.2.1
    rw [h.1.mpr (by simp [CPayoutInfo.tripleLess])] at h4
    omega

/-! ## The payout engine -/

/-- C19: for every positive stake and every odds above zero, `CalculatePayoutBurnAmounts`
succeeds with gross = stake * odds / 10000, burn = gross * 60 / 1000 (integer divisions)
and the payout to the bettor gross - burn; a stake of 100 at odds 15000 gives gross 150,
burn 9 and payout 141. -/
theorem CalculatePayoutBurnAmounts_spec (betAmount : Int) (odds : Nat)
    (hs : 0 < betAmount) (ho : 0 < odds) :
    CalculatePayoutBurnAmounts betAmount odds
      = some (betAmount * odds / 10000 - betAmount * odds / 10000 * 60 / 1000,
              betAmount * odds / 10000 * 60 / 1000)
    ∧ 0 ≤ betAmount * odds / 10000 * 60 / 1000
    ∧ betAmount * odds / 10000 * 60 / 1000 ≤ betAmount * odds / 10000
    ∧ (100 : Int) * (15000 : Nat) / 10000 = 150
    ∧ CalculatePayoutBurnAmounts 100 15000 = some (141, 9) := by
  have h1 : ¬ (odds = 0 ∨ betAmount ≤ 0) := by omega
  have hg : 0 ≤ betAmount * odds / 10000 := by
    apply Int.ediv_nonneg
    · positivity
    · norm_num
  refine ⟨?_, ?_, ?_, by decide, by decide⟩
  · simp only [CalculatePayoutBurnAmounts, h1, if_false, BET_ODDSDIVISOR, BET_BURNXPERMILLE]
  · omega
  · omega

/-- C19 at the stake 100 and the odds 15000. -/
theorem CalculatePayoutBurnAmounts_spec_witness :
    CalculatePayoutBurnAmounts 100 15000 = some (141, 9) :=
  (CalculatePayoutBurnAmounts_spec 100 15000 (by decide) (by decide)).2.2.2.2

theorem CBetOut_eq_iff_compared (a b : CBetOut) :
    a.eq b = true ↔ a.compared = b.compared := by
  simp only [CBetOut.eq, decide_eq_true_eq, CBetOut_CompareTo_zero_iff, CBetOut.compared,
    ComparedFields.mk.injEq]

theorem takeExpected_compared (o : CBetOut) (expected : List CBetOut)
    (h : o.compared ∈ expected.map CBetOut.compared) :
    ∃ left, takeExpected o expected = some left
      ∧ left.map CBetOut.compared = (expected.map CBetOut.compared).erase o.compared := by
  induction expected with
  | nil => simp at h
  | cons e rest ih =>
    by_cases he : e.eq o = true
    · have hk := (CBetOut_eq_iff_compared e o).mp he
      refine ⟨rest, by simp [takeExpected, he], ?_⟩
      simp [List.map_cons, hk]
    · have hk : ¬ e.compared = o.compared := fun hk => he ((CBetOut_eq_iff_compared e o).mpr hk)
      have hmem : o.compared ∈ rest.map CBetOut.compared := by
        simp only [List.map_cons, List.mem_cons] at h
        rcases h with h | h
        · exact absurd h.symm hk
        · exact h
      obtain ⟨left, hl, hm⟩ := ih hmem
      refine ⟨e :: left, by simp [takeExpected, he, hl], ?_⟩
      simp only [List.map_cons, hm]
      rw [List.erase_cons_tail]
      simpa using hk

theorem matchOutputs_of_perm (outs expected : List CBetOut)
    (h : List.Perm (outs.map CBetOut.compared) (expected.map CBetOut.compared)) :
    matchOutputs outs expected = some [] := by
  induction outs generalizing expected with
  | nil =>
    have : expected = [] := by
      have h2 := h.length_eq
      simpa using h2.symm
    simp [matchOutputs, this]
  | cons o outs ih =>
    have hmem : o.compared ∈ expected.map CBetOut.compared :=
      h.subset (by simp)
    obtain ⟨left, hl, hm⟩ := takeExpected_compared o expected hmem
    have hp : List.Perm (outs.map CBetOut.compared) (left.map CBetOut.compared) := by
      rw [hm]
      have h2 := h.erase o.compared
      rw [List.map_cons, List.erase_cons_head] at h2
      exact h2
    simp only [matchOutputs, hl]
    exact ih left hp

theorem takeExpected_totalValue (o : CBetOut) (expected left : List CBetOut)
    (h : takeExpected o expected = some left) :
    totalValue expected = o.nValue + totalValue left := by
  induction expected generalizing left with
  | nil => simp [takeExpected] at h
  | cons e rest ih =>
    by_cases he : e.eq o = true
    · have hk := (CBetOut_eq_iff_compared e o).mp he
      simp only [CBetOut.compared, ComparedFields.mk.injEq] at hk
      simp only [takeExpected, he, if_true, Option.some.injEq] at h
      subst h
      simp [totalValue, hk.1]
    · simp only [takeExpected, he] at h
      cases hr : takeExpected o rest with
      | none => simp [hr] at h
      | some l2 =>
        simp only [hr, Bool.false_eq_true, if_false, Option.some.injEq] at h
        subst h
        have := ih l2 hr
        simp only [totalValue, List.map_cons, List.sum_cons] at this ⊢
        omega

theorem matchOutputs_totalValue (outs expected left : List CBetOut)
    (h : matchOutputs outs expected = some left) :
    totalValue expected = totalValue outs + totalValue left := by
  induction outs generalizing expected with
  | nil =>
    simp only [matchOutputs, Option.some.injEq] at h
    subst h
    simp [totalValue]
  | cons o outs ih =>
    cases hr : takeExpected o expected with
    | none => simp [matchOutputs, hr] at h
    | some l2 =>
      simp only [matchOutputs, hr] at h
      have h1 := takeExpected_totalValue o expected l2 hr
      have h2 := ih l2 h
      simp only [totalValue, List.map_cons, List.sum_cons] at h1 h2 ⊢
      omega

theorem totalValue_of_all_zero (l : List CBetOut)
    (h : l.all (fun e => decide (e.nValue = 0)) = true) : totalValue l = 0 := by
  induction l with
  | nil => rfl
  | cons e rest ih =>
    simp only [List.all_cons, Bool.and_eq_true, decide_eq_true_eq] at h
    have := ih h.2
    simp only [totalValue, List.map_cons, List.sum_cons] at this ⊢
    omega

theorem IsBlockPayoutsValid_totalValue (mExpectedPayouts : List (CPayoutInfo × CBetOut))
    (blockOutputs : List CBetOut) (h : IsBlockPayoutsValid mExpectedPayouts blockOutputs = true) :
    totalValue blockOutputs = totalValue (mExpectedPayouts.map Prod.snd) := by
  unfold IsBlockPayoutsValid at h
  cases hm : matchOutputs blockOutputs (mExpectedPayouts.map Prod.snd) with
  | none => simp [hm] at h
  | some left =>
    simp only [hm] at h
    have h1 := matchOutputs_totalValue _ _ _ hm
    have h2 := totalValue_of_all_zero left h
    omega

theorem totalValue_append_cons (pre post : List CBetOut) (o : CBetOut) :
    totalValue (pre ++ o :: post) = totalValue pre + o.nValue + totalValue post := by
  simp only [totalValue, List.map_append, List.map_cons, List.sum_append, List.sum_cons]
  omega

/-- C20: when the betting outputs of the block are exactly the expected payouts (the
same outputs, in any order), `IsBlockPayoutsValid` succeeds; and changing the amount of
any one of those outputs by one unit, up or down, makes `IsBlockPayoutsValid` fail. -/
theorem IsBlockPayoutsValid_exact_match (mExpectedPayouts : List (CPayoutInfo × CBetOut))
    (pre post : List CBetOut) (o : CBetOut)
    (hmatch : List.Perm (pre ++ o :: post) (mExpectedPayouts.map Prod.snd)) :
    IsBlockPayoutsValid mExpectedPayouts (pre ++ o :: post) = true
    ∧ IsBlockPayoutsValid mExpectedPayouts
        (pre ++ { o with nValue := o.nValue + 1 } :: post) = false
    ∧ IsBlockPayoutsValid mExpectedPayouts
        (pre ++ { o with nValue := o.nValue - 1 } :: post) = false := by
  have hvalid : IsBlockPayoutsValid mExpectedPayouts (pre ++ o :: post) = true := by
    have hm := matchOutputs_of_perm (pre ++ o :: post) (mExpectedPayouts.map Prod.snd)
      (hmatch.map CBetOut.compared)
    simp [IsBlockPayoutsValid, hm]
  have htot := IsBlockPayoutsValid_totalValue _ _ hvalid
  rw [totalValue_append_cons] at htot
  refine ⟨hvalid, ?_, ?_⟩
  · cases hb : IsBlockPayoutsValid mExpectedPayouts
        (pre ++ { o with nValue := o.nValue + 1 } :: post) with
    | false => rfl
    | true =>
      have h2 := IsBlockPayoutsValid_totalValue _ _ hb
      rw [totalValue_append_cons] at h2
      simp only at h2
      omega
  · cases hb : IsBlockPayoutsValid mExpectedPayouts
        (pre ++ { o with nValue := o.nValue - 1 } :: post) with
    | false => rfl
    | true =>
      have h2 := IsBlockPayoutsValid_totalValue _ _ hb
      rw [totalValue_append_cons] at h2
      simp only at h2
      omega

/-- C20 on a block paying the two sample payouts in the opposite order. -/
theorem IsBlockPayoutsValid_exact_match_witness :
    IsBlockPayoutsValid sampleExpected [⟨282, [118, 2], 200, 7⟩, ⟨141, [118, 1], 100, 7⟩] = true
    ∧ IsBlockPayoutsValid sampleExpected [⟨282, [118, 2], 200, 7⟩, ⟨142, [118, 1], 100, 7⟩]
        = false := by
  have h := IsBlockPayoutsValid_exact_match sampleExpected [⟨282, [118, 2], 200, 7⟩] []
    ⟨141, [118, 1], 100, 7⟩ (by decide)
  exact ⟨h.1, h.2.1⟩

/-! ## Cache copies -/

theorem CBettingDB.cacheCopy_Read_raw (bdb : CBettingDB) (k : ByteVector) :
    bdb.cacheCopy.GetDb.Read k = bdb.GetDb.Read k
    ∧ bdb.cacheCopy.GetDb.Exists k = bdb.GetDb.Exists k := by
  constructor
  · simp [CBettingDB.cacheCopy, CBettingDB.GetDb, CFlushableStorageKV.Read,
      CFlushableStorageKV.toStorage, CStorageKV.Read, mapFind]
  · simp [CBettingDB.cacheCopy, CBettingDB.GetDb, CFlushableStorageKV.Exists,
      CFlushableStorageKV.toStorage, CStorageKV.Exists, mapFind]

theorem CBettingDB.applyOp_wrapped {K V : Type} (kc : DbType K) (vc : DbType V)
    (bdb : CBettingDB) (op : TableOp K V) :
    (bdb.applyOp kc vc op).GetDb.db = bdb.GetDb.db := by
  cases op with
  | write key value =>
    cases h : bdb.Exists kc key with
    | true => simp only [CBettingDB.applyOp, CBettingDB.Write_of_exists kc vc bdb key value h]
    | false =>
      simp only [CBettingDB.applyOp, CBettingDB.Write_of_absent kc vc bdb key value h]
      rfl
  | update key value =>
    cases h : bdb.Exists kc key with
    | true =>
      simp only [CBettingDB.applyOp, CBettingDB.Update_of_exists kc vc bdb key value h]
      rfl
    | false =>
      have hu : bdb.Update kc vc key value = (false, bdb) := by
        simp only [CBettingDB.Exists] at h
        simp [CBettingDB.Update, h]
      simp only [CBettingDB.applyOp, hu]
  | erase key =>
    cases h : bdb.Exists kc key with
    | true =>
      simp only [CBettingDB.applyOp, CBettingDB.Erase_of_exists kc bdb key h]
      rfl
    | false => simp only [CBettingDB.applyOp, CBettingDB.Erase_of_absent kc bdb key h]

theorem CBettingDB.applyOps_wrapped {K V : Type} (kc : DbType K) (vc : DbType V)
    (bdb : CBettingDB) (ops : List (TableOp K V)) :
    (bdb.applyOps kc vc ops).GetDb.db = bdb.GetDb.db := by
  induction ops generalizing bdb with
  | nil => rfl
  | cons op rest ih =>
    have h := ih (bdb.applyOp kc vc op)
    simp only [CBettingDB.applyOps, List.foldl_cons] at h ⊢
    rw [h, CBettingDB.applyOp_wrapped]

/-- C17: right after the copy construction every key reads the same through the copy as
through the original (`Exists` and `Read`); and after any sequence of `Write`, `Update`
and `Erase` on the copy, without a flush, the store the copy wraps is still the original
cache exactly as it was, so every `Exists` and `Read` on the original gives what it gave
before the copy was made. The same holds table by table for a copy of the whole view. -/
theorem CBettingDB.cacheCopy_isolated {K V : Type} (kc : DbType K) (vc : DbType V)
    (orig : CBettingDB) (ops : List (TableOp K V)) (phr : CBettingsView) :
    (∀ key : K, orig.cacheCopy.Exists kc key = orig.Exists kc key
        ∧ orig.cacheCopy.Read kc vc key = orig.Read kc vc key)
    ∧ (orig.cacheCopy.applyOps kc vc ops).GetDb.db = orig.GetDb.toStorage
    ∧ (∀ key : K,
        (orig.cacheCopy.applyOps kc vc ops).GetDb.db.Exists (DbTypeToBytes kc key)
          = orig.Exists kc key
        ∧ (orig.cacheCopy.applyOps kc vc ops).GetDb.db.Read (DbTypeToBytes kc key)
          = orig.GetDb.Read (DbTypeToBytes kc key))
    ∧ phr.cacheCopy.mappings = phr.mappings.cacheCopy
    ∧ phr.cacheCopy.results = phr.results.cacheCopy
    ∧ phr.cacheCopy.events = phr.events.cacheCopy
    ∧ phr.cacheCopy.bets = phr.bets.cacheCopy
    ∧ phr.cacheCopy.undos = phr.undos.cacheCopy
    ∧ phr.cacheCopy.payoutsInfo = phr.payoutsInfo.cacheCopy
    ∧ phr.cacheCopy.quickGamesBets = phr.quickGamesBets.cacheCopy := by
  have hw : (orig.cacheCopy.applyOps kc vc ops).GetDb.db = orig.GetDb.toStorage := by
    rw [CBettingDB.applyOps_wrapped]
    rfl
  refine ⟨?_, hw, ?_, rfl, rfl, rfl, rfl, rfl, rfl, rfl⟩
  · intro key
    have h := CBettingDB.cacheCopy_Read_raw orig (DbTypeToBytes kc key)
    constructor
    · simp only [CBettingDB.Exists, h.2]
    · simp only [CBettingDB.Read, h.1]
  · intro key
    rw [hw]
    exact ⟨rfl, rfl⟩

/-! ## Flushing the view -/

theorem CBettingDB.Flush_refused (bdb : CBettingDB) : bdb.Flush false = (false, bdb) := by
  simp [CBettingDB.Flush, CFlushableStorageKV.Flush, CBettingDB.GetDb]

theorem CBettingDB.Flush_accepted (bdb : CBettingDB) : (bdb.Flush true).1 = true := by
  simp [CBettingDB.Flush, CFlushableStorageKV.Flush]

/-- C18 fails as stated: with a write pending in the mappings table, when the store of
the results table refuses its flush, `CBettingsView::Flush` returns false although the
store wrapped by the mappings table has already taken the pending row. -/
theorem CBettingsView_Flush_counterexample :
    (sampleDirtyView.Flush sampleResultsRefuse).1 = false
    ∧ sampleDirtyView.mappings.GetDb.db.Read [0, 0, 0, 1, 0, 0, 0, 2] = none
    ∧ (sampleDirtyView.Flush sampleResultsRefuse).2.mappings.GetDb.db.Read
        [0, 0, 0, 1, 0, 0, 0, 2] = some [9] := by
  decide

/-- C18, amended: `CBettingsView::Flush` flushes the tables in the order mappings,
results, events, bets, undos, payoutsInfo, quickGamesBets and stops at the first table
whose flush fails. It returns true exactly when every table's flush succeeds; a table
has been flushed exactly when its own flush and the flushes of all tables before it
succeeded, and it is unchanged otherwise (the failing table and every later one). -/
theorem CBettingsView_Flush_in_order (acc : FlushAccepted) (view : CBettingsView) :
    (view.Flush acc).1 = (acc.mappings && acc.results && acc.events && acc.bets && acc.undos
        && acc.payoutsInfo && acc.quickGamesBets)
    ∧ (view.Flush acc).2.mappings
        = (if acc.mappings then (view.mappings.Flush true).2 else view.mappings)
    ∧ (view.Flush acc).2.results
        = (if acc.mappings && acc.results then (view.results.Flush true).2 else view.results)
    ∧ (view.Flush acc).2.events
        = (if acc.mappings && acc.results && acc.events then (view.events.Flush true).2
           else view.events)
    ∧ (view.Flush acc).2.bets
        = (if acc.mappings && acc.results && acc.events && acc.bets
           then (view.bets.Flush true).2 else view.bets)
    ∧ (view.Flush acc).2.undos
        = (if acc.mappings && acc.results && acc.events && acc.bets && acc.undos
           then (view.undos.Flush true).2 else view.undos)
    ∧ (view.Flush acc).2.payoutsInfo
        = (if acc.mappings && acc.results && acc.events && acc.bets && acc.undos
              && acc.payoutsInfo
           then (view.payoutsInfo.Flush true).2 else view.payoutsInfo)
    ∧ (view.Flush acc).2.quickGamesBets
        = (if acc.mappings && acc.results && acc.events && acc.bets && acc.undos
              && acc.payoutsInfo && acc.quickGamesBets
           then (view.quickGamesBets.Flush true).2 else view.quickGamesBets) := by
  obtain ⟨a1, a2, a3, a4, a5, a6, a7⟩ := acc
  cases a1
  · simp [CBettingsView.Flush, CBettingDB.Flush_refused]
  cases a2
  · simp [CBettingsView.Flush, CBettingDB.Flush_refused, CBettingDB.Flush_accepted]
  cases a3
  · simp [CBettingsView.Flush, CBettingDB.Flush_refused, CBettingDB.Flush_accepted]
  cases a4
  · simp [CBettingsView.Flush, CBettingDB.Flush_refused, CBettingDB.Flush_accepted]
  cases a5
  · simp [CBettingsView.Flush, CBettingDB.Flush_refused, CBettingDB.Flush_accepted]
  cases a6
  · simp [CBettingsView.Flush, CBettingDB.Flush_refused, CBettingDB.Flush_accepted]
  cases a7
  · simp [CBettingsView.Flush, CBettingDB.Flush_refused, CBettingDB.Flush_accepted]
  · simp [CBettingsView.Flush, CBettingDB.Flush_accepted]

/-! ## The iterator -/

theorem mem_insertKey (x k : ByteVector) (l : List ByteVector) :
    x ∈ insertKey k l ↔ x = k ∨ x ∈ l := by
  induction l with
  | nil => simp [insertKey]
  | cons a rest ih =>
    by_cases h1 : k = a
    · subst h1
      simp [insertKey]
    · by_cases h2 : lexLess k a = true
      · simp [insertKey, h1, h2]
      · have h3 : lexLess k a = false := by simpa using h2
        simp only [insertKey, h1, h3, if_false, Bool.false_eq_true, List.mem_cons, ih]
        tauto

theorem mem_sortKeys (x : ByteVector) (l : List ByteVector) : x ∈ sortKeys l ↔ x ∈ l := by
  induction l with
  | nil => simp [sortKeys]
  | cons a rest ih =>
    have h : sortKeys (a :: rest) = insertKey a (sortKeys rest) := rfl
    rw [h, mem_insertKey, ih, List.mem_cons]

theorem mapFind_mem_keys {β : Type} (k : ByteVector) (m : List (ByteVector × β)) (v : β)
    (h : mapFind k m = some v) : k ∈ m.map Prod.fst := by
  induction m with
  | nil => simp [mapFind] at h
  | cons p rest ih =>
    obtain ⟨k', v'⟩ := p
    by_cases hk : k = k'
    · simp [hk]
    · simp only [mapFind, hk, if_false] at h
      simp [ih h]

theorem CStorageKV.Read_mem_keys (st : CStorageKV) (k v : ByteVector)
    (h : st.Read k = some v) : k ∈ st.keys := by
  induction st with
  | table rows => exact mapFind_mem_keys k rows v h
  | flushable changed db ih =>
    simp only [CStorageKV.Read] at h
    simp only [CStorageKV.keys, List.mem_append]
    cases hf : mapFind k changed with
    | none =>
      rw [hf] at h
      exact Or.inr (ih h)
    | some pending => exact Or.inl (mapFind_mem_keys k changed pending hf)

theorem CStorageKV.mem_entries (st : CStorageKV) (k v : ByteVector) :
    (k, v) ∈ st.entries ↔ st.Read k = some v := by
  simp only [CStorageKV.entries, List.mem_filterMap, mem_sortKeys, Option.map_eq_some',
    Prod.mk.injEq]
  constructor
  · rintro ⟨a, _, b, hb, rfl, rfl⟩
    exact hb
  · intro h
    exact ⟨k, CStorageKV.Read_mem_keys st k v h, v, h, rfl, rfl⟩

/-! ## Pruning -/

theorem eraseUndoKeys_Read (vKeysToDelete : List BettingUndoKey) (undos : CBettingDB)
    (j : ByteVector) :
    (eraseUndoKeys undos vKeysToDelete).GetDb.Read j
      = if j ∈ vKeysToDelete.map (DbTypeToBytes BettingUndoKey.dbType) then none
        else undos.GetDb.Read j := by
  induction vKeysToDelete generalizing undos with
  | nil => simp [eraseUndoKeys]
  | cons key rest ih =>
    have hstep : eraseUndoKeys undos (key :: rest)
        = eraseUndoKeys (undos.Erase BettingUndoKey.dbType key).2 rest := rfl
    have he := CBettingDB.Read_after_Erase BettingUndoKey.dbType undos key
    rw [hstep, ih]
    by_cases h1 : j ∈ rest.map (DbTypeToBytes BettingUndoKey.dbType)
    · simp [h1]
    · by_cases h2 : j = DbTypeToBytes BettingUndoKey.dbType key
      · subst h2
        simp [h1, he.1]
      · simp [h1, h2, he.2 j h2]

theorem BytesToDbType_BettingUndoKey (key : BettingUndoKey) (hk : key < 2 ^ 256) :
    BytesToDbType BettingUndoKey.dbType (DbTypeToBytes BettingUndoKey.dbType key)
      = Except.ok key := by
  have hl : (leBytes 32 key).length = 32 := leBytes_length 32 key
  have hv : leValue (leBytes 32 key) = key := by
    rw [leValue_leBytes]
    have e : (256 : Nat) ^ 32 = 2 ^ 256 := by norm_num
    rw [e, Nat.mod_eq_of_lt hk]
  have ht : (leBytes 32 key).take 32 = leBytes 32 key :=
    List.take_of_length_le (by omega)
  have hd : (leBytes 32 key).drop 32 = [] :=
    List.drop_of_length_le (by omega)
  simp [BytesToDbType, DbTypeToBytes, BettingUndoKey.dbType, uint256.Unserialize,
    uint256.Serialize, hl, hv, ht, hd]

theorem lastHeightKey_length (host : Endian) :
    (DbTypeToBytes (stringDbType host) lastHeightString).length = 11 := by
  cases host <;> decide

theorem BettingUndoKey_ne_lastHeightKey (host : Endian) (key : BettingUndoKey) :
    DbTypeToBytes BettingUndoKey.dbType key
      ≠ DbTypeToBytes (stringDbType host) lastHeightString := by
  intro h
  have h1 : (DbTypeToBytes BettingUndoKey.dbType key).length = 32 := leBytes_length 32 key
  rw [h, lastHeightKey_length] at h1
  omega

theorem collectOlderUndos_spec (host : Endian) (params : CChainParams) (height : Nat)
    (entries : List (ByteVector × ByteVector))
    (hwf : ∀ k v, (k, v) ∈ entries →
      k = DbTypeToBytes (stringDbType host) lastHeightString
      ∨ ∃ (key : BettingUndoKey) (u : CBettingUndo) (rest : List CBettingUndo),
          key < 2 ^ 256 ∧ k = DbTypeToBytes BettingUndoKey.dbType key
          ∧ BytesToDbType (CBettingUndo.vectorDbType host params) v = Except.ok (u :: rest)) :
    ∃ vKeysToDelete,
      collectOlderUndos host params height
          (DbTypeToBytes (stringDbType host) lastHeightString) entries
        = Except.ok vKeysToDelete
      ∧ ∀ j, j ∈ vKeysToDelete.map (DbTypeToBytes BettingUndoKey.dbType)
          ↔ ∃ v u rest, (j, v) ∈ entries
              ∧ j ≠ DbTypeToBytes (stringDbType host) lastHeightString
              ∧ BytesToDbType (CBettingUndo.vectorDbType host params) v = Except.ok (u :: rest)
              ∧ u.height < height := by
  induction entries with
  | nil => exact ⟨[], rfl, by simp⟩
  | cons p tail ih =>
    obtain ⟨k, v⟩ := p
    obtain ⟨ks, hks, hmem⟩ := ih (fun k' v' h' => hwf k' v' (List.mem_cons_of_mem _ h'))
    by_cases hlast : k = DbTypeToBytes (stringDbType host) lastHeightString
    · refine ⟨ks, by simp [collectOlderUndos, hlast, hks], ?_⟩
      intro j
      rw [hmem j]
      constructor
      · rintro ⟨v', u, rest, hin, hne, hd, hlt⟩
        exact ⟨v', u, rest, List.mem_cons_of_mem _ hin, hne, hd, hlt⟩
      · rintro ⟨v', u, rest, hin, hne, hd, hlt⟩
        rcases List.mem_cons.mp hin with heq | hin'
        · simp only [Prod.mk.injEq] at heq
          exact absurd (heq.1.trans hlast) hne
        · exact ⟨v', u, rest, hin', hne, hd, hlt⟩
    · rcases hwf k v (List.mem_cons_self _ _) with h | ⟨key, u, rest, hk, hkey, hdec⟩
      · exact absurd h hlast
      · have hdk := BytesToDbType_BettingUndoKey key hk
        rw [← hkey] at hdk
        by_cases hlt : u.height < height
        · refine ⟨key :: ks, by simp [collectOlderUndos, hlast, hdk, hdec, hks, hlt], ?_⟩
          intro j
          simp only [List.map_cons, List.mem_cons, hmem j, ← hkey]
          constructor
          · rintro (hj | ⟨v', u', rest', hin, hne, hd, hl⟩)
            · exact ⟨v, u, rest, Or.inl (by rw [hj]), by rw [hj]; exact hlast, hdec, hlt⟩
            · exact ⟨v', u', rest', Or.inr hin, hne, hd, hl⟩
          · rintro ⟨v', u', rest', hin, hne, hd, hl⟩
            rcases hin with heq | hin'
            · simp only [Prod.mk.injEq] at heq
              exact Or.inl heq.1
            · exact Or.inr ⟨v', u', rest', hin', hne, hd, hl⟩
        · refine ⟨ks, by simp [collectOlderUndos, hlast, hdk, hdec, hks, hlt], ?_⟩
          intro j
          rw [hmem j]
          constructor
          · rintro ⟨v', u', rest', hin, hne, hd, hl⟩
            exact ⟨v', u', rest', List.mem_cons_of_mem _ hin, hne, hd, hl⟩
          · rintro ⟨v', u', rest', hin, hne, hd, hl⟩
            rcases List.mem_cons.mp hin with heq | hin'
            · simp only [Prod.mk.injEq] at heq
              rw [heq.2, hdec] at hd
              simp only [Except.ok.injEq, List.cons.injEq] at hd
              rw [← hd.1] at hl
              exact absurd hl hlt
            · exact ⟨v', u', rest', hin', hne, hd, hl⟩

theorem CBettingsView.GetLastHeight_congr (host : Endian) (v w : CBettingsView)
    (h : v.undos.GetDb.Read (DbTypeToBytes (stringDbType host) lastHeightString)
      = w.undos.GetDb.Read (DbTypeToBytes (stringDbType host) lastHeightString)) :
    v.GetLastHeight host = w.GetLastHeight host := by
  simp only [CBettingsView.GetLastHeight, CBettingDB.Read, h]

theorem CBettingsView.PruneOlderUndos_Read (host : Endian) (params : CChainParams)
    (view : CBettingsView) (height : Nat) (hwf : UndoEntriesNonEmpty host params view) :
    ∃ vKeysToDelete,
      view.PruneOlderUndos host params height
        = Except.ok { view with undos := eraseUndoKeys view.undos vKeysToDelete }
      ∧ ∀ j, j ∈ vKeysToDelete.map (DbTypeToBytes BettingUndoKey.dbType)
          ↔ ∃ v u rest, view.undos.GetDb.Read j = some v
              ∧ j ≠ DbTypeToBytes (stringDbType host) lastHeightString
              ∧ BytesToDbType (CBettingUndo.vectorDbType host params) v = Except.ok (u :: rest)
              ∧ u.height < height := by
  have hent : ∀ k v, (k, v) ∈ view.undos.NewIterator ↔ view.undos.GetDb.Read k = some v :=
    fun k v => CStorageKV.mem_entries _ k v
  obtain ⟨ks, hks, hmem⟩ := collectOlderUndos_spec host params height view.undos.NewIterator
    (fun k v h => hwf k v ((hent k v).mp h))
  refine ⟨ks, by simp only [CBettingsView.PruneOlderUndos, hks], ?_⟩
  intro j
  rw [hmem j]
  constructor
  · rintro ⟨v, u, rest, hin, hne, hd, hlt⟩
    exact ⟨v, u, rest, (hent j v).mp hin, hne, hd, hlt⟩
  · rintro ⟨v, u, rest, hin, hne, hd, hlt⟩
    exact ⟨v, u, rest, (hent j v).mpr hin, hne, hd, hlt⟩

/-- C12: on an undo table whose entries all hold a non-empty record list,
`PruneOlderUndos(h)` ends normally, and afterwards the table holds exactly the entries
whose first record's height is at least `h`, each with its bytes unchanged; every entry
whose first record's height is below `h` is gone, whatever the later records are; no
entry appears; the last-processed-height scalar is present as before with the same
value; the six other tables are untouched. -/
theorem CBettingsView.PruneOlderUndos_spec (host : Endian) (params : CChainParams)
    (view : CBettingsView) (height : Nat) (hwf : UndoEntriesNonEmpty host params view) :
    ∃ pruned, view.PruneOlderUndos host params height = Except.ok pruned
      ∧ (∀ (key : BettingUndoKey) (v : ByteVector) (u : CBettingUndo)
            (rest : List CBettingUndo),
          view.undos.GetDb.Read (DbTypeToBytes BettingUndoKey.dbType key) = some v →
          BytesToDbType (CBettingUndo.vectorDbType host params) v = Except.ok (u :: rest) →
          (u.height < height →
            pruned.undos.GetDb.Read (DbTypeToBytes BettingUndoKey.dbType key) = none
            ∧ pruned.GetBettingUndo host params key = Except.ok [])
          ∧ (height ≤ u.height →
            pruned.undos.GetDb.Read (DbTypeToBytes BettingUndoKey.dbType key) = some v
            ∧ pruned.GetBettingUndo host params key = Except.ok (u :: rest)))
      ∧ (∀ k, view.undos.GetDb.Read k = none → pruned.undos.GetDb.Read k = none)
      ∧ pruned.undos.GetDb.Read (DbTypeToBytes (stringDbType host) lastHeightString)
          = view.undos.GetDb.Read (DbTypeToBytes (stringDbType host) lastHeightString)
      ∧ pruned.GetLastHeight host = view.GetLastHeight host
      ∧ pruned.mappings = view.mappings ∧ pruned.results = view.results
      ∧ pruned.events = view.events ∧ pruned.bets = view.bets
      ∧ pruned.payoutsInfo = view.payoutsInfo
      ∧ pruned.quickGamesBets = view.quickGamesBets := by
  obtain ⟨ks, hp, hmem⟩ := CBettingsView.PruneOlderUndos_Read host params view height hwf
  have hread := eraseUndoKeys_Read ks view.undos
  have hlast : (eraseUndoKeys view.undos ks).GetDb.Read
      (DbTypeToBytes (stringDbType host) lastHeightString)
        = view.undos.GetDb.Read (DbTypeToBytes (stringDbType host) lastHeightString) := by
    rw [hread]
    have hn : ¬ DbTypeToBytes (stringDbType host) lastHeightString
        ∈ ks.map (DbTypeToBytes BettingUndoKey.dbType) := by
      intro hin
      obtain ⟨_, _, _, _, hne, _, _⟩ := (hmem _).mp hin
      exact hne rfl
    simp only [hn, if_false]
  refine ⟨_, hp, ?_, ?_, hlast, ?_, rfl, rfl, rfl, rfl, rfl, rfl⟩
  · intro key v u rest hr hd
    constructor
    · intro hlt
      have hin : DbTypeToBytes BettingUndoKey.dbType key
          ∈ ks.map (DbTypeToBytes BettingUndoKey.dbType) :=
        (hmem _).mpr ⟨v, u, rest, hr, BettingUndoKey_ne_lastHeightKey host key, hd, hlt⟩
      have h1 : (eraseUndoKeys view.undos ks).GetDb.Read
          (DbTypeToBytes BettingUndoKey.dbType key) = none := by
        rw [hread]
        simp only [hin, if_true]
      exact ⟨h1, CBettingsView.GetBettingUndo_of_none host params _ key h1⟩
    · intro hge
      have hn : ¬ DbTypeToBytes BettingUndoKey.dbType key
          ∈ ks.map (DbTypeToBytes BettingUndoKey.dbType) := by
        intro hin
        obtain ⟨v', u', rest', hr', _, hd', hlt'⟩ := (hmem _).mp hin
        rw [hr] at hr'
        simp only [Option.some.injEq] at hr'
        rw [← hr', hd] at hd'
        simp only [Except.ok.injEq, List.cons.injEq] at hd'
        rw [← hd'.1] at hlt'
        omega
      have h1 : (eraseUndoKeys view.undos ks).GetDb.Read
          (DbTypeToBytes BettingUndoKey.dbType key) = some v := by
        rw [hread]
        simp only [hn, if_false, hr]
      refine ⟨h1, ?_⟩
      simp only [CBettingsView.GetBettingUndo, CBettingDB.Read, h1, hd]
  · intro k hk
    show (eraseUndoKeys view.undos ks).GetDb.Read k = none
    rw [hread]
    split
    · rfl
    · exact hk
  · exact CBettingsView.GetLastHeight_congr host _ _ hlast

theorem CBettingDB.Read_after_Write {K V : Type} (kc : DbType K) (vc : DbType V)
    (bdb : CBettingDB) (key : K) (value : V) (j : ByteVector) :
    (bdb.Write kc vc key value).2.GetDb.Read j = bdb.GetDb.Read j
    ∨ (j = DbTypeToBytes kc key
        ∧ (bdb.Write kc vc key value).2.GetDb.Read j = some (DbTypeToBytes vc value)) := by
  cases h : bdb.Exists kc key with
  | true =>
    rw [CBettingDB.Write_of_exists kc vc bdb key value h]
    exact Or.inl rfl
  | false =>
    rw [CBettingDB.Write_of_absent kc vc bdb key value h]
    by_cases hj : j = DbTypeToBytes kc key
    · subst hj
      exact Or.inr ⟨rfl, CFlushableStorageKV.Read_Write _ _ _⟩
    · exact Or.inl (CFlushableStorageKV.Read_Write_other _ _ j _ hj)

theorem CBettingsView.SetLastHeight_Read_other (host : Endian) (view : CBettingsView)
    (height : Nat) (j : ByteVector)
    (hj : j ≠ DbTypeToBytes (stringDbType host) lastHeightString) :
    (view.SetLastHeight host height).undos.GetDb.Read j = view.undos.GetDb.Read j := by
  cases hex : view.undos.Exists (stringDbType host) lastHeightString with
  | false =>
    simp only [CBettingsView.SetLastHeight, hex, Bool.not_false, if_true]
    rw [CBettingDB.Write_of_absent _ _ _ _ _ hex]
    exact CFlushableStorageKV.Read_Write_other _ _ j _ hj
  | true =>
    simp only [CBettingsView.SetLastHeight, hex, Bool.not_true, Bool.false_eq_true, if_false]
    rw [CBettingDB.Update_of_exists _ _ _ _ _ hex]
    exact CFlushableStorageKV.Read_Write_other _ _ j _ hj

theorem UndoEntriesNonEmpty_SetLastHeight (host : Endian) (params : CChainParams)
    (view : CBettingsView) (height : Nat) (hwf : UndoEntriesNonEmpty host params view) :
    UndoEntriesNonEmpty host params (view.SetLastHeight host height) := by
  intro k v hr
  by_cases hk : k = DbTypeToBytes (stringDbType host) lastHeightString
  · exact Or.inl hk
  · rw [CBettingsView.SetLastHeight_Read_other host view height k hk] at hr
    exact hwf k v hr

theorem UndoEntriesNonEmpty_Write (host : Endian) (params : CChainParams)
    (view : CBettingsView) (key : BettingUndoKey) (u : CBettingUndo)
    (rest : List CBettingUndo) (hk : key < 2 ^ 256)
    (hlen : (u :: rest).length ≤ MAX_SIZE)
    (hok : ∀ x ∈ u :: rest, x.InRange ∧ x.ReadsBack params)
    (hwf : UndoEntriesNonEmpty host params view) :
    UndoEntriesNonEmpty host params
      { view with undos := (view.undos.Write BettingUndoKey.dbType
          (CBettingUndo.vectorDbType host params) key (u :: rest)).2 } := by
  intro k v hr
  rcases CBettingDB.Read_after_Write BettingUndoKey.dbType
      (CBettingUndo.vectorDbType host params) view.undos key (u :: rest) k with h | ⟨hj, h⟩
  · have hr2 : view.undos.GetDb.Read k = some v := by
      rw [← h]
      exact hr
    exact hwf k v hr2
  · have hv : v = DbTypeToBytes (CBettingUndo.vectorDbType host params) (u :: rest) := by
      have hr3 : (view.undos.Write BettingUndoKey.dbType
          (CBettingUndo.vectorDbType host params) key (u :: rest)).2.GetDb.Read k = some v := hr
      rw [h] at hr3
      exact (Option.some.inj hr3).symm
    refine Or.inr ⟨key, u, rest, hk, hj, ?_⟩
    rw [hv]
    exact BytesToDbType_undo_vector host params (u :: rest) hlen hok

theorem sampleView_UndoEntriesNonEmpty (host : Endian) (params : CChainParams) :
    UndoEntriesNonEmpty host params sampleView := by
  intro k v hr
  simp [sampleView, sampleEmptyDb, CBettingDB.GetDb, CFlushableStorageKV.Read,
    CFlushableStorageKV.toStorage, CStorageKV.Read, mapFind] at hr

theorem sampleUndoView_UndoEntriesNonEmpty :
    UndoEntriesNonEmpty Endian.little sampleParams sampleUndoView :=
  UndoEntriesNonEmpty_Write Endian.little sampleParams _ 5 _ _ (by norm_num) (by decide)
    sampleUndos_storable
    (UndoEntriesNonEmpty_SetLastHeight Endian.little sampleParams sampleView 7
      (sampleView_UndoEntriesNonEmpty Endian.little sampleParams))

/-- C12 on the sample view holding the scalar 7 and, under block id 5, a list whose first
record has height 50: pruning below 100 removes the entry and keeps the scalar. -/
theorem CBettingsView.PruneOlderUndos_spec_witness :
    ∃ pruned, sampleUndoView.PruneOlderUndos Endian.little sampleParams 100 = Except.ok pruned
      ∧ pruned.GetBettingUndo Endian.little sampleParams 5 = Except.ok []
      ∧ pruned.GetLastHeight Endian.little = Except.ok 7 := by
  obtain ⟨pruned, hp, hentries, _, _, hlast, _⟩ :=
    CBettingsView.PruneOlderUndos_spec Endian.little sampleParams sampleUndoView 100
      sampleUndoView_UndoEntriesNonEmpty
  have hstored : sampleUndoView.undos.GetDb.Read (DbTypeToBytes BettingUndoKey.dbType 5)
      = some (DbTypeToBytes (CBettingUndo.vectorDbType Endian.little sampleParams)
          sampleUndos) :=
    CBettingDB.Read_after_Write_absent _ _ _ _ _ (by decide)
  have hdec := BytesToDbType_undo_vector Endian.little sampleParams sampleUndos (by decide)
    sampleUndos_storable
  have h5 := (hentries 5 _ _ _ hstored hdec).1 (by decide)
  refine ⟨pruned, hp, h5.2, ?_⟩
  rw [hlast]
  have hget : sampleUndoView.GetLastHeight Endian.little
      = (sampleView.SetLastHeight Endian.little 7).GetLastHeight Endian.little := by
    apply CBettingsView.GetLastHeight_congr
    rcases CBettingDB.Read_after_Write BettingUndoKey.dbType
      (CBettingUndo.vectorDbType Endian.little sampleParams)
      (sampleView.SetLastHeight Endian.little 7).undos 5 sampleUndos
      (DbTypeToBytes (stringDbType Endian.little) lastHeightString) with h | ⟨hj, _⟩
    · exact h
    · exact absurd hj.symm (BettingUndoKey_ne_lastHeightKey Endian.little 5)
  rw [hget]
  simp only [CBettingsView.GetLastHeight, CBettingDB.Read,
    CBettingsView.SetLastHeight_stored Endian.little sampleView 7,
    BytesToDbType_uint32 Endian.little 7 (by decide)]

/-! ## The life cycle of a bet -/

/-- C21: a bet built by its field constructor starts open: for all constructor
arguments a new `CUniversalBet` and a new `CQuickGamesBet` have `IsCompleted()` false,
the result type `betResultUnknown` and the payout 0, and hold the legs, the locked
events, the stake, the address, the out-point, the game data and the time exactly as
given. -/
theorem bet_constructors_start_open (amount : Int) (address : ByteVector)
    (vLegs : List CPeerlessBet) (vEvents : List CPeerlessEvent) (outPoint : COutPoint)
    (time : Int) (gameType : Nat) (vBetInfo : ByteVector) :
    (CUniversalBet.create amount address vLegs vEvents outPoint time).IsCompleted = false
    ∧ (CUniversalBet.create amount address vLegs vEvents outPoint time).resultType
        = BetResultType.betResultUnknown
    ∧ (CUniversalBet.create amount address vLegs vEvents outPoint time).payout = 0
    ∧ (CUniversalBet.create amount address vLegs vEvents outPoint time).legs = vLegs
    ∧ (CUniversalBet.create amount address vLegs vEvents outPoint time).lockedEvents = vEvents
    ∧ (CUniversalBet.create amount address vLegs vEvents outPoint time).betAmount = amount
    ∧ (CUniversalBet.create amount address vLegs vEvents outPoint time).playerAddress = address
    ∧ (CUniversalBet.create amount address vLegs vEvents outPoint time).betOutPoint = outPoint
    ∧ (CUniversalBet.create amount address vLegs vEvents outPoint time).betTime = time
    ∧ (CQuickGamesBet.create gameType vBetInfo amount address time).IsCompleted = false
    ∧ (CQuickGamesBet.create gameType vBetInfo amount address time).resultType
        = BetResultType.betResultUnknown
    ∧ (CQuickGamesBet.create gameType vBetInfo amount address time).payout = 0
    ∧ (CQuickGamesBet.create gameType vBetInfo amount address time).gameType = gameType
    ∧ (CQuickGamesBet.create gameType vBetInfo amount address time).vBetInfo = vBetInfo
    ∧ (CQuickGamesBet.create gameType vBetInfo amount address time).betAmount = amount
    ∧ (CQuickGamesBet.create gameType vBetInfo amount address time).playerAddress = address
    ∧ (CQuickGamesBet.create gameType vBetInfo amount address time).betTime = time :=
  ⟨rfl, rfl, rfl, rfl, rfl, rfl, rfl, rfl, rfl, rfl, rfl, rfl, rfl, rfl, rfl, rfl, rfl⟩

/-- C22: `SetCompleted` and `SetUncompleted` change the completed flag only: the legs,
the locked events, the stake, the address, the out-point, the time, the result type and
the payout of a `CUniversalBet` are as before; `IsCompleted()` is true after
`SetCompleted` and false after `SetUncompleted`; and `SetUncompleted` after
`SetCompleted` on an open bet gives back the bet. The same holds for `CQuickGamesBet`. -/
theorem bet_completion_changes_flag_only (bet : CUniversalBet) (quick : CQuickGamesBet) :
    bet.SetCompleted = { bet with completed := true }
    ∧ bet.SetUncompleted = { bet with completed := false }
    ∧ (bet.SetCompleted.legs = bet.legs ∧ bet.SetCompleted.lockedEvents = bet.lockedEvents
        ∧ bet.SetCompleted.betAmount = bet.betAmount
        ∧ bet.SetCompleted.playerAddress = bet.playerAddress
        ∧ bet.SetCompleted.betOutPoint = bet.betOutPoint
        ∧ bet.SetCompleted.betTime = bet.betTime
        ∧ bet.SetCompleted.resultType = bet.resultType
        ∧ bet.SetCompleted.payout = bet.payout)
    ∧ (bet.SetUncompleted.legs = bet.legs
        ∧ bet.SetUncompleted.lockedEvents = bet.lockedEvents
        ∧ bet.SetUncompleted.betAmount = bet.betAmount
        ∧ bet.SetUncompleted.playerAddress = bet.playerAddress
        ∧ bet.SetUncompleted.betOutPoint = bet.betOutPoint
        ∧ bet.SetUncompleted.betTime = bet.betTime
        ∧ bet.SetUncompleted.resultType = bet.resultType
        ∧ bet.SetUncompleted.payout = bet.payout)
    ∧ bet.SetCompleted.IsCompleted = true
    ∧ bet.SetUncompleted.IsCompleted = false
    ∧ (bet.IsCompleted = false → bet.SetCompleted.SetUncompleted = bet)
    ∧ quick.SetCompleted = { quick with completed := true }
    ∧ quick.SetUncompleted = { quick with completed := false }
    ∧ quick.SetCompleted.IsCompleted = true
    ∧ quick.SetUncompleted.IsCompleted = false
    ∧ (quick.IsCompleted = false → quick.SetCompleted.SetUncompleted = quick) := by
  refine ⟨rfl, rfl, ⟨rfl, rfl, rfl, rfl, rfl, rfl, rfl, rfl⟩,
    ⟨rfl, rfl, rfl, rfl, rfl, rfl, rfl, rfl⟩, rfl, rfl, ?_, rfl, rfl, rfl, rfl, ?_⟩
  · intro h
    cases bet
    simp only [CUniversalBet.IsCompleted] at h
    simp only [CUniversalBet.SetCompleted, CUniversalBet.SetUncompleted, h]
  · intro h
    cases quick
    simp only [CQuickGamesBet.IsCompleted] at h
    simp only [CQuickGamesBet.SetCompleted, CQuickGamesBet.SetUncompleted, h]

/-! ## Initialisation of an undo record -/

/-- C29: `CBettingUndo::Inited()` returns true for every `CBettingUndo`, the
default-constructed one included, whose variant holds a default `CMapping`: it does not
tell an initialised undo record from an uninitialised one. -/
theorem CBettingUndo_Inited_always (u : CBettingUndo) :
    u.Inited = true
    ∧ CBettingUndo.fresh.Inited = true
    ∧ CBettingUndo.fresh.Get
        = BettingUndoVariant.mapping { nMType := 0, nId := 0, sName := [] } := by
  refine ⟨?_, rfl, rfl⟩
  obtain ⟨height, variant⟩ := u
  cases variant <;> rfl

/-! ## The scalar and the undo entries share one table -/

theorem CBettingsView.Save_Read_other (host : Endian) (params : CChainParams)
    (view saved : CBettingsView) (key : BettingUndoKey) (vUndos : List CBettingUndo)
    (ret : Bool) (j : ByteVector)
    (hs : view.SaveBettingUndo host params key vUndos = Except.ok (ret, saved))
    (hj : j ≠ DbTypeToBytes BettingUndoKey.dbType key) :
    saved.undos.GetDb.Read j = view.undos.GetDb.Read j := by
  cases hex : view.undos.Exists BettingUndoKey.dbType key with
  | true =>
    rw [CBettingsView.SaveBettingUndo_of_exists host params view key vUndos hex] at hs
    cases hs
  | false =>
    rw [CBettingsView.SaveBettingUndo_of_absent host params view key vUndos hex] at hs
    simp only [Except.ok.injEq, Prod.mk.injEq] at hs
    rw [← hs.2]
    rcases CBettingDB.Read_after_Write BettingUndoKey.dbType
      (CBettingUndo.vectorDbType host params) view.undos key vUndos j with h | ⟨h, _⟩
    · exact h
    · exact absurd h hj

/-- C25: the serialized key of the string "LastHeight" (11 bytes) differs from the
serialized key of every block id (32 bytes); hence a successful `SaveBettingUndo` and an
`EraseBettingUndo` for any block id leave `GetLastHeight()` as it was, and
`SetLastHeight` leaves `GetBettingUndo(id)` as it was for every block id. -/
theorem CBettingsView_scalar_and_entries_apart (host : Endian) (params : CChainParams)
    (view : CBettingsView) (key : BettingUndoKey) (vUndos : List CBettingUndo)
    (height : Nat) :
    DbTypeToBytes (stringDbType host) lastHeightString
      ≠ DbTypeToBytes BettingUndoKey.dbType key
    ∧ (DbTypeToBytes (stringDbType host) lastHeightString).length = 11
    ∧ (DbTypeToBytes BettingUndoKey.dbType key).length = 32
    ∧ (∀ (ret : Bool) (saved : CBettingsView),
        view.SaveBettingUndo host params key vUndos = Except.ok (ret, saved) →
        saved.GetLastHeight host = view.GetLastHeight host)
    ∧ (view.EraseBettingUndo key).2.GetLastHeight host = view.GetLastHeight host
    ∧ (view.SetLastHeight host height).GetBettingUndo host params key
        = view.GetBettingUndo host params key := by
  have hne := BettingUndoKey_ne_lastHeightKey host key
  refine ⟨fun h => hne h.symm, lastHeightKey_length host, leBytes_length 32 key, ?_, ?_, ?_⟩
  · intro ret saved hs
    exact CBettingsView.GetLastHeight_congr host _ _
      (CBettingsView.Save_Read_other host params view saved key vUndos ret _ hs
        (fun h => hne h.symm))
  · exact CBettingsView.GetLastHeight_congr host _ _
      ((CBettingDB.Read_after_Erase BettingUndoKey.dbType view.undos key).2 _
        (fun h => hne h.symm))
  · exact CBettingsView.GetBettingUndo_congr host params _ _ key
      (CBettingsView.SetLastHeight_Read_other host view height _ hne)

/-! ## Disk round trips of events and undo records -/

theorem sampleEarlyEvent_InRange : sampleEarlyEvent.InRange := by
  simp [CPeerlessEvent.InRange, sampleEarlyEvent]

theorem CPeerlessEvent_Unserialize_asStored (host : Endian) (params : CChainParams)
    (e : CPeerlessEvent) (rest : ByteVector) (hr : e.InRange) :
    CPeerlessEvent.Unserialize host params (CPeerlessEvent.Serialize host params e ++ rest)
      = some (e.asStored params, rest) :=
  CPeerlessEvent_Unserialize_Serialize host params e rest hr

theorem CPeerlessEvent_asStored_eq (params : CChainParams) (e : CPeerlessEvent)
    (h : e.nEventCreationHeight < params.WagerrProtocolV3StartHeight
      ∨ e.fLegacyInitialHomeFavorite = true) : e.asStored params = e := by
  unfold CPeerlessEvent.asStored
  rcases h with hlt | hflag
  · simp only [hlt, if_true]
  · split
    · rfl
    · cases e
      simp only at hflag
      simp only [hflag]

/-- C27: the disk encoding of a `CPeerlessEvent` carries `fLegacyInitialHomeFavorite`
exactly when `nEventCreationHeight` is below the protocol-V3 start height (only then do
two events that differ in the flag alone encode differently); and decoding the encoding
of an in-range event into a fresh event gives an event equal to it in every field when
its creation height is below the V3 start height or its flag is true. -/
theorem CPeerlessEvent_disk_round_trip (host : Endian) (params : CChainParams)
    (e : CPeerlessEvent) (hr : e.InRange) :
    (e.nEventCreationHeight < params.WagerrProtocolV3StartHeight
      ↔ CPeerlessEvent.Serialize host params { e with fLegacyInitialHomeFavorite := true }
          ≠ CPeerlessEvent.Serialize host params { e with fLegacyInitialHomeFavorite := false })
    ∧ (e.nEventCreationHeight < params.WagerrProtocolV3StartHeight →
        CPeerlessEvent.Serialize host params e
          = CPeerlessEvent.Serialize host
              { WagerrProtocolV3StartHeight := e.nEventCreationHeight } e
            ++ writeBool e.fLegacyInitialHomeFavorite)
    ∧ CPeerlessEvent.Unserialize host params (CPeerlessEvent.Serialize host params e)
        = some (e.asStored params, [])
    ∧ ((e.nEventCreationHeight < params.WagerrProtocolV3StartHeight
          ∨ e.fLegacyInitialHomeFavorite = true) →
        CPeerlessEvent.Unserialize host params (CPeerlessEvent.Serialize host params e)
          = some (e, [])) := by
  have hrt := CPeerlessEvent_Unserialize_asStored host params e [] hr
  rw [List.append_nil] at hrt
  refine ⟨?_, ?_, hrt, ?_⟩
  · by_cases hlt : e.nEventCreationHeight < params.WagerrProtocolV3StartHeight
    · simp [CPeerlessEvent.Serialize, hlt, writeBool]
    · simp [CPeerlessEvent.Serialize, hlt]
  · intro hlt
    simp [CPeerlessEvent.Serialize, hlt]
  · intro h
    rw [hrt, CPeerlessEvent_asStored_eq params e h]

/-- C27 at an event created below the V3 start height with the flag off. -/
theorem CPeerlessEvent_disk_round_trip_witness :
    CPeerlessEvent.Unserialize Endian.little sampleParams
        (CPeerlessEvent.Serialize Endian.little sampleParams sampleEarlyEvent)
      = some (sampleEarlyEvent, []) :=
  (CPeerlessEvent_disk_round_trip Endian.little sampleParams sampleEarlyEvent
    sampleEarlyEvent_InRange).2.2.2 (Or.inl (by decide))

theorem CBettingUndo_Unserialize_header (host : Endian)
    (height : Nat) (tag : Int) (payload : ByteVector) (hh : height < 4294967296)
    (ht1 : -2147483648 ≤ tag) (ht2 : tag < 2147483648) :
    readU32 host (writeU32 host height ++ (writeI32 host tag ++ payload))
      = some (height, writeI32 host tag ++ payload)
    ∧ readI32 host (writeI32 host tag ++ payload) = some (tag, payload) :=
  ⟨readU32_writeU32 host height _ hh, readI32_writeI32 host tag payload ht1 ht2⟩

/-- C26: the encoder of an undo record writes the height, then the tag equal to the index
of the variant held (0 for a mapping, 1 for an event, 2 for a result), then the snapshot;
decoding that encoding, whatever follows it, gives the same height, the same kind of
variant and as payload what the snapshot's decoder gives on the snapshot's encoding,
leaving what that decoder leaves; for an in-range snapshot (a mapping name within the
size limit) every byte of the encoding is consumed. -/
theorem CBettingUndo_disk_round_trip (host : Endian) (params : CChainParams)
    (height : Nat) (m : CMapping) (e : CPeerlessEvent) (r : CPeerlessResult)
    (rest : ByteVector) (hh : height < 4294967296) :
    (CBettingUndo.Serialize host params ⟨height, BettingUndoVariant.mapping m⟩
        = writeU32 host height ++ writeI32 host 0 ++ CMapping.Serialize host m
      ∧ CBettingUndo.Serialize host params ⟨height, BettingUndoVariant.event e⟩
        = writeU32 host height ++ writeI32 host 1 ++ CPeerlessEvent.Serialize host params e
      ∧ CBettingUndo.Serialize host params ⟨height, BettingUndoVariant.result r⟩
        = writeU32 host height ++ writeI32 host 2 ++ CPeerlessResult.Serialize host r)
    ∧ CBettingUndo.Unserialize host params
        (CBettingUndo.Serialize host params ⟨height, BettingUndoVariant.mapping m⟩ ++ rest)
      = (CMapping.Unserialize host (CMapping.Serialize host m ++ rest)).map
          (fun p => (⟨height, BettingUndoVariant.mapping p.1⟩, p.2))
    ∧ CBettingUndo.Unserialize host params
        (CBettingUndo.Serialize host params ⟨height, BettingUndoVariant.event e⟩ ++ rest)
      = (CPeerlessEvent.Unserialize host params
            (CPeerlessEvent.Serialize host params e ++ rest)).map
          (fun p => (⟨height, BettingUndoVariant.event p.1⟩, p.2))
    ∧ CBettingUndo.Unserialize host params
        (CBettingUndo.Serialize host params ⟨height, BettingUndoVariant.result r⟩ ++ rest)
      = (CPeerlessResult.Unserialize host (CPeerlessResult.Serialize host r ++ rest)).map
          (fun p => (⟨height, BettingUndoVariant.result p.1⟩, p.2))
    ∧ (m.InRange → m.sName.length ≤ MAX_SIZE →
        CBettingUndo.Unserialize host params
          (CBettingUndo.Serialize host params ⟨height, BettingUndoVariant.mapping m⟩)
        = some (⟨height, BettingUndoVariant.mapping m⟩, []))
    ∧ (e.InRange →
        CBettingUndo.Unserialize host params
          (CBettingUndo.Serialize host params ⟨height, BettingUndoVariant.event e⟩)
        = some (⟨height, BettingUndoVariant.event (e.asStored params)⟩, []))
    ∧ (r.InRange →
        CBettingUndo.Unserialize host params
          (CBettingUndo.Serialize host params ⟨height, BettingUndoVariant.result r⟩)
        = some (⟨height, BettingUndoVariant.result r⟩, [])) := by
  have hm : CBettingUndo.Unserialize host params
        (CBettingUndo.Serialize host params ⟨height, BettingUndoVariant.mapping m⟩ ++ rest)
      = (CMapping.Unserialize host (CMapping.Serialize host m ++ rest)).map
          (fun p => (⟨height, BettingUndoVariant.mapping p.1⟩, p.2)) := by
    have h := CBettingUndo_Unserialize_header host height 0
      (CMapping.Serialize host m ++ rest) hh (by norm_num) (by norm_num)
    cases hp : CMapping.Unserialize host (CMapping.Serialize host m ++ rest) with
    | none =>
      simp [CBettingUndo.Unserialize, CBettingUndo.Serialize, BettingUndoVariant.which,
        List.append_assoc, h.1, h.2, hp]
    | some p =>
      obtain ⟨a, b⟩ := p
      simp [CBettingUndo.Unserialize, CBettingUndo.Serialize, BettingUndoVariant.which,
        List.append_assoc, h.1, h.2, hp]
  have he : CBettingUndo.Unserialize host params
        (CBettingUndo.Serialize host params ⟨height, BettingUndoVariant.event e⟩ ++ rest)
      = (CPeerlessEvent.Unserialize host params
            (CPeerlessEvent.Serialize host params e ++ rest)).map
          (fun p => (⟨height, BettingUndoVariant.event p.1⟩, p.2)) := by
    have h := CBettingUndo_Unserialize_header host height 1
      (CPeerlessEvent.Serialize host params e ++ rest) hh (by norm_num) (by norm_num)
    cases hp : CPeerlessEvent.Unserialize host params
        (CPeerlessEvent.Serialize host params e ++ rest) with
    | none =>
      simp [CBettingUndo.Unserialize, CBettingUndo.Serialize, BettingUndoVariant.which,
        List.append_assoc, h.1, h.2, hp]
    | some p =>
      obtain ⟨a, b⟩ := p
      simp [CBettingUndo.Unserialize, CBettingUndo.Serialize, BettingUndoVariant.which,
        List.append_assoc, h.1, h.2, hp]
  have hres : CBettingUndo.Unserialize host params
        (CBettingUndo.Serialize host params ⟨height, BettingUndoVariant.result r⟩ ++ rest)
      = (CPeerlessResult.Unserialize host (CPeerlessResult.Serialize host r ++ rest)).map
          (fun p => (⟨height, BettingUndoVariant.result p.1⟩, p.2)) := by
    have h := CBettingUndo_Unserialize_header host height 2
      (CPeerlessResult.Serialize host r ++ rest) hh (by norm_num) (by norm_num)
    cases hp : CPeerlessResult.Unserialize host (CPeerlessResult.Serialize host r ++ rest) with
    | none =>
      simp [CBettingUndo.Unserialize, CBettingUndo.Serialize, BettingUndoVariant.which,
        List.append_assoc, h.1, h.2, hp]
    | some p =>
      obtain ⟨a, b⟩ := p
      simp [CBettingUndo.Unserialize, CBettingUndo.Serialize, BettingUndoVariant.which,
        List.append_assoc, h.1, h.2, hp]
  refine ⟨⟨rfl, rfl, rfl⟩, hm, he, hres, ?_, ?_, ?_⟩
  · intro hr hn
    exact CBettingUndo_Unserialize_Serialize host params ⟨height, BettingUndoVariant.mapping m⟩
      [] ⟨hh, hr⟩ hn |> fun h => by rw [List.append_nil] at h; exact h
  · intro hr
    have h1 := CBettingUndo_Unserialize_header host height 1
      (CPeerlessEvent.Serialize host params e) hh (by norm_num) (by norm_num)
    have h2 := CPeerlessEvent_Unserialize_asStored host params e [] hr
    rw [List.append_nil] at h2
    simp [CBettingUndo.Unserialize, CBettingUndo.Serialize, BettingUndoVariant.which,
      List.append_assoc, h1.1, h1.2, h2]
  · intro hr
    exact CBettingUndo_Unserialize_Serialize host params ⟨height, BettingUndoVariant.result r⟩
      [] ⟨hh, hr⟩ trivial |> fun h => by rw [List.append_nil] at h; exact h

/-- C26 at an event record of height 50. -/
theorem CBettingUndo_disk_round_trip_witness :
    CBettingUndo.Unserialize Endian.little sampleParams
        (CBettingUndo.Serialize Endian.little sampleParams
          ⟨50, BettingUndoVariant.event sampleEarlyEvent⟩)
      = some (⟨50, BettingUndoVariant.event (sampleEarlyEvent.asStored sampleParams)⟩, []) :=
  (CBettingUndo_disk_round_trip Endian.little sampleParams 50 ⟨1, 2, [65]⟩ sampleEarlyEvent
    sampleResult [] (by decide)).2.2.2.2.2.1 sampleEarlyEvent_InRange

/-! ## Reading back what was written -/

theorem CBettingDB.Read_of_raw {K V : Type} (kc : DbType K) (vc : DbType V)
    (bdb : CBettingDB) (key : K) (value decoded : V)
    (hraw : bdb.GetDb.Read (DbTypeToBytes kc key) = some (DbTypeToBytes vc value))
    (hdec : BytesToDbType vc (DbTypeToBytes vc value) = Except.ok decoded) :
    bdb.Read kc vc key = Except.ok (some decoded) := by
  simp only [CBettingDB.Read, hraw, hdec]

theorem CBettingDB.Read_congr {K V : Type} (kc : DbType K) (vc : DbType V)
    (a b : CBettingDB) (key : K)
    (h : a.GetDb.Read (DbTypeToBytes kc key) = b.GetDb.Read (DbTypeToBytes kc key)) :
    a.Read kc vc key = b.Read kc vc key
    ∧ a.Exists kc key = b.Exists kc key := by
  constructor
  · simp only [CBettingDB.Read, h]
  · simp only [CBettingDB.Exists, CFlushableStorageKV.Exists_eq_Read_isSome, h]

theorem CBettingDB.Read_after_Update_exists {K V : Type} (kc : DbType K) (vc : DbType V)
    (bdb : CBettingDB) (key : K) (value : V) (hex : bdb.Exists kc key = true) :
    (bdb.Update kc vc key value).2.GetDb.Read (DbTypeToBytes kc key)
      = some (DbTypeToBytes vc value)
    ∧ ∀ j, j ≠ DbTypeToBytes kc key →
        (bdb.Update kc vc key value).2.GetDb.Read j = bdb.GetDb.Read j := by
  rw [CBettingDB.Update_of_exists kc vc bdb key value hex]
  exact ⟨CFlushableStorageKV.Read_Write _ _ _,
    fun j hj => CFlushableStorageKV.Read_Write_other _ _ j _ hj⟩

theorem CBettingDB.Read_after_Write_other {K V : Type} (kc : DbType K) (vc : DbType V)
    (bdb : CBettingDB) (key : K) (value : V) (j : ByteVector)
    (hj : j ≠ DbTypeToBytes kc key) :
    (bdb.Write kc vc key value).2.GetDb.Read j = bdb.GetDb.Read j := by
  rcases CBettingDB.Read_after_Write kc vc bdb key value j with h | ⟨h, _⟩
  · exact h
  · exact absurd h hj

theorem EventKey_Serialize_injective (host : Endian) (a b : EventKey)
    (ha : a.eventId < 4294967296) (hb : b.eventId < 4294967296)
    (h : EventKey.Serialize host a = EventKey.Serialize host b) : a = b := by
  simp only [EventKey.Serialize, writeData_htonl] at h
  have := be4_injective _ _ ha hb h
  cases a
  cases b
  simp only at this
  rw [this]

theorem sampleLateEvent_asStored_ne :
    sampleLateEvent.asStored sampleParams ≠ sampleLateEvent := by
  intro h
  have h2 := congrArg CPeerlessEvent.fLegacyInitialHomeFavorite h
  revert h2
  decide

theorem CPeerlessEvent_Unserialize_eq_Into (host : Endian) (params : CChainParams)
    (s : ByteVector) :
    CPeerlessEvent.Unserialize host params s
      = CPeerlessEvent.UnserializeInto host params sampleFreshEvent s :=
  rfl

theorem CPeerlessEvent_asStored_eq_storedInto (params : CChainParams) (e : CPeerlessEvent) :
    e.asStored params = CPeerlessEvent.storedInto params sampleFreshEvent e :=
  rfl

theorem CPeerlessEvent_UnserializeInto_Serialize (host : Endian) (params : CChainParams)
    (value e : CPeerlessEvent) (rest : ByteVector) (hr : e.InRange) :
    CPeerlessEvent.UnserializeInto host params value
        (CPeerlessEvent.Serialize host params e ++ rest)
      = some (CPeerlessEvent.storedInto params value e, rest) := by
  cases e
  cases value
  simp only [CPeerlessEvent.InRange] at hr
  obtain ⟨h1, h2, h3, h4, h5, h6, h7, h8, h9, h10, ⟨h11a, h11b⟩, h12, h13, h14, h15, h16, h17,
    h18, h19, h20, h21, h22, h23, h24, h25, h26, h27, h28, h29, h30, h31, h32, h33, h34,
    hca, hcb⟩ := hr
  simp only [CPeerlessEvent.UnserializeInto, CPeerlessEvent.Serialize, List.append_assoc,
    bind, Option.bind, CPeerlessEvent.readNat, CPeerlessEvent.readInt,
    readU32_writeU32, readU64_writeU64, readI32_writeI32,
    h1, h2, h3, h4, h5, h6, h7, h8, h9, h10, h11a, h11b, h12, h13, h14, h15, h16, h17, h18,
    h19, h20, h21, h22, h23, h24, h25, h26, h27, h28, h29, h30, h31, h32, h33, h34, hca,
    hcb]
  simp only [CPeerlessEvent.readLegacyFlag, CPeerlessEvent.storedInto]
  split
  · simp only [readBool_writeBool]
  · simp only [List.nil_append]

theorem CPeerlessEvent_storedInto_eq_iff (params : CChainParams) (value e : CPeerlessEvent) :
    CPeerlessEvent.storedInto params value e = e
      ↔ (e.nEventCreationHeight < params.WagerrProtocolV3StartHeight
          ∨ value.fLegacyInitialHomeFavorite = e.fLegacyInitialHomeFavorite) := by
  unfold CPeerlessEvent.storedInto
  by_cases hlt : e.nEventCreationHeight < params.WagerrProtocolV3StartHeight
  · simp only [hlt, if_true, true_or]
  · simp only [hlt, if_false, false_or]
    constructor
    · intro h
      have h2 := congrArg CPeerlessEvent.fLegacyInitialHomeFavorite h
      exact h2
    · intro h
      cases e
      simp only at h
      simp only [h]

theorem BytesToDbType_event_into (host : Endian) (params : CChainParams)
    (writer value e : CPeerlessEvent) (hr : e.InRange) :
    BytesToDbType (CPeerlessEvent.dbType host params value)
        (DbTypeToBytes (CPeerlessEvent.dbType host params writer) e)
      = Except.ok (CPeerlessEvent.storedInto params value e) := by
  have h := CPeerlessEvent_UnserializeInto_Serialize host params value e [] hr
  rw [List.append_nil] at h
  simp [BytesToDbType, DbTypeToBytes, CPeerlessEvent.dbType, h]

theorem CBettingDB.Read_of_bytes {K V : Type} (kc : DbType K) (vc : DbType V)
    (bdb : CBettingDB) (key : K) (raw : ByteVector) (decoded : V)
    (hraw : bdb.GetDb.Read (DbTypeToBytes kc key) = some raw)
    (hdec : BytesToDbType vc raw = Except.ok decoded) :
    bdb.Read kc vc key = Except.ok (some decoded) := by
  simp only [CBettingDB.Read, hraw, hdec]

theorem sampleLateEvent_InRange : sampleLateEvent.InRange := by
  simp [CPeerlessEvent.InRange, sampleLateEvent]

/-- C23 fails as stated: on the events table, after the successful `Write` of an event
created above the V3 start height with the legacy flag off, `Read` of its key into a
freshly constructed event returns true with an event whose flag is on, not the event
written. -/
theorem CBettingDB_read_after_write_counterexample :
    (sampleEmptyDb.Write (EventKey.dbType Endian.little)
        (CPeerlessEvent.dbType Endian.little sampleParams sampleLateEvent) ⟨7⟩
        sampleLateEvent).1 = true
    ∧ (sampleEmptyDb.Write (EventKey.dbType Endian.little)
        (CPeerlessEvent.dbType Endian.little sampleParams sampleLateEvent) ⟨7⟩
        sampleLateEvent).2.Read (EventKey.dbType Endian.little)
          (CPeerlessEvent.dbType Endian.little sampleParams sampleFreshEvent) ⟨7⟩
        = Except.ok (some (sampleLateEvent.asStored sampleParams))
    ∧ sampleLateEvent.asStored sampleParams ≠ sampleLateEvent := by
  have hex : sampleEmptyDb.Exists (EventKey.dbType Endian.little) ⟨7⟩ = false := by decide
  refine ⟨?_, ?_, sampleLateEvent_asStored_ne⟩
  · rw [CBettingDB.Write_of_absent _ _ _ _ _ hex]
  · rw [CPeerlessEvent_asStored_eq_storedInto]
    exact CBettingDB.Read_of_bytes _ _ _ _ _ _
      (CBettingDB.Read_after_Write_absent _ _ _ _ _ hex)
      (BytesToDbType_event_into Endian.little sampleParams sampleLateEvent sampleFreshEvent
        sampleLateEvent sampleLateEvent_InRange)

/-- C23, amended: after `Write(k, v)` on an absent key or `Update(k, v)` on a present key
the call returns true, `Exists(k)` is true and `Read(k, out)` returns true with, in `out`,
what the value's reader run on `out` gives on the disk encoding of `v` (the codec `vc`
holds that reader); every key with a different serialization reads and exists exactly as
before (for in-range event ids, every other key); after an `Erase(k)` on a present key the
call returns true, `Exists(k)` is false and `Read(k)` returns false. On the events table,
for every event `out` the caller passes to `Read`, the event read back is `v` with the
legacy flag of `out` kept when the creation height of `v` is at or above the V3 start
height, so it is `v` exactly when the creation height of `v` is below the V3 start height
or the flag of `out` was already the flag of `v`. -/
theorem CBettingDB_read_after_write {K V : Type} (kc : DbType K) (vc : DbType V)
    (bdb : CBettingDB) (key : K) (value decoded : V)
    (hdec : BytesToDbType vc (DbTypeToBytes vc value) = Except.ok decoded) :
    (bdb.Exists kc key = false →
      (bdb.Write kc vc key value).1 = true
      ∧ (bdb.Write kc vc key value).2.Read kc vc key = Except.ok (some decoded)
      ∧ (bdb.Write kc vc key value).2.Exists kc key = true
      ∧ ∀ other : K, DbTypeToBytes kc other ≠ DbTypeToBytes kc key →
          (bdb.Write kc vc key value).2.Read kc vc other = bdb.Read kc vc other
          ∧ (bdb.Write kc vc key value).2.Exists kc other = bdb.Exists kc other)
    ∧ (bdb.Exists kc key = true →
      (bdb.Update kc vc key value).1 = true
      ∧ (bdb.Update kc vc key value).2.Read kc vc key = Except.ok (some decoded)
      ∧ (bdb.Update kc vc key value).2.Exists kc key = true
      ∧ ∀ other : K, DbTypeToBytes kc other ≠ DbTypeToBytes kc key →
          (bdb.Update kc vc key value).2.Read kc vc other = bdb.Read kc vc other
          ∧ (bdb.Update kc vc key value).2.Exists kc other = bdb.Exists kc other)
    ∧ (bdb.Exists kc key = true →
      (bdb.Erase kc key).1 = true
      ∧ (bdb.Erase kc key).2.Exists kc key = false
      ∧ (bdb.Erase kc key).2.Read kc vc key = Except.ok none
      ∧ ∀ other : K, DbTypeToBytes kc other ≠ DbTypeToBytes kc key →
          (bdb.Erase kc key).2.Read kc vc other = bdb.Read kc vc other
          ∧ (bdb.Erase kc key).2.Exists kc other = bdb.Exists kc other)
    ∧ (∀ (host : Endian) (a b : EventKey), a.eventId < 4294967296 → b.eventId < 4294967296 →
        a ≠ b → DbTypeToBytes (EventKey.dbType host) a ≠ DbTypeToBytes (EventKey.dbType host) b)
    ∧ (∀ (host : Endian) (params : CChainParams) (edb : CBettingDB) (ek : EventKey)
        (e out : CPeerlessEvent), e.InRange →
        (edb.Exists (EventKey.dbType host) ek = false →
          (edb.Write (EventKey.dbType host) (CPeerlessEvent.dbType host params e) ek e).2.Read
              (EventKey.dbType host) (CPeerlessEvent.dbType host params out) ek
            = Except.ok (some (CPeerlessEvent.storedInto params out e)))
        ∧ (edb.Exists (EventKey.dbType host) ek = true →
          (edb.Update (EventKey.dbType host) (CPeerlessEvent.dbType host params e) ek e).2.Read
              (EventKey.dbType host) (CPeerlessEvent.dbType host params out) ek
            = Except.ok (some (CPeerlessEvent.storedInto params out e)))
        ∧ (CPeerlessEvent.storedInto params out e = e
            ↔ (e.nEventCreationHeight < params.WagerrProtocolV3StartHeight
                ∨ out.fLegacyInitialHomeFavorite = e.fLegacyInitialHomeFavorite)))
    := by
  refine ⟨?_, ?_, ?_, ?_, ?_⟩
  · intro hex
    refine ⟨by rw [CBettingDB.Write_of_absent _ _ _ _ _ hex], ?_,
      CBettingDB.Exists_after_Write kc vc bdb key value, ?_⟩
    · exact CBettingDB.Read_of_raw _ _ _ _ _ _
        (CBettingDB.Read_after_Write_absent _ _ _ _ _ hex) hdec
    · intro other hne
      exact CBettingDB.Read_congr kc vc _ _ other
        (CBettingDB.Read_after_Write_other kc vc bdb key value _ hne)
  · intro hex
    have hu := CBettingDB.Read_after_Update_exists kc vc bdb key value hex
    refine ⟨by rw [CBettingDB.Update_of_exists _ _ _ _ _ hex], ?_, ?_, ?_⟩
    · exact CBettingDB.Read_of_raw _ _ _ _ _ _ hu.1 hdec
    · simp only [CBettingDB.Exists, CFlushableStorageKV.Exists_eq_Read_isSome, hu.1,
        Option.isSome_some]
    · intro other hne
      exact CBettingDB.Read_congr kc vc _ _ other (hu.2 _ hne)
  · intro hex
    have he := CBettingDB.Read_after_Erase kc bdb key
    refine ⟨by rw [CBettingDB.Erase_of_exists _ _ _ hex],
      CBettingDB.Exists_after_Erase kc bdb key, ?_, ?_⟩
    · simp only [CBettingDB.Read, he.1]
    · intro other hne
      exact CBettingDB.Read_congr kc vc _ _ other (he.2 _ hne)
  · intro host a b ha hb hne heq
    exact hne (EventKey_Serialize_injective host a b ha hb heq)
  · intro host params edb ek e out hr
    have hd := BytesToDbType_event_into host params e out e hr
    refine ⟨fun hex => ?_, fun hex => ?_, CPeerlessEvent_storedInto_eq_iff params out e⟩
    · exact CBettingDB.Read_of_bytes _ _ _ _ _ _
        (CBettingDB.Read_after_Write_absent _ _ _ _ _ hex) hd
    · exact CBettingDB.Read_of_bytes _ _ _ _ _ _
        (CBettingDB.Read_after_Update_exists _ _ _ _ _ hex).1 hd

/-- C23 amended, on the empty events table: the event written under id 7 at creation
height 2000 with the legacy flag off is the event read back when `Read` is given an event
whose flag is off. -/
theorem CBettingDB_read_after_write_witness :
    (sampleEmptyDb.Write (EventKey.dbType Endian.little)
        (CPeerlessEvent.dbType Endian.little sampleParams sampleEarlyEvent) ⟨7⟩
        sampleLateEvent).2.Read (EventKey.dbType Endian.little)
          (CPeerlessEvent.dbType Endian.little sampleParams sampleEarlyEvent) ⟨7⟩
      = Except.ok (some sampleLateEvent) := by
  have hdec : BytesToDbType (CPeerlessEvent.dbType Endian.little sampleParams sampleEarlyEvent)
      (DbTypeToBytes (CPeerlessEvent.dbType Endian.little sampleParams sampleEarlyEvent)
        sampleLateEvent)
      = Except.ok sampleLateEvent := by
    have h := BytesToDbType_event_into Endian.little sampleParams sampleEarlyEvent
      sampleEarlyEvent sampleLateEvent sampleLateEvent_InRange
    rw [(CPeerlessEvent_storedInto_eq_iff sampleParams sampleEarlyEvent sampleLateEvent).mpr
      (Or.inr rfl)] at h
    exact h
  exact ((CBettingDB_read_after_write (EventKey.dbType Endian.little)
    (CPeerlessEvent.dbType Endian.little sampleParams sampleEarlyEvent) sampleEmptyDb ⟨7⟩
    sampleLateEvent sampleLateEvent hdec).1 (by decide)).2.1

/-! ## Non-empty undo lists and the bounds of `vUndos[0]` -/

theorem memValue_memBytes_mod (host : Endian) (n x : Nat) :
    memValue host (memBytes host n x) = x % 256 ^ n := by
  cases host
  · simp only [memValue, memBytes, leValue_leBytes]
  · simp only [memValue, memBytes, List.reverse_reverse, leValue_leBytes]

theorem readData_writeData_mod (host : Endian) (n x : Nat) (rest : ByteVector) :
    readData host n (writeData host n x ++ rest) = some (x % 256 ^ n, rest) := by
  rw [writeData, readData_append host n _ rest (memBytes_length host n x),
    memValue_memBytes_mod]

theorem ReadCompactSize_WriteCompactSize_ne_zero (host : Endian) (n m : Nat)
    (rest r : ByteVector) (hn : n ≠ 0)
    (h : ReadCompactSize host (WriteCompactSize host n ++ rest) = some (m, r)) : m ≠ 0 := by
  by_cases h1 : n < 253
  · have hr := readData_writeData host 1 n rest (by omega)
    simp only [WriteCompactSize, ReadCompactSize, h1, if_true, hr] at h
    split at h
    · cases h
    · simp only [Option.some.injEq, Prod.mk.injEq] at h
      omega
  · by_cases h2 : n ≤ 65535
    · have hr := readData_writeData host 1 253 (writeData host 2 n ++ rest) (by norm_num)
      have hr2 := readData_writeData host 2 n rest (by norm_num; omega)
      simp only [WriteCompactSize, ReadCompactSize, h1, h2, if_true, if_false,
        List.append_assoc, hr, hr2] at h
      simp only [show ¬ (253 : Nat) < 253 by omega, if_false, if_true] at h
      split at h
      · cases h
      · simp only [Option.some.injEq, Prod.mk.injEq] at h
        omega
    · by_cases h3 : n ≤ 4294967295
      · have hr := readData_writeData host 1 254 (writeData host 4 n ++ rest) (by norm_num)
        have hr2 := readData_writeData host 4 n rest (by norm_num; omega)
        simp only [WriteCompactSize, ReadCompactSize, h1, h2, h3, if_true, if_false,
          List.append_assoc, hr, hr2] at h
        simp only [show ¬ (254 : Nat) < 253 by omega, show ¬ (254 : Nat) = 253 by omega,
          if_false, if_true] at h
        have h4 : ¬ n < 65536 := by omega
        simp only [h4, if_false] at h
        split at h
        · cases h
        · simp only [Option.some.injEq, Prod.mk.injEq] at h
          omega
      · have hr := readData_writeData host 1 255 (writeData host 8 n ++ rest) (by norm_num)
        have hr2 := readData_writeData_mod host 8 n rest
        simp only [WriteCompactSize, ReadCompactSize, h1, h2, h3, if_true, if_false,
          List.append_assoc, hr, hr2] at h
        simp only [show ¬ (255 : Nat) < 253 by omega, show ¬ (255 : Nat) = 253 by omega,
          show ¬ (255 : Nat) = 254 by omega, if_false, if_true] at h
        split at h
        · cases h
        · split at h
          · cases h
          · rename_i h5 h6
            unfold MAX_SIZE at h6
            omega

theorem readElements_succ_ne_nil {T : Type} (readOne : ByteVector → Option (T × ByteVector))
    (n : Nat) (s r : ByteVector) (hn : n ≠ 0) :
    readElements readOne n s ≠ some ([], r) := by
  cases n with
  | zero => exact absurd rfl hn
  | succ k =>
    intro h
    simp only [readElements] at h
    cases h1 : readOne s with
    | none => simp [h1] at h
    | some p =>
      obtain ⟨x, rest⟩ := p
      simp only [h1] at h
      cases h2 : readElements readOne k rest with
      | none => simp [h2] at h
      | some q => simp [h2] at h

theorem BytesToDbType_undo_vector_ne_nil (host : Endian) (params : CChainParams)
    (vUndos : List CBettingUndo) (hne : vUndos ≠ []) :
    BytesToDbType (CBettingUndo.vectorDbType host params)
      (DbTypeToBytes (CBettingUndo.vectorDbType host params) vUndos) ≠ Except.ok [] := by
  intro h
  simp only [BytesToDbType, DbTypeToBytes, CBettingUndo.vectorDbType, readVector,
    writeVector] at h
  cases hc : ReadCompactSize host (WriteCompactSize host vUndos.length
      ++ writeElements (CBettingUndo.Serialize host params) vUndos) with
  | none => simp [hc] at h
  | some p =>
    obtain ⟨m, rest⟩ := p
    have hm := ReadCompactSize_WriteCompactSize_ne_zero host vUndos.length m _ rest
      (by
        intro h0
        exact hne (List.length_eq_zero.mp h0)) hc
    simp only [hc] at h
    cases he : readElements (CBettingUndo.Unserialize host params) m rest with
    | none => simp [he] at h
    | some q =>
      obtain ⟨l, r⟩ := q
      simp only [he] at h
      split at h
      · simp only [Except.ok.injEq] at h
        subst h
        exact readElements_succ_ne_nil _ m rest r hm he
      · cases h

theorem BytesToDbType_ne_outOfBounds {T : Type} (c : DbType T) (bytes : ByteVector) :
    BytesToDbType c bytes ≠ Except.error Fault.outOfBounds := by
  unfold BytesToDbType
  cases c.Unserialize bytes with
  | none => simp
  | some p =>
    obtain ⟨v, rest⟩ := p
    simp only
    split <;> simp

theorem collectOlderUndos_ne_outOfBounds (host : Endian) (params : CChainParams)
    (height : Nat) (lastHeightKey : ByteVector) (entries : List (ByteVector × ByteVector))
    (h : ∀ k v, (k, v) ∈ entries → k = lastHeightKey
      ∨ BytesToDbType (CBettingUndo.vectorDbType host params) v ≠ Except.ok []) :
    collectOlderUndos host params height lastHeightKey entries
      ≠ Except.error Fault.outOfBounds := by
  induction entries with
  | nil => simp [collectOlderUndos]
  | cons p tail ih =>
    obtain ⟨k, v⟩ := p
    have iht := ih (fun k' v' h' => h k' v' (List.mem_cons_of_mem _ h'))
    by_cases hlast : k = lastHeightKey
    · simp only [collectOlderUndos, hlast, if_true]
      exact iht
    · have hv : BytesToDbType (CBettingUndo.vectorDbType host params) v ≠ Except.ok [] := by
        rcases h k v (List.mem_cons_self _ _) with h1 | h1
        · exact absurd h1 hlast
        · exact h1
      simp only [collectOlderUndos, hlast, if_false]
      cases hk : BytesToDbType BettingUndoKey.dbType k with
      | error f =>
        simp only
        intro hf
        simp only [Except.error.injEq] at hf
        rw [hf] at hk
        exact BytesToDbType_ne_outOfBounds _ _ hk
      | ok key =>
        simp only
        cases hd : BytesToDbType (CBettingUndo.vectorDbType host params) v with
        | error f =>
          simp only
          intro hf
          simp only [Except.error.injEq] at hf
          rw [hf] at hd
          exact BytesToDbType_ne_outOfBounds _ _ hd
        | ok l =>
          cases l with
          | nil => exact absurd hd hv
          | cons u rest =>
            simp only
            cases hc : collectOlderUndos host params height lastHeightKey tail with
            | error f =>
              simp only
              intro hf
              simp only [Except.error.injEq] at hf
              rw [hf] at hc
              exact iht hc
            | ok ks => simp

theorem StoredUndoListsNonEmpty_afterCall (host : Endian) (params : CChainParams)
    (view : CBettingsView) (call : UndoCall) (hc : call.SavesNonEmpty)
    (hwf : StoredUndoListsNonEmpty host params view) :
    StoredUndoListsNonEmpty host params (view.afterCall host params call) := by
  intro k v hr
  cases call with
  | setLastHeight height =>
    by_cases hk : k = DbTypeToBytes (stringDbType host) lastHeightString
    · exact Or.inl hk
    · have hr2 : (view.SetLastHeight host height).undos.GetDb.Read k = some v := hr
      rw [CBettingsView.SetLastHeight_Read_other host view height k hk] at hr2
      exact hwf k v hr2
  | save key vUndos =>
    cases hex : view.undos.Exists BettingUndoKey.dbType key with
    | true =>
      have hs := CBettingsView.SaveBettingUndo_of_exists host params view key vUndos hex
      simp only [CBettingsView.afterCall, hs] at hr
      exact hwf k v hr
    | false =>
      have hs := CBettingsView.SaveBettingUndo_of_absent host params view key vUndos hex
      simp only [CBettingsView.afterCall, hs] at hr
      rcases CBettingDB.Read_after_Write BettingUndoKey.dbType
          (CBettingUndo.vectorDbType host params) view.undos key vUndos k with h | ⟨_, h⟩
      · rw [h] at hr
        exact hwf k v hr
      · rw [h] at hr
        exact Or.inr ⟨vUndos, hc, (Option.some.inj hr).symm⟩
  | erase key =>
    have he := CBettingDB.Read_after_Erase BettingUndoKey.dbType view.undos key
    have hr2 : (view.undos.Erase BettingUndoKey.dbType key).2.GetDb.Read k = some v := hr
    by_cases hk : k = DbTypeToBytes BettingUndoKey.dbType key
    · rw [hk, he.1] at hr2
      cases hr2
    · rw [he.2 k hk] at hr2
      exact hwf k v hr2

theorem StoredUndoListsNonEmpty_afterCalls (host : Endian) (params : CChainParams)
    (view : CBettingsView) (calls : List UndoCall)
    (hcalls : ∀ call ∈ calls, call.SavesNonEmpty)
    (hwf : StoredUndoListsNonEmpty host params view) :
    StoredUndoListsNonEmpty host params (view.afterCalls host params calls) := by
  induction calls generalizing view with
  | nil => exact hwf
  | cons call rest ih =>
    have h1 := StoredUndoListsNonEmpty_afterCall host params view call
      (hcalls call (List.mem_cons_self _ _)) hwf
    exact ih (view.afterCall host params call)
      (fun c hc => hcalls c (List.mem_cons_of_mem _ hc)) h1

theorem CBettingsView.PruneOlderUndos_ne_outOfBounds (host : Endian) (params : CChainParams)
    (view : CBettingsView) (height : Nat)
    (hwf : StoredUndoListsNonEmpty host params view) :
    view.PruneOlderUndos host params height ≠ Except.error Fault.outOfBounds := by
  have hc := collectOlderUndos_ne_outOfBounds host params height
    (DbTypeToBytes (stringDbType host) lastHeightString) view.undos.NewIterator
    (by
      intro k v hin
      have hr : view.undos.GetDb.Read k = some v := (CStorageKV.mem_entries _ k v).mp hin
      rcases hwf k v hr with h | ⟨l, hl, hv⟩
      · exact Or.inl h
      · rw [hv]
        exact Or.inr (BytesToDbType_undo_vector_ne_nil host params l hl))
  unfold CBettingsView.PruneOlderUndos
  cases hk : collectOlderUndos host params height
      (DbTypeToBytes (stringDbType host) lastHeightString) view.undos.NewIterator with
  | error f =>
    simp only
    intro hf
    simp only [Except.error.injEq] at hf
    rw [hf] at hk
    exact hc hk
  | ok ks => simp

/-- C24 fails as stated: `SaveBettingUndo` accepts an empty record list, so one save of
an empty list on the empty view leaves an undo entry with no record, and
`PruneOlderUndos` then reads `vUndos[0]` of an empty vector. -/
theorem CBettingsView_empty_undo_list_counterexample :
    (sampleView.afterCalls Endian.little sampleParams [UndoCall.save 5 []]).GetBettingUndo
        Endian.little sampleParams 5 = Except.ok []
    ∧ (sampleView.afterCalls Endian.little sampleParams [UndoCall.save 5 []]).undos.Exists
        BettingUndoKey.dbType 5 = true
    ∧ (sampleView.afterCalls Endian.little sampleParams [UndoCall.save 5 []]).PruneOlderUndos
        Endian.little sampleParams 100 = Except.error Fault.outOfBounds := by
  refine ⟨by rfl, by decide, by rfl⟩

/-- C24, amended: in every state reached from a view with an empty undo table by
`SetLastHeight`, `EraseBettingUndo` and `SaveBettingUndo` of non-empty record lists, every
stored undo entry has a non-empty record list, and `PruneOlderUndos` never reads
`vUndos[0]` outside the vector. -/
theorem CBettingsView_undo_lists_non_empty (host : Endian) (params : CChainParams)
    (view : CBettingsView) (calls : List UndoCall) (height : Nat)
    (hempty : ∀ k, view.undos.GetDb.Read k = none)
    (hcalls : ∀ call ∈ calls, call.SavesNonEmpty) :
    StoredUndoListsNonEmpty host params (view.afterCalls host params calls)
    ∧ (∀ k v, (view.afterCalls host params calls).undos.GetDb.Read k = some v →
        k ≠ DbTypeToBytes (stringDbType host) lastHeightString →
        BytesToDbType (CBettingUndo.vectorDbType host params) v ≠ Except.ok [])
    ∧ (view.afterCalls host params calls).PruneOlderUndos host params height
        ≠ Except.error Fault.outOfBounds := by
  have h0 : StoredUndoListsNonEmpty host params view := by
    intro k v hr
    rw [hempty k] at hr
    cases hr
  have hwf := StoredUndoListsNonEmpty_afterCalls host params view calls hcalls h0
  refine ⟨hwf, ?_, CBettingsView.PruneOlderUndos_ne_outOfBounds host params _ height hwf⟩
  intro k v hr hk
  rcases hwf k v hr with h | ⟨l, hl, hv⟩
  · exact absurd h hk
  · rw [hv]
    exact BytesToDbType_undo_vector_ne_nil host params l hl

theorem sampleView_undos_empty (k : ByteVector) : sampleView.undos.GetDb.Read k = none := by
  simp [sampleView, sampleEmptyDb, CBettingDB.GetDb, CFlushableStorageKV.Read,
    CFlushableStorageKV.toStorage, CStorageKV.Read, mapFind]

theorem sampleCalls_SavesNonEmpty : ∀ call ∈ sampleCalls, call.SavesNonEmpty := by
  intro call hc
  simp only [sampleCalls, List.mem_cons, List.mem_singleton, List.not_mem_nil, or_false] at hc
  rcases hc with rfl | rfl | rfl | rfl
  · trivial
  · simp [UndoCall.SavesNonEmpty, sampleUndos]
  · trivial
  · simp [UndoCall.SavesNonEmpty, sampleLateUndos]

/-- C24 amended, on the sample sequence of calls from the empty sample view. -/
theorem CBettingsView_undo_lists_non_empty_witness :
    (sampleView.afterCalls Endian.little sampleParams sampleCalls).PruneOlderUndos
        Endian.little sampleParams 100 ≠ Except.error Fault.outOfBounds :=
  (CBettingsView_undo_lists_non_empty Endian.little sampleParams sampleView sampleCalls 100
    sampleView_undos_empty sampleCalls_SavesNonEmpty).2.2

/-! ## Pruning twice -/

theorem UndoEntriesNonEmpty_of_subset (host : Endian) (params : CChainParams)
    (view pruned : CBettingsView)
    (hsub : ∀ k v, pruned.undos.GetDb.Read k = some v → view.undos.GetDb.Read k = some v)
    (hwf : UndoEntriesNonEmpty host params view) :
    UndoEntriesNonEmpty host params pruned :=
  fun k v hr => hwf k v (hsub k v hr)

theorem eraseUndoKeys_subset (undos : CBettingDB) (ks : List BettingUndoKey)
    (k v : ByteVector) (h : (eraseUndoKeys undos ks).GetDb.Read k = some v) :
    undos.GetDb.Read k = some v := by
  rw [eraseUndoKeys_Read] at h
  split at h
  · cases h
  · exact h

theorem CBettingsView.with_undos_self (view : CBettingsView) :
    { view with undos := eraseUndoKeys view.undos [] } = view := by
  cases view
  rfl

/-- C28: on an undo table whose entries all hold a non-empty record list, and for
heights `h1 ≤ h2`: `PruneOlderUndos(h2)` applied to the result of `PruneOlderUndos(h2)`
changes nothing, and `PruneOlderUndos(h1)` followed by `PruneOlderUndos(h2)` leaves the
same table as `PruneOlderUndos(h2)` alone: every key reads the same, and the six other
tables are equal. -/
theorem CBettingsView_PruneOlderUndos_idempotent_monotone (host : Endian)
    (params : CChainParams) (view : CBettingsView) (h1 h2 : Nat) (hle : h1 ≤ h2)
    (hwf : UndoEntriesNonEmpty host params view) :
    ∃ p1 p2 p12 : CBettingsView,
      view.PruneOlderUndos host params h1 = Except.ok p1
      ∧ view.PruneOlderUndos host params h2 = Except.ok p2
      ∧ p1.PruneOlderUndos host params h2 = Except.ok p12
      ∧ p2.PruneOlderUndos host params h2 = Except.ok p2
      ∧ (∀ k, p12.undos.GetDb.Read k = p2.undos.GetDb.Read k)
      ∧ (∀ key, p12.GetBettingUndo host params key = p2.GetBettingUndo host params key)
      ∧ p12.GetLastHeight host = p2.GetLastHeight host
      ∧ p12.mappings = p2.mappings ∧ p12.results = p2.results ∧ p12.events = p2.events
      ∧ p12.bets = p2.bets ∧ p12.payoutsInfo = p2.payoutsInfo
      ∧ p12.quickGamesBets = p2.quickGamesBets := by
  obtain ⟨ks1, hp1, hm1⟩ := CBettingsView.PruneOlderUndos_Read host params view h1 hwf
  obtain ⟨ks2, hp2, hm2⟩ := CBettingsView.PruneOlderUndos_Read host params view h2 hwf
  have hwf1 : UndoEntriesNonEmpty host params
      { view with undos := eraseUndoKeys view.undos ks1 } :=
    UndoEntriesNonEmpty_of_subset host params view _
      (fun k v h => eraseUndoKeys_subset view.undos ks1 k v h) hwf
  have hwf2 : UndoEntriesNonEmpty host params
      { view with undos := eraseUndoKeys view.undos ks2 } :=
    UndoEntriesNonEmpty_of_subset host params view _
      (fun k v h => eraseUndoKeys_subset view.undos ks2 k v h) hwf
  obtain ⟨ks12, hp12, hm12⟩ := CBettingsView.PruneOlderUndos_Read host params _ h2 hwf1
  obtain ⟨ks22, hp22, hm22⟩ := CBettingsView.PruneOlderUndos_Read host params _ h2 hwf2
  have hr1 := eraseUndoKeys_Read ks1 view.undos
  have hr2 := eraseUndoKeys_Read ks2 view.undos
  have hks22 : ks22 = [] := by
    cases ks22 with
    | nil => rfl
    | cons key rest =>
      exfalso
      obtain ⟨v, u, tl, hread, hne, hd, hlt⟩ := (hm22 (DbTypeToBytes BettingUndoKey.dbType key)).mp
        (by simp)
      have hread' : (eraseUndoKeys view.undos ks2).GetDb.Read
          (DbTypeToBytes BettingUndoKey.dbType key) = some v := hread
      have hin : DbTypeToBytes BettingUndoKey.dbType key
          ∈ ks2.map (DbTypeToBytes BettingUndoKey.dbType) :=
        (hm2 _).mpr ⟨v, u, tl, eraseUndoKeys_subset _ _ _ _ hread', hne, hd, hlt⟩
      rw [hr2] at hread'
      simp only [hin, if_true] at hread'
      cases hread'
  have hreads : ∀ k, (eraseUndoKeys (eraseUndoKeys view.undos ks1) ks12).GetDb.Read k
      = (eraseUndoKeys view.undos ks2).GetDb.Read k := by
    intro k
    rw [eraseUndoKeys_Read ks12, hr2]
    by_cases hk2 : k ∈ ks2.map (DbTypeToBytes BettingUndoKey.dbType)
    · simp only [hk2, if_true]
      obtain ⟨v, u, tl, hread, hne, hd, hlt⟩ := (hm2 k).mp hk2
      by_cases hk1 : k ∈ ks1.map (DbTypeToBytes BettingUndoKey.dbType)
      · split
        · rfl
        · rw [hr1]
          simp only [hk1, if_true]
      · have hread1 : (eraseUndoKeys view.undos ks1).GetDb.Read k = some v := by
          rw [hr1]
          simp only [hk1, if_false, hread]
        have hin : k ∈ ks12.map (DbTypeToBytes BettingUndoKey.dbType) :=
          (hm12 k).mpr ⟨v, u, tl, hread1, hne, hd, hlt⟩
        simp only [hin, if_true]
    · simp only [hk2, if_false]
      have hk1 : ¬ k ∈ ks1.map (DbTypeToBytes BettingUndoKey.dbType) := by
        intro hin
        obtain ⟨v, u, tl, hread, hne, hd, hlt⟩ := (hm1 k).mp hin
        exact hk2 ((hm2 k).mpr ⟨v, u, tl, hread, hne, hd, by omega⟩)
      have hk12 : ¬ k ∈ ks12.map (DbTypeToBytes BettingUndoKey.dbType) := by
        intro hin
        obtain ⟨v, u, tl, hread, hne, hd, hlt⟩ := (hm12 k).mp hin
        exact hk2 ((hm2 k).mpr ⟨v, u, tl, eraseUndoKeys_subset _ _ _ _ hread, hne, hd, hlt⟩)
      simp only [hk12, if_false]
      rw [hr1]
      simp only [hk1, if_false]
  refine ⟨_, _, _, hp1, hp2, hp12, ?_, hreads, ?_, ?_, rfl, rfl, rfl, rfl, rfl, rfl⟩
  · rw [hp22, hks22]
    exact congrArg Except.ok (CBettingsView.with_undos_self _)
  · intro key
    exact CBettingsView.GetBettingUndo_congr host params _ _ key (hreads _)
  · exact CBettingsView.GetLastHeight_congr host _ _ (hreads _)

/-- C28 on the sample view holding the scalar 7 and a list of first height 50 under block
id 5: pruning below 60 and then below 100 ends normally, as does pruning below 100. -/
theorem CBettingsView_PruneOlderUndos_idempotent_monotone_witness :
    ∃ p1 p2 p12 : CBettingsView,
      sampleUndoView.PruneOlderUndos Endian.little sampleParams 60 = Except.ok p1
      ∧ sampleUndoView.PruneOlderUndos Endian.little sampleParams 100 = Except.ok p2
      ∧ p1.PruneOlderUndos Endian.little sampleParams 100 = Except.ok p12
      ∧ p12.GetBettingUndo Endian.little sampleParams 5
          = p2.GetBettingUndo Endian.little sampleParams 5 := by
  obtain ⟨p1, p2, p12, h1, h2, h12, _, _, hget, _⟩ :=
    CBettingsView_PruneOlderUndos_idempotent_monotone Endian.little sampleParams
      sampleUndoView 60 100 (by decide) sampleUndoView_UndoEntriesNonEmpty
  exact ⟨p1, p2, p12, h1, h2, h12, hget 5⟩

end Wagerr
